import Mathlib

/-!
# BubiC-8801MA: bank table and disk-container enumeration

A shallow embedding of

* the `SET_BANK` macro of `src/vm/pc8801/pc88.cpp` (the 16-entry read/write
  page tables of the PC-8801 memory bus), and
* `get_disk_names` and the disk-insertion handlers of `src/sdl3/osd.cpp`.

Definitions come first, theorems afterwards.
-/

namespace PC88

/-! ## Definitions: bank table -/

/-- A `uint8_t*` value, as the address it holds. -/
abbrev Ptr : Type := Int

/-- The C expression `(x) >> 12` on an `int`: an arithmetic shift, the page index
of the address `x`. -/
def shr12 (x : Int) : Int := x >>> (12 : Nat)

/-- The two page tables `wbank[]` and `rbank[]` of the PC-8801 memory bus.  The
tables are indexed by the C `int` loop variable, so the index type is `Int`:
an index outside `0..15` stands for the memory next to the 16-entry arrays. -/
structure Banks where
  wbank : Int → Ptr
  rbank : Int → Ptr

/-- One pass through the body of the `for` loop of `SET_BANK(s, e, w, r)`, for
the loop variable `i`, with `sb = (s) >> 12` already computed.  `wdmy` and
`rdmy` are the write-drop and read-dummy buffers of the class (declared in
`pc88.h`). -/
def SET_BANK_body (wdmy rdmy : Ptr) (sb : Int) (w r : Ptr) (m : Banks) (i : Int) : Banks :=
  { wbank := fun j =>
      if j = i then (if w = wdmy then wdmy else w + 0x1000 * (i - sb)) else m.wbank j
    rbank := fun j =>
      if j = i then (if r = rdmy then rdmy else r + 0x1000 * (i - sb)) else m.rbank j }

/-- The loop `for(int i = ...; i <= eb; i++) body`, entered with `n` passes
still to run and the loop variable at `i`. -/
def SET_BANK_loop (wdmy rdmy : Ptr) (sb : Int) (w r : Ptr) : Nat → Int → Banks → Banks
  | 0, _, m => m
  | n + 1, i, m =>
      SET_BANK_loop wdmy rdmy sb w r n (i + 1) (SET_BANK_body wdmy rdmy sb w r m i)

/-- The macro `SET_BANK(s, e, w, r)`:
`int sb = (s) >> 12, eb = (e) >> 12; for(int i = sb; i <= eb; i++) { ... }`.
The loop runs `eb - sb + 1` times when `sb <= eb` and not at all otherwise. -/
def SET_BANK (wdmy rdmy : Ptr) (m : Banks) (s e : Int) (w r : Ptr) : Banks :=
  let sb := shr12 s
  let eb := shr12 e
  SET_BANK_loop wdmy rdmy sb w r (eb - sb + 1).toNat sb m

/-- A table state used in the examples: every page of both tables points at
address `0`. -/
def Banks.zero : Banks := { wbank := fun _ => 0, rbank := fun _ => 0 }


/-! ## Definitions: disk container enumeration (`get_disk_names`) -/

/-- The parts of the build that `osd.cpp` uses and that are not among the
sources: constants of `emu.h` / `config.h` / `common.h`, the width of the C type
`long`, and helper functions of `common.cpp`; and the content of the one
uninitialised buffer the code reads. -/
structure Host where
  /-- Constant `MAX_D88_BANKS` of `emu.h`. -/
  MAX_D88_BANKS : Nat
  /-- Number of bits of the C type `long` (64 on Linux and macOS, 32 on
  Windows). -/
  LONG_BITS : Nat
  /-- Constant `_MAX_PATH`. -/
  _MAX_PATH : Nat
  /-- Function `sjis_to_utf8(src, dst, size)`: the string left in `dst` for the
  NUL-terminated buffer `src` (given by its bytes before the terminator slot). -/
  sjis_to_utf8 : List Nat → List Nat
  /-- Function `utf8_path_to_tchar` of `osd.cpp`, which hands the text to a
  conversion of the platform (`MultiByteToWideChar`, or `char_to_tchar` of
  `common.cpp`); a null argument does not occur. -/
  utf8_path_to_tchar : String → String
  /-- Function `tchar_to_char`. -/
  tchar_to_char : String → String
  /-- What `my_tcscpy_s(dst, _MAX_PATH, src)` leaves in `dst` when `src` does not
  fit (arguments: old `dst`, `src`). -/
  tcscpy_overflow : String → String → String
  /-- Constant `MAX_HISTORY` of `config.h`. -/
  MAX_HISTORY : Nat
  /-- Constant `USE_FLOPPY_DISK`. -/
  USE_FLOPPY_DISK : Int
  /-- Function `_tcsicmp(a, b)`: zero when the two strings are equal ignoring case. -/
  tcsicmp : String → String → Int
  /-- File name part of a path: `path_to_utf8(fs::path(p).filename())`. -/
  filename : String → String
  /-- The bytes the uninitialised local `char name_buf[18]` of `get_disk_names`
  holds when the pass of its loop with the given `count` begins (indeterminate
  in C); only the first 17 are used. -/
  name_buf_uninit : Nat → List Nat
  /-- Method `emu->create_blank_floppy_disk(path, type)`: the file system afterwards,
  `none` when the call returns false. -/
  create_blank_floppy_disk : (String → Option (List Nat)) → String → Int →
    Option (String → Option (List Nat))

/-- Function `my_tcscpy_s(dst, _MAX_PATH, src)`: the new content of `dst` (first argument:
its old content).  A source that fits with its terminator is copied. -/
def my_tcscpy_s (h : Host) (dst src : String) : String :=
  if src.length < h._MAX_PATH then src else h.tcscpy_overflow dst src

/-- Conversion of an integer to a C `long` of `w` bits (two's complement
wrap-around). -/
def wrapLong (w : Nat) (x : Int) : Int :=
  let half : Int := ((2 ^ (w - 1) : Nat) : Int)
  (x + half) % (2 * half) - half

/-- The host file system: the bytes of each file that can be opened for
reading, by path. -/
abbrev Files : Type := String → Option (List Nat)

/-- Modelled from the spec: class `FILEIO` (`fileio.h` is not among the
sources), as far as `get_disk_names` uses it: a file is a sequence of bytes
read through a cursor ("reading a fixed 17-byte name field plus a 4-byte
little-endian total-size field").  Reads past the end follow the C library
calls the class wraps (`fread`, `fgetc`). -/
structure FILEIO where
  /-- Content of the file. -/
  bytes : List Nat
  /-- Whether the object holds an open file. -/
  is_open : Bool
  /-- Read cursor. -/
  pos : Nat

/-- Method `fio.Fopen(path, FILEIO_READ_BINARY)` on a fresh object: `none` when the
call returns false. -/
def FILEIO.Fopen (files : Files) (path : String) : Option FILEIO :=
  match files path with
  | some bytes => some { bytes := bytes, is_open := true, pos := 0 }
  | none => none

/-- Method `fio.FileLength()`. -/
def FILEIO.FileLength (f : FILEIO) : Int := (f.bytes.length : Int)

/-- Method `fio.Fseek(offset, FILEIO_SEEK_SET)`: a negative offset is refused and
leaves the cursor where it was. -/
def FILEIO.Fseek (f : FILEIO) (offset : Int) : FILEIO :=
  if offset < 0 then f else { f with pos := offset.toNat }

/-- Method `fio.Fread(buf, n, 1)`, for the bytes `buf` the buffer holds before
the call: the first `n` bytes of the buffer afterwards and the file.  A read
cut short by the end of the file stores only the bytes it read at the front of
the buffer and leaves the rest of it as it was. -/
def FILEIO.Fread (f : FILEIO) (buf : List Nat) (n : Nat) : List Nat × FILEIO :=
  let got := (f.bytes.drop f.pos).take n
  (got.map (· % 256) ++ (buf.take n).drop got.length,
   { f with pos := f.pos + got.length })

/-- Method `fio.Fgetc()`: the next byte, or `EOF` (-1) at the end of the file. -/
def FILEIO.Fgetc (f : FILEIO) : Int × FILEIO :=
  match f.bytes.get? f.pos with
  | some b => (((b % 256 : Nat) : Int), { f with pos := f.pos + 1 })
  | none => (-1, f)

/-- Method `fio.FgetUint8()`, that is `(uint8_t)Fgetc()`. -/
def FILEIO.FgetUint8 (f : FILEIO) : Nat × FILEIO :=
  ((f.Fgetc.1 % 256).toNat, f.Fgetc.2)

/-- Method `fio.FgetUint32_LE()`: four bytes, least significant first. -/
def FILEIO.FgetUint32_LE (f : FILEIO) : Nat × FILEIO :=
  let r0 := f.FgetUint8
  let r1 := r0.2.FgetUint8
  let r2 := r1.2.FgetUint8
  let r3 := r2.2.FgetUint8
  (r0.1 + 0x100 * r1.1 + 0x10000 * r2.1 + 0x1000000 * r3.1, r3.2)

/-- Method `fio.Fclose()`. -/
def FILEIO.Fclose (f : FILEIO) : FILEIO := { f with is_open := false }

/-- One entry of `emu->d88_file[]`. -/
structure D88File where
  /-- Member `path`. -/
  path : String
  /-- Member `disk_name[MAX_D88_BANKS]`, by index. -/
  disk_name : Nat → List Nat
  /-- Member `bank_num`. -/
  bank_num : Int
  /-- Member `cur_bank`. -/
  cur_bank : Int

/-- One entry of `emu->floppy_disk_status[]`. -/
structure FloppyStatus where
  /-- Member `path`. -/
  path : String
  /-- Member `bank`. -/
  bank : Int

/-- The members of class `EMU` that `osd.cpp` reads and writes for the floppy
drives; the arrays are indexed by the C `int` drive number. -/
structure EMU where
  /-- Member `d88_file[]`. -/
  d88_file : Int → D88File
  /-- Member `floppy_disk_status[]`. -/
  floppy_disk_status : Int → FloppyStatus

/-- The local variables of `get_disk_names` inside its `while` loop, the name
table `emu->d88_file[drv].disk_name` the loop writes to, and (for the safety
statements) the list `written` of the indices of that table the loop has
stored to, oldest first. -/
structure ScanState where
  /-- The local `fio`. -/
  fio : FILEIO
  /-- The local `offset`. -/
  offset : Int
  /-- The local `count`. -/
  count : Nat
  /-- The array `emu->d88_file[drv].disk_name`. -/
  disk_name : Nat → List Nat
  /-- Indices of `disk_name` stored to so far. -/
  written : List Nat

/-- The loop `while (offset < file_size && count < MAX_D88_BANKS) { ... }` of
`get_disk_names`.  Every pass either leaves through `break` or increments
`count`, so `MAX_D88_BANKS - count` passes are always enough; `fuel` bounds
the number of passes. -/
def get_disk_names_loop (h : Host) (file_size : Int) : Nat → ScanState → ScanState
  | 0, st => st
  | fuel + 1, st =>
    if st.offset < file_size ∧ st.count < h.MAX_D88_BANKS then
      let rd := (st.fio.Fseek st.offset).Fread (h.name_buf_uninit st.count) 17
      let names := Function.update st.disk_name st.count (h.sjis_to_utf8 rd.1)
      let sz := (rd.2.Fseek (wrapLong h.LONG_BITS (st.offset + 0x1c))).FgetUint32_LE
      if sz.1 = 0 then
        { fio := sz.2, offset := st.offset, count := st.count, disk_name := names,
          written := st.written ++ [st.count] }
      else
        get_disk_names_loop h file_size fuel
          { fio := sz.2, offset := wrapLong h.LONG_BITS (st.offset + (sz.1 : Int)),
            count := st.count + 1, disk_name := names,
            written := st.written ++ [st.count] }
    else st

/-- The state in which `get_disk_names` enters its loop on a file with the
content `bytes`: `offset = 0`, `count = 0`, the name table as it was. -/
def scanStart (bytes : List Nat) (names : Nat → List Nat) : ScanState :=
  { fio := { bytes := bytes, is_open := true, pos := 0 }, offset := 0, count := 0,
    disk_name := names, written := [] }

/-- What a call of `get_disk_names` leaves behind. -/
structure DiskNamesResult where
  /-- The value returned. -/
  ret : Int
  /-- The object `emu` points to, afterwards (`none` for a null pointer). -/
  emu : Option EMU
  /-- The local `fio` at the return (`none` when the function returned before
  constructing it). -/
  fio : Option FILEIO
  /-- Indices of `emu->d88_file[drv].disk_name` stored to during the call. -/
  written : List Nat

/-- The function `get_disk_names(path, drv, emu)` of `osd.cpp`. -/
def get_disk_names (h : Host) (files : Files) (path : String) (drv : Int)
    (emu : Option EMU) : DiskNamesResult :=
  match emu with
  | none => { ret := 0, emu := none, fio := none, written := [] }
  | some em =>
    match FILEIO.Fopen files (h.utf8_path_to_tchar path) with
    | none =>
      { ret := 0, emu := some em,
        fio := some { bytes := [], is_open := false, pos := 0 }, written := [] }
    | some fio =>
      let st := get_disk_names_loop h fio.FileLength h.MAX_D88_BANKS
        { fio := fio, offset := 0, count := 0, disk_name := (em.d88_file drv).disk_name,
          written := [] }
      let d : D88File :=
        { path := my_tcscpy_s h (em.d88_file drv).path (h.utf8_path_to_tchar path)
          disk_name := st.disk_name
          bank_num := (st.count : Int)
          cur_bank := (em.d88_file drv).cur_bank }
      { ret := (st.count : Int)
        emu := some { em with d88_file := Function.update em.d88_file drv d }
        fio := some st.fio.Fclose
        written := st.written }

/-! ### Reading a container as a sequence of records -/

/-- The 4-byte little-endian number stored at position `p` of `bytes`. -/
def le32At (bytes : List Nat) (p : Nat) : Nat :=
  bytes.getD p 0 + 0x100 * bytes.getD (p + 1) 0 + 0x10000 * bytes.getD (p + 2) 0
    + 0x1000000 * bytes.getD (p + 3) 0

/-- Start of record `j` of a container whose records have the sizes `sizes`:
the sum of the sizes of the records before it. -/
def recordStart (sizes : List Nat) (j : Nat) : Nat := (sizes.take j).sum

/-- The 17 bytes of the name field at position `p`. -/
def nameAt (bytes : List Nat) (p : Nat) : List Nat := (bytes.drop p).take 17

/-- The bytes of a number as a 4-byte little-endian field. -/
def le32Bytes (n : Nat) : List Nat :=
  [n % 0x100, n / 0x100 % 0x100, n / 0x10000 % 0x100, n / 0x1000000 % 0x100]

/-- A record of a container, for the examples: a 17-byte name field, zero
bytes up to offset `0x1C`, the size field, and `pad` further zero bytes
(total size `0x20 + pad`). -/
def mkRecord (name : List Nat) (size pad : Nat) : List Nat :=
  (name ++ List.replicate 17 0).take 17 ++ List.replicate 11 0 ++ le32Bytes size
    ++ List.replicate pad 0

/-- The host used in the examples: 64 banks, a 64-bit `long`, paths of up to
260 characters, identity conversions, a history of 8 entries for each of 2
drives, blank disks created as empty files, and the byte `0x5a` in every
uninitialised buffer slot. -/
def Host.example : Host :=
  { MAX_D88_BANKS := 64, LONG_BITS := 64, _MAX_PATH := 260,
    sjis_to_utf8 := fun b => b, utf8_path_to_tchar := fun p => p,
    tchar_to_char := fun p => p, tcscpy_overflow := fun d _ => d,
    MAX_HISTORY := 8, USE_FLOPPY_DISK := 2,
    tcsicmp := fun a b =>
      if a.toList.map Char.toLower = b.toList.map Char.toLower then 0 else 1,
    filename := fun p => p,
    name_buf_uninit := fun _ => List.replicate 17 0x5a,
    create_blank_floppy_disk := fun files p _ =>
      some (fun q => if q = p then some [] else files q) }

/-- An `EMU` used in the examples: both drives hold `old.d88` with three
banks, bank 2 selected, all names empty. -/
def EMU.example : EMU :=
  { d88_file := fun _ =>
      { path := "old.d88", disk_name := fun _ => [], bank_num := 3, cur_bank := 2 }
    floppy_disk_status := fun _ => { path := "old.d88", bank := 2 } }

/-- A file system used in the examples: `two.d88` holds two records of 32 and
40 bytes named `A` and `B`, `zero.d88` holds one record whose size field is
zero, `empty.d88` is an empty file; nothing else can be opened. -/
def Files.example : Files := fun p =>
  if p = "two.d88" then some (mkRecord [65] 32 0 ++ mkRecord [66] 40 8)
  else if p = "zero.d88" then some (mkRecord [90] 0 0)
  else if p = "empty.d88" then some []
  else none

/-- The bytes from position `off` on start with records of the sizes `sizes`,
one after the other: each record lies with its first `0x20` bytes inside the
file and carries its own non-zero size as a little-endian number at `0x1C`. -/
def RecordChain (bytes : List Nat) : Nat → List Nat → Prop
  | _, [] => True
  | off, s :: rest =>
      s ≠ 0 ∧ off + 0x20 ≤ bytes.length ∧ le32At bytes (off + 0x1c) = s ∧
        RecordChain bytes (off + s) rest

/-! ## Definitions: disk insertion and bank selection in the host UI -/

/-- The function `add_recent_disk`, first loop: entries before the first empty
slot that differ from `new_path` are moved to the front.  `n` passes remain,
`r` is `read_idx`, `w` is `write_idx`; the result is the array and the final
`write_idx`. -/
def add_recent_disk_compact (h : Host) (new_path : String) :
    Nat → Nat → Nat → (Nat → String) → (Nat → String) × Nat
  | 0, _, w, arr => (arr, w)
  | n + 1, r, w, arr =>
    if arr r = "" then (arr, w)
    else if h.tcsicmp (arr r) new_path ≠ 0 then
      add_recent_disk_compact h new_path n (r + 1) (w + 1)
        (if w ≠ r then Function.update arr w (my_tcscpy_s h (arr w) (arr r)) else arr)
    else add_recent_disk_compact h new_path n (r + 1) w arr

/-- The function `add_recent_disk`, second loop: `n` entries from index `i` on
are emptied. -/
def add_recent_disk_clear : Nat → Nat → (Nat → String) → (Nat → String)
  | 0, _, arr => arr
  | n + 1, i, arr => add_recent_disk_clear n (i + 1) (Function.update arr i "")

/-- The function `add_recent_disk`, third loop
(`for (i = MAX_HISTORY - 1; i > 0; i--)`), entered with the loop variable at
`i`: every entry is copied one slot back. -/
def add_recent_disk_shift (h : Host) : Nat → (Nat → String) → (Nat → String)
  | 0, arr => arr
  | i + 1, arr =>
    add_recent_disk_shift h i (Function.update arr (i + 1) (my_tcscpy_s h (arr (i + 1)) (arr i)))

/-- The function `add_recent_disk(path, drv)` on
`config.recent_floppy_disk_path` (indexed by drive and slot).  The callers never
pass a null `path`. -/
def add_recent_disk (h : Host) (recent : Int → Nat → String) (path : String) (drv : Int) :
    Int → Nat → String :=
  if path = "" ∨ drv ≥ h.USE_FLOPPY_DISK then recent
  else
    let new_path := my_tcscpy_s h "" path
    let c := add_recent_disk_compact h new_path h.MAX_HISTORY 0 0 (recent drv)
    let cleared := add_recent_disk_clear (h.MAX_HISTORY - c.2) c.2 c.1
    let shifted := add_recent_disk_shift h (h.MAX_HISTORY - 1) cleared
    Function.update recent drv
      (Function.update shifted 0 (my_tcscpy_s h (shifted 0) new_path))

/-- A call the host UI forwards to the VM. -/
inductive VMCall where
  /-- Call `vm->open_floppy_disk(drv, path, bank)`. -/
  | open_floppy_disk (drv : Int) (path : String) (bank : Int)
  deriving DecidableEq

/-- The state the disk handlers of class `OSD` work on: the members of the
object they use, together with `config.recent_floppy_disk_path`, the host file
system, and the list of calls made on `vm` (oldest first).  Calls on `vm` are
taken not to touch any of this state. -/
structure OSD where
  /-- Whether `vm` is non-null. -/
  vm : Bool
  /-- The object `emu` points to (`none` for a null pointer). -/
  emu : Option EMU
  /-- Member `fd1_path`. -/
  fd1_path : String
  /-- Member `fd2_path`. -/
  fd2_path : String
  /-- Member `pending_drive`. -/
  pending_drive : Int
  /-- Member `pending_blank_type`. -/
  pending_blank_type : Int
  /-- Member `show_file_browser`. -/
  show_file_browser : Bool
  /-- Member `show_save_browser`. -/
  show_save_browser : Bool
  /-- The global `config.recent_floppy_disk_path`, by drive and slot. -/
  recent : Int → Nat → String
  /-- The host file system. -/
  files : Files
  /-- Calls made on `vm`. -/
  vm_calls : List VMCall

/-- The statements every insertion repeats on `emu`, for drive `drv` and bank
`bank`:
`my_tcscpy_s(emu->floppy_disk_status[drv].path, _MAX_PATH, status_path);`
`emu->floppy_disk_status[drv].bank = bank;`
`banks = get_disk_names(names_path, drv, emu);`
`emu->d88_file[drv].cur_bank = bank;`
The result is the `EMU` afterwards and `banks`. -/
def insert_into_emu (h : Host) (files : Files) (em : EMU) (drv : Int)
    (status_path names_path : String) (bank : Int) : EMU × Int :=
  let em1 : EMU :=
    { d88_file := em.d88_file,
      floppy_disk_status := Function.update em.floppy_disk_status drv
        (FloppyStatus.mk (my_tcscpy_s h (em.floppy_disk_status drv).path status_path) bank) }
  let r := get_disk_names h files names_path drv (some em1)
  let em2 := r.emu.getD em1
  ({ d88_file := Function.update em2.d88_file drv
        (D88File.mk (em2.d88_file drv).path (em2.d88_file drv).disk_name
          (em2.d88_file drv).bank_num bank),
     floppy_disk_status := em2.floppy_disk_status }, r.ret)

/-- The handler of a click on a disk image in the file browser
(`OSD::draw_file_browser`, body of `if (ImGui::Button(filename.c_str()))`),
for the directory entry with the path `full_path` and the name
`display_name`. -/
def file_browser_click (h : Host) (s : OSD) (full_path display_name : String) : OSD :=
  let p := h.utf8_path_to_tchar full_path
  let s1 : OSD :=
    if s.pending_drive = 0 then
      if s.vm then
        let a : OSD :=
          { s with vm_calls := s.vm_calls ++ [VMCall.open_floppy_disk 0 p 0],
                   fd1_path := my_tcscpy_s h s.fd1_path (h.utf8_path_to_tchar display_name) }
        let b : OSD :=
          match a.emu with
          | none => a
          | some em =>
            let i0 := insert_into_emu h a.files em 0 p full_path 0
            if a.fd2_path = "" ∧ i0.2 ≥ 2 then
              let i1 := insert_into_emu h a.files i0.1 1 p full_path 1
              { a with vm_calls := a.vm_calls ++ [VMCall.open_floppy_disk 1 p 1],
                       fd2_path :=
                         my_tcscpy_s h a.fd2_path (h.utf8_path_to_tchar display_name),
                       emu := some i1.1,
                       recent := add_recent_disk h a.recent p 1 }
            else { a with emu := some i0.1 }
        { b with recent := add_recent_disk h b.recent p 0 }
      else s
    else
      if s.vm then
        let a : OSD :=
          { s with vm_calls := s.vm_calls ++ [VMCall.open_floppy_disk 1 p 0],
                   fd2_path := my_tcscpy_s h s.fd2_path (h.utf8_path_to_tchar display_name) }
        let b : OSD :=
          match a.emu with
          | none => a
          | some em => { a with emu := some (insert_into_emu h a.files em 1 p full_path 0).1 }
        { b with recent := add_recent_disk h b.recent p 1 }
      else s
  { s1 with show_file_browser := false }

/-- The handler of a click on entry `i` of the "Recent Disks" menu of drive
`drv` (`OSD::draw_menu_contents`).  The entry is on the menu when it and all
entries before it are non-empty; a click on an entry that is not there does
nothing. -/
def recent_disk_click (h : Host) (s : OSD) (drv : Int) (i : Nat) : OSD :=
  if i < h.MAX_HISTORY ∧ ∀ k, k < i + 1 → s.recent drv k ≠ "" then
    let r_path := s.recent drv i
    let filename_utf8 := h.filename (h.tchar_to_char r_path)
    let s1 : OSD :=
      if s.vm then
        let a : OSD :=
          { s with vm_calls := s.vm_calls ++ [VMCall.open_floppy_disk drv r_path 0],
                   fd1_path :=
                     if drv = 0 then
                       my_tcscpy_s h s.fd1_path (h.utf8_path_to_tchar filename_utf8)
                     else s.fd1_path,
                   fd2_path :=
                     if drv = 0 then s.fd2_path
                     else my_tcscpy_s h s.fd2_path (h.utf8_path_to_tchar filename_utf8) }
        match a.emu with
        | none => a
        | some em =>
          let i0 := insert_into_emu h a.files em drv r_path (h.tchar_to_char r_path) 0
          if drv = 0 ∧ a.fd2_path = "" ∧ i0.2 ≥ 2 then
            let i1 := insert_into_emu h a.files i0.1 1 r_path (h.tchar_to_char r_path) 1
            { a with vm_calls := a.vm_calls ++ [VMCall.open_floppy_disk 1 r_path 1],
                     fd2_path :=
                       my_tcscpy_s h a.fd2_path (h.utf8_path_to_tchar filename_utf8),
                     emu := some i1.1,
                     recent := add_recent_disk h a.recent r_path 1 }
          else { a with emu := some i0.1 }
      else s
    { s1 with recent := add_recent_disk h s1.recent r_path drv }
  else s

/-- The handler of a click on bank `b` in the image list of drive `drv`
(`OSD::draw_menu_contents`).  The list is on the menu when `emu` is non-null, a
disk is shown for the drive and `bank_num > 1`; it has one entry for each `b`
with `0 <= b < bank_num`.  A click on an entry that is not there does
nothing. -/
def bank_menu_click (s : OSD) (drv : Int) (b : Int) : OSD :=
  match s.emu with
  | none => s
  | some em =>
    if (em.floppy_disk_status drv).path ≠ "" ∧ (em.d88_file drv).bank_num > 1 ∧
        0 ≤ b ∧ b < (em.d88_file drv).bank_num then
      { s with
        vm_calls :=
          if s.vm then s.vm_calls ++ [VMCall.open_floppy_disk drv (em.d88_file drv).path b]
          else s.vm_calls,
        emu := some
          { d88_file := Function.update em.d88_file drv
              (D88File.mk (em.d88_file drv).path (em.d88_file drv).disk_name
                (em.d88_file drv).bank_num b),
            floppy_disk_status := Function.update em.floppy_disk_status drv
              (FloppyStatus.mk (em.floppy_disk_status drv).path b) } }
    else s

/-- The handler of the button "Create and Insert" of the save browser
(`OSD::draw_save_browser`), for the path `path_str` with the file name
`filename_str`. -/
def save_browser_create (h : Host) (s : OSD) (path_str filename_str : String) : OSD :=
  let p := h.utf8_path_to_tchar path_str
  match s.emu with
  | none => s
  | some em =>
    match h.create_blank_floppy_disk s.files p (s.pending_blank_type % 256) with
    | none => s
    | some files' =>
      let s0 : OSD := { s with files := files' }
      let s1 : OSD :=
        if s0.vm then
          { s0 with
            vm_calls := s0.vm_calls ++ [VMCall.open_floppy_disk s0.pending_drive p 0],
            fd1_path :=
              if s0.pending_drive = 0 then
                my_tcscpy_s h s0.fd1_path (h.utf8_path_to_tchar filename_str)
              else s0.fd1_path,
            fd2_path :=
              if s0.pending_drive = 0 then s0.fd2_path
              else my_tcscpy_s h s0.fd2_path (h.utf8_path_to_tchar filename_str),
            emu := some (insert_into_emu h s0.files em s0.pending_drive p path_str 0).1,
            recent := add_recent_disk h s0.recent p s0.pending_drive }
        else s0
      { s1 with show_save_browser := false }

/-- A drive's selected bank is a bank of its image: `0 <= cur_bank < bank_num`. -/
def ValidBank (d : D88File) : Prop := 0 ≤ d.cur_bank ∧ d.cur_bank < d.bank_num

/-- A drive's selected bank is a bank of its image, or the image has no bank
and bank 0 is selected. -/
def BankSelection (d : D88File) : Prop :=
  0 ≤ d.cur_bank ∧ (d.cur_bank < d.bank_num ∨ (d.cur_bank = 0 ∧ d.bank_num = 0))

/-- An `OSD` used in the examples: VM and `EMU` present, both drives as in
`EMU.example`, FD1 chosen in the file browser, an empty history. -/
def OSD.example : OSD :=
  { vm := true, emu := some EMU.example, fd1_path := "old.d88", fd2_path := "old.d88",
    pending_drive := 0, pending_blank_type := 0, show_file_browser := true,
    show_save_browser := false, recent := fun _ _ => "", files := Files.example,
    vm_calls := [] }

/-! ## Definitions: page indices touched by `SET_BANK`, interrupt lines -/

/-- The successive values of the loop variable of
`for(int i = ...; i <= eb; i++)`, for a loop entered with `n` passes still to
run and the variable at `i` (the same recursion as `SET_BANK_loop`).  The body
of `SET_BANK` accesses the tables only in its stores to `wbank[i]` and
`rbank[i]`. -/
def SET_BANK_loop_trace : Nat → Int → List Int
  | 0, _ => []
  | n + 1, i => i :: SET_BANK_loop_trace n (i + 1)

/-- The table indices `SET_BANK(s, e, w, r)` accesses, in order. -/
def SET_BANK_indices (s e : Int) : List Int :=
  SET_BANK_loop_trace (shr12 e - shr12 s + 1).toNat (shr12 s)

/-- Constant `IRQ_USART` of `pc88.cpp`. -/
def IRQ_USART : Nat := 0
/-- Constant `IRQ_VRTC`. -/
def IRQ_VRTC : Nat := 1
/-- Constant `IRQ_TIMER`. -/
def IRQ_TIMER : Nat := 2
/-- Constant `IRQ_INT4`. -/
def IRQ_INT4 : Nat := 3
/-- Constant `IRQ_SOUND`. -/
def IRQ_SOUND : Nat := 4
/-- Constant `IRQ_INT2`. -/
def IRQ_INT2 : Nat := 5
/-- Constant `IRQ_FDINT1`. -/
def IRQ_FDINT1 : Nat := 6
/-- Constant `IRQ_FDINT2`. -/
def IRQ_FDINT2 : Nat := 7

/-- The eight interrupt line identifiers, in the order of their `#define`s. -/
def irqLines : List Nat :=
  [IRQ_USART, IRQ_VRTC, IRQ_TIMER, IRQ_INT4, IRQ_SOUND, IRQ_INT2, IRQ_FDINT1, IRQ_FDINT2]

/-! ## Definitions: the advisory VM lock -/

/-- Conversion of an integer to a C `int` (32 bits, two's complement
wrap-around). -/
def wrapInt (x : Int) : Int := (x + 2147483648) % 4294967296 - 2147483648

/-- The function `OSD::lock_vm`, as its effect on the member `lock_count`
(`lock_count++`; the mutex call before it does not touch the counter). -/
def lock_vm (lock_count : Int) : Int := wrapInt (lock_count + 1)

/-- The function `OSD::unlock_vm`, as its effect on the member `lock_count`
(`lock_count--`). -/
def unlock_vm (lock_count : Int) : Int := wrapInt (lock_count - 1)

/-- The function `OSD::is_vm_locked` of `osd.h`: `return lock_count != 0;`. -/
def is_vm_locked (lock_count : Int) : Bool := lock_count != 0

/-- A call of one of the two locking functions. -/
inductive LockCall where
  /-- A call of `lock_vm()`. -/
  | lock
  /-- A call of `unlock_vm()`. -/
  | unlock
  deriving DecidableEq

/-- The counter after one call. -/
def LockCall.run (lock_count : Int) : LockCall → Int
  | LockCall.lock => lock_vm lock_count
  | LockCall.unlock => unlock_vm lock_count

/-- The counter after a sequence of calls, from the value `lock_count`. -/
def runLockCalls (calls : List LockCall) (lock_count : Int) : Int :=
  calls.foldl LockCall.run lock_count

/-- The number of calls of `lock_vm` in a sequence that no call of
`unlock_vm` has matched: locks minus unlocks. -/
def unmatchedLocks (calls : List LockCall) : Int :=
  (calls.map (fun c => match c with
    | LockCall.lock => (1 : Int)
    | LockCall.unlock => (-1 : Int))).sum

/-! ## Definitions: the recent-disk list, as the specification words it -/

/-- The entries of a history that are kept when `path` is added: the entries up
to the first empty slot, in their order, without those equal to `path` ignoring
case. -/
def keptEntries (h : Host) (path : String) (entries : List String) : List String :=
  (entries.takeWhile (fun e => e != "")).filter (fun e => h.tcsicmp e path != 0)

/-- The history after `path` is added, in the words of the specification: the
first `MAX_HISTORY` elements of `path` followed by the kept entries, padded
with empty strings. -/
def moveToFront (h : Host) (path : String) (entries : List String) : List String :=
  ((path :: keptEntries h path entries) ++ List.replicate h.MAX_HISTORY "").take h.MAX_HISTORY

/-- The history of drive `drv` as a list of `MAX_HISTORY` entries. -/
def historyOf (h : Host) (recent : Int → Nat → String) (drv : Int) : List String :=
  (List.range' 0 h.MAX_HISTORY).map (recent drv)

/-- A history used in the examples: every drive has the entries `a.d88`,
`B.D88`, `c.d88` followed by empty slots. -/
def recentExample : Int → Nat → String := fun _ k =>
  if k = 0 then "a.d88" else if k = 1 then "B.D88" else if k = 2 then "c.d88" else ""

/-! ## Definitions: key state (`key_down`, `key_up`, `update_input`) -/

/-- A call the host forwards to the keyboard of the VM. -/
inductive KeyCall where
  /-- Call `vm->key_down(code, repeat)`. -/
  | key_down (code : Int) (is_repeat : Bool)
  /-- Call `vm->key_up(code)`. -/
  | key_up (code : Int)
  deriving DecidableEq

/-- The members of class `OSD` the key functions work on, and the list of the
calls they have made on `vm` (oldest first). -/
structure KeyState where
  /-- The array `uint8_t key_status[256]`, indexed by the C `int` key code; an
  index outside `0..255` stands for the memory next to the array. -/
  key_status : Int → Nat
  /-- Whether `vm` is non-null. -/
  vm : Bool
  /-- Calls made on `vm`. -/
  calls : List KeyCall

/-- The function `OSD::key_down(code, extended, repeat)`. -/
def key_down (s : KeyState) (code : Int) (_extended : Bool) (is_repeat : Bool) : KeyState :=
  if 0 < code ∧ code < 256 then
    let was_down : Bool := (s.key_status code &&& 0x80) != 0
    { key_status := Function.update s.key_status code 0x80
      vm := s.vm
      calls :=
        if s.vm = true ∧ (was_down = false ∨ is_repeat = true) then
          s.calls ++ [KeyCall.key_down code is_repeat]
        else s.calls }
  else s

/-- The function `OSD::key_up(code, extended)`. -/
def key_up (s : KeyState) (code : Int) (_extended : Bool) : KeyState :=
  if 0 < code ∧ code < 256 then
    if s.key_status code = 0 then s
    else if s.key_status code &&& 0x7f ≠ 0 then
      { key_status := Function.update s.key_status code (s.key_status code &&& 0x7f)
        vm := s.vm
        calls := s.calls }
    else
      { key_status := Function.update s.key_status code (s.key_status code &&& 0x7f)
        vm := s.vm
        calls := if s.vm = true then s.calls ++ [KeyCall.key_up code] else s.calls }
  else s

/-- A key state used in the examples: a VM is attached, no call has been made,
key `0x41` is held down (`0x80`), key `0x42` is released with 2 hold frames
left, key `0x43` is down with 1 hold frame, and all other keys are up. -/
def KeyState.example : KeyState :=
  { key_status := fun i =>
      if i = 0x41 then 0x80 else if i = 0x42 then 2 else if i = 0x43 then 0x81 else 0
    vm := true
    calls := [] }

/-- Constant `UI_REASON_NONE` of `osd.h`. -/
def UI_REASON_NONE : Nat := 0
/-- Constant `UI_REASON_MENU_TREE` (`1u << 0`). -/
def UI_REASON_MENU_TREE : Nat := 1
/-- Constant `UI_REASON_FILE_BROWSER` (`1u << 1`). -/
def UI_REASON_FILE_BROWSER : Nat := 2
/-- Constant `UI_REASON_SAVE_BROWSER` (`1u << 2`). -/
def UI_REASON_SAVE_BROWSER : Nat := 4

/-- A call made on the audio stream. -/
inductive AudioCall where
  /-- Call `SDL_PauseAudioStreamDevice(audio_stream)`. -/
  | pause
  /-- Call `SDL_ClearAudioStream(audio_stream)`. -/
  | clear
  /-- Call `SDL_ResumeAudioStreamDevice(audio_stream)`. -/
  | resume
  deriving DecidableEq

/-- The members of class `OSD` that the UI-pause logic of `draw_screen` reads
and writes, with the key state and the list of the calls made on the audio
stream (oldest first). -/
structure UiState where
  /-- Member `ui_interacting`. -/
  ui_interacting : Bool
  /-- Member `ui_interacting_reason`. -/
  ui_interacting_reason : Nat
  /-- Member `prev_ui_interacting`. -/
  prev_ui_interacting : Bool
  /-- Member `audio_paused_by_ui`. -/
  audio_paused_by_ui : Bool
  /-- Member `show_file_browser`. -/
  show_file_browser : Bool
  /-- Member `show_save_browser`. -/
  show_save_browser : Bool
  /-- Whether `audio_stream` is non-null. -/
  audio_stream : Bool
  /-- The key state (`key_status`, `vm`). -/
  keys : KeyState
  /-- Calls made on the audio stream. -/
  audio_calls : List AudioCall

/-- The constructor `OSD::OSD()`, for the members of `UiState`. -/
def OSD_new : UiState :=
  { ui_interacting := false
    ui_interacting_reason := UI_REASON_NONE
    prev_ui_interacting := false
    audio_paused_by_ui := false
    show_file_browser := false
    show_save_browser := false
    audio_stream := false
    keys := { key_status := fun _ => 0, vm := false, calls := [] }
    audio_calls := [] }

/-- The loop `for (int code = ...; code < 256; code++)` of
`clear_all_pressed_keys`, entered with `n` passes still to run and the loop
variable at `code`. -/
def clear_all_pressed_keys_loop : Nat → Int → KeyState → KeyState
  | 0, _, s => s
  | n + 1, code, s =>
    clear_all_pressed_keys_loop n (code + 1)
      { key_status := Function.update s.key_status code 0
        vm := s.vm
        calls :=
          if s.key_status code &&& 0x80 ≠ 0 then s.calls ++ [KeyCall.key_up code]
          else s.calls }

/-- The function `OSD::clear_all_pressed_keys`. -/
def clear_all_pressed_keys (s : KeyState) : KeyState :=
  if s.vm = false then
    { key_status := fun i => if 0 ≤ i ∧ i < 256 then 0 else s.key_status i
      vm := s.vm
      calls := s.calls }
  else clear_all_pressed_keys_loop 255 1 s

/-- The function `OSD::set_audio_pause_for_ui(pause)`. -/
def set_audio_pause_for_ui (s : UiState) (pause : Bool) : UiState :=
  if s.audio_paused_by_ui = pause then s
  else if s.audio_stream = false then { s with audio_paused_by_ui := pause }
  else if pause = true then
    { s with audio_paused_by_ui := pause, audio_calls := s.audio_calls ++ [AudioCall.pause] }
  else
    { s with audio_paused_by_ui := pause,
             audio_calls := s.audio_calls ++ [AudioCall.clear, AudioCall.resume] }

/-- What one call of `draw_screen` meets outside the members of `UiState`: the
guards of its two early returns, and the outcome of the ImGui code it runs
before the UI-pause logic (`draw_menu_contents`, `draw_status_bar`,
`draw_file_browser`, `draw_save_browser`).  That code assigns none of
`ui_interacting`, `ui_interacting_reason`, `prev_ui_interacting`,
`audio_paused_by_ui`; it may open and close the two browsers. -/
structure Frame where
  /-- Whether `renderer`, `screen_texture` and `vm_screen_buffer` are all
  non-null. -/
  ready : Bool
  /-- Member `imgui_initialized`. -/
  imgui_initialized : Bool
  /-- Whether `show_menu && ui_visible && ImGui::BeginMainMenuBar()` holds: the
  menu bar is shown. -/
  menu_bar : Bool
  /-- The value `draw_menu_contents()` returns if called: some menu of the bar
  is open. -/
  menu_contents : Bool
  /-- The value of `show_file_browser` after `draw_save_browser()` returns. -/
  show_file_browser : Bool
  /-- The value of `show_save_browser` after `draw_save_browser()` returns. -/
  show_save_browser : Bool

/-- The function `OSD::draw_screen`, on the members of `UiState`: the two
early returns, the ImGui code (by its outcome `f`), and the UI-pause logic. -/
def draw_screen (s : UiState) (f : Frame) : UiState :=
  if f.ready = false then s
  else if f.imgui_initialized = false then s
  else
    let menu_tree_open : Bool := if f.menu_bar = true then f.menu_contents else false
    let s1 : UiState :=
      { s with show_file_browser := f.show_file_browser,
               show_save_browser := f.show_save_browser }
    let r0 : Nat := UI_REASON_NONE
    let r1 : Nat := if menu_tree_open = true then r0 ||| UI_REASON_MENU_TREE else r0
    let r2 : Nat := if s1.show_file_browser = true then r1 ||| UI_REASON_FILE_BROWSER else r1
    let next_reason : Nat :=
      if s1.show_save_browser = true then r2 ||| UI_REASON_SAVE_BROWSER else r2
    let next_ui_interacting : Bool := next_reason != UI_REASON_NONE
    let s2 : UiState :=
      if s1.prev_ui_interacting = false ∧ next_ui_interacting = true then
        { s1 with keys := clear_all_pressed_keys s1.keys }
      else s1
    let s3 : UiState :=
      if s2.prev_ui_interacting ≠ next_ui_interacting then
        set_audio_pause_for_ui s2 next_ui_interacting
      else s2
    { s3 with ui_interacting := next_ui_interacting,
              ui_interacting_reason := next_reason,
              prev_ui_interacting := next_ui_interacting }

/-- The UI-pause invariant: `ui_interacting`, `prev_ui_interacting`,
`ui_interacting_reason != UI_REASON_NONE` and `audio_paused_by_ui` all have
the same truth value. -/
def UiPauseInv (s : UiState) : Prop :=
  s.ui_interacting = s.prev_ui_interacting ∧
  s.prev_ui_interacting = (s.ui_interacting_reason != UI_REASON_NONE) ∧
  (s.ui_interacting_reason != UI_REASON_NONE) = s.audio_paused_by_ui

/-- The reason word in the words of the specification: the OR of `MENU_TREE`
(a menu tree is open), `FILE_BROWSER` and `SAVE_BROWSER`. -/
def reasonOf (menu_tree file_browser save_browser : Bool) : Nat :=
  (if menu_tree then UI_REASON_MENU_TREE else 0) |||
    (if file_browser then UI_REASON_FILE_BROWSER else 0) |||
    (if save_browser then UI_REASON_SAVE_BROWSER else 0)

/-! ## Definitions: audio refill (`update_sound`) -/

/-- The members of class `OSD` that `update_sound` reads and writes.  The
member `audio_speed_ratio` is a `float` that only ever holds `1.0f` or
`(float)mul` with `mul` in 1..16, so it is kept as an integer. -/
structure SoundState where
  /-- Whether `audio_stream` is non-null. -/
  audio_stream : Bool
  /-- Whether `vm` is non-null. -/
  vm : Bool
  /-- Member `audio_paused_by_ui`. -/
  audio_paused_by_ui : Bool
  /-- Member `audio_speed_ratio`. -/
  audio_speed_ratio : Int
  /-- Member `sound_samples`. -/
  sound_samples : Int

/-- The fields of `config` that `update_sound` reads. -/
structure SoundConfig where
  /-- Field `config.full_speed`. -/
  full_speed : Bool
  /-- Field `config.cpu_power`. -/
  cpu_power : Int

/-- What the SDL audio stream and the VM answer during one call of
`update_sound`.  The calls of `push_audio_block` are numbered from 0 in the
order they are made. -/
structure AudioEnv where
  /-- Result of `SDL_AudioStreamDevicePaused(audio_stream)`. -/
  device_paused : Bool
  /-- Result of `SDL_ResumeAudioStreamDevice(audio_stream)`. -/
  resume_ok : Bool
  /-- Result of `SDL_SetAudioStreamFrequencyRatio(audio_stream, desired_ratio)`. -/
  set_ratio_ok : Bool
  /-- Result of the first `SDL_GetAudioStreamQueued(audio_stream)`. -/
  queued0 : Int
  /-- Result of `vm->create_sound(&local_frames)` in call `k` of
  `push_audio_block`: `none` for a null buffer, `some n` for a buffer with
  `local_frames = n`. -/
  create_sound : Nat → Option Int
  /-- Result of `SDL_PutAudioStreamData` in call `k` of `push_audio_block`. -/
  put_ok : Nat → Bool
  /-- Result of `SDL_GetAudioStreamQueued(audio_stream)` after call `k` of
  `push_audio_block` returned true. -/
  queued_after : Nat → Int

/-- The lambda `push_audio_block` of `update_sound`, for its call number `k`:
`none` when it returns false, `some n` when it queued a block and stored
`n` in `*produced_frames`. -/
def push_audio_block (env : AudioEnv) (k : Nat) : Option Int :=
  match env.create_sound k with
  | none => none
  | some local_frames => if env.put_ok k = true then some local_frames else none

/-- The local variables of the two refill loops of `update_sound`, with the
number of calls of `push_audio_block` made so far and the frame counts of the
blocks queued so far (oldest first). -/
structure RefillState where
  /-- Local `queued`. -/
  queued : Int
  /-- Local `refill_count`. -/
  refill_count : Nat
  /-- Local `total_extra_frames`. -/
  total_extra_frames : Int
  /-- Number of calls of `push_audio_block` made. -/
  attempts : Nat
  /-- Frame counts of the blocks queued. -/
  queued_frames : List Int

/-- The loop `while (queued < target_queued_bytes && refill_count < 3)` of
`update_sound`, with at most `n` passes. -/
def refill_to_target (env : AudioEnv) (target_queued_bytes max_queued_bytes : Int) :
    Nat → RefillState → RefillState
  | 0, st => st
  | n + 1, st =>
    if st.queued < target_queued_bytes ∧ st.refill_count < 3 then
      match push_audio_block env st.attempts with
      | none => { st with attempts := st.attempts + 1 }
      | some produced =>
        let st1 : RefillState :=
          { queued := env.queued_after st.attempts
            refill_count := st.refill_count
            total_extra_frames := wrapInt (st.total_extra_frames + produced)
            attempts := st.attempts + 1
            queued_frames := st.queued_frames ++ [produced] }
        if max_queued_bytes ≤ st1.queued then st1
        else
          refill_to_target env target_queued_bytes max_queued_bytes n
            { st1 with refill_count := st1.refill_count + 1 }
    else st

/-- The loop `while (queued < min_queued_bytes && refill_count < 3)` of
`update_sound`, with at most `n` passes. -/
def refill_to_min (env : AudioEnv) (min_queued_bytes : Int) :
    Nat → RefillState → RefillState
  | 0, st => st
  | n + 1, st =>
    if st.queued < min_queued_bytes ∧ st.refill_count < 3 then
      match push_audio_block env st.attempts with
      | none => { st with attempts := st.attempts + 1 }
      | some produced =>
        refill_to_min env min_queued_bytes n
          { queued := env.queued_after st.attempts
            refill_count := st.refill_count + 1
            total_extra_frames := wrapInt (st.total_extra_frames + produced)
            attempts := st.attempts + 1
            queued_frames := st.queued_frames ++ [produced] }
    else st

/-- What one call of `update_sound` leaves: the value stored through
`extra_frames` (`none` when the pointer is null), the member
`audio_speed_ratio`, the frame counts of the blocks it queued, and the
number of calls of `push_audio_block` it made. -/
structure UpdateSoundResult where
  /-- Value stored in `*extra_frames`. -/
  extra_frames : Option Int
  /-- Member `audio_speed_ratio` after the call. -/
  audio_speed_ratio : Int
  /-- Frame counts of the blocks queued by the call, oldest first. -/
  queued_frames : List Int
  /-- Number of calls of `push_audio_block`, hence of `vm->create_sound`, made
  by the call. -/
  attempts : Nat

/-- The statement `if (extra_frames) *extra_frames = v;`. -/
def store_extra_frames (extra_frames : Bool) (v : Int) : Option Int :=
  if extra_frames = true then some v else none

/-- The function `OSD::update_sound(int *extra_frames)`; the argument says
whether the pointer is non-null.  The products and sums of `int` wrap at 32
bits.  Each loop runs at most three passes, since every pass that does not
leave the loop increments `refill_count`. -/
def update_sound (s : SoundState) (cfg : SoundConfig) (env : AudioEnv)
    (extra_frames : Bool) : UpdateSoundResult :=
  if s.audio_stream = false ∨ s.vm = false then
    ⟨store_extra_frames extra_frames 0, s.audio_speed_ratio, [], 0⟩
  else if s.audio_paused_by_ui = true then
    ⟨store_extra_frames extra_frames 0, s.audio_speed_ratio, [], 0⟩
  else if env.device_paused = true ∧ env.resume_ok = false then
    ⟨store_extra_frames extra_frames 0, s.audio_speed_ratio, [], 0⟩
  else
    let desired_ratio : Int :=
      if cfg.full_speed = false then
        let mul0 : Int := cfg.cpu_power
        let mul1 : Int := if mul0 < 1 then 1 else mul0
        if mul1 > 16 then 16 else mul1
      else 1
    let audio_speed_ratio : Int :=
      if s.audio_speed_ratio ≠ desired_ratio ∧ env.set_ratio_ok = true then desired_ratio
      else s.audio_speed_ratio
    let bytes_per_sample : Int := 4
    let block_bytes : Int := wrapInt (s.sound_samples * bytes_per_sample)
    let min_queued_bytes : Int := block_bytes
    let target_queued_bytes : Int := wrapInt (block_bytes * 2)
    let max_queued_bytes : Int := wrapInt (block_bytes * 3)
    let queued : Int := env.queued0
    if queued < 0 then ⟨store_extra_frames extra_frames 0, audio_speed_ratio, [], 0⟩
    else if max_queued_bytes ≤ queued then
      ⟨store_extra_frames extra_frames 0, audio_speed_ratio, [], 0⟩
    else
      let st0 : RefillState :=
        { queued := queued, refill_count := 0, total_extra_frames := 0, attempts := 0,
          queued_frames := [] }
      let st1 := refill_to_target env target_queued_bytes max_queued_bytes 3 st0
      let st2 := refill_to_min env min_queued_bytes 3 st1
      ⟨store_extra_frames extra_frames st2.total_extra_frames, audio_speed_ratio,
        st2.queued_frames, st2.attempts⟩

/-- The sum of `int` values accumulated by `total_extra_frames += produced`,
wrapping at 32 bits, from the starting value `t`. -/
def wrapSum (t : Int) (l : List Int) : Int :=
  l.foldl (fun a f => wrapInt (a + f)) t

/-- An audio environment: the queue starts empty, every `create_sound` yields
735 frames, every put succeeds, and each queued block adds 2940 bytes. -/
def AudioEnv.example : AudioEnv :=
  { device_paused := false
    resume_ok := true
    set_ratio_ok := true
    queued0 := 0
    create_sound := fun _ => some 735
    put_ok := fun _ => true
    queued_after := fun k => 2940 * (k + 1) }

/-- An audio environment in which `SDL_PutAudioStreamData` fails on the first
block and succeeds afterwards; call `k` of `create_sound` yields `700 + k`
frames. -/
def AudioEnv.failing : AudioEnv :=
  { device_paused := false
    resume_ok := true
    set_ratio_ok := true
    queued0 := 0
    create_sound := fun k => some (700 + (k : Int))
    put_ok := fun k => k != 0
    queued_after := fun k => 2940 * (k + 1) }

/-- A sound state with a stream and a VM, not paused, 735 samples a block. -/
def SoundState.example : SoundState :=
  { audio_stream := true
    vm := true
    audio_paused_by_ui := false
    audio_speed_ratio := 1
    sound_samples := 735 }

/-- A frame in which the menu bar is shown with no menu open and the file
browser is open. -/
def Frame.example : Frame :=
  { ready := true
    imgui_initialized := true
    menu_bar := true
    menu_contents := false
    show_file_browser := true
    show_save_browser := false }

/-! ## Definitions: sound configuration (`normalize_sound_rate_hz`, `reconfigure_sound`) -/

/-- The table `kHostFrequencyTable[5]`. -/
def kHostFrequencyTable : List Int := [44100, 48000, 55467, 88200, 96000]

/-- The function `normalize_sound_rate_hz(rate)`. -/
def normalize_sound_rate_hz (rate : Int) : Int :=
  let rate1 : Int :=
    if rate ≥ 0 ∧ rate < 5 then kHostFrequencyTable.getD rate.toNat 0
    else if rate = 5 then 44100
    else if rate = 6 then 55467
    else if rate = 7 then 96000
    else rate
  if rate1 ≤ 0 then 55467 else rate1

/-- The function `sanitize_sound_samples_for_rate(rate, samples)`; the
division of `int` rounds toward zero. -/
def sanitize_sound_samples_for_rate (rate samples : Int) : Int :=
  let samples1 : Int := if samples ≤ 0 then Int.tdiv rate 100 else samples
  if samples1 ≤ 0 then 256 else samples1

/-- A call made on an SDL audio stream, named by its handle. -/
inductive StreamCall where
  /-- Call `SDL_SetAudioStreamFrequencyRatio(stream, 1.0f)`. -/
  | set_ratio_one (stream : Nat)
  /-- Call `SDL_ResumeAudioStreamDevice(stream)`. -/
  | resume (stream : Nat)
  /-- Call `SDL_DestroyAudioStream(stream)`. -/
  | destroy (stream : Nat)
  /-- Call `SDL_PauseAudioStreamDevice(stream)`. -/
  | pause (stream : Nat)
  deriving DecidableEq

/-- The members of class `OSD` that `reconfigure_sound` reads and writes, and
the list of the calls made on audio streams (oldest first).  A stream is
named by a number, `none` is the null pointer; `audio_speed_ratio` is kept as
an integer, as in `SoundState`. -/
structure SoundDevice where
  /-- Member `audio_stream`. -/
  audio_stream : Option Nat
  /-- Member `sound_rate`. -/
  sound_rate : Int
  /-- Member `sound_samples`. -/
  sound_samples : Int
  /-- Member `audio_speed_ratio`. -/
  audio_speed_ratio : Int
  /-- Member `audio_src_rate`. -/
  audio_src_rate : Int
  /-- Member `audio_dst_rate`. -/
  audio_dst_rate : Int
  /-- Member `audio_paused_by_ui`. -/
  audio_paused_by_ui : Bool
  /-- Calls made on audio streams. -/
  stream_calls : List StreamCall

/-- What SDL answers during one call of `reconfigure_sound`. -/
structure OpenEnv where
  /-- Result of `SDL_OpenAudioDeviceStream`: the new stream, `none` for null. -/
  open_stream : Option Nat
  /-- Result of `SDL_ResumeAudioStreamDevice(new_stream)`. -/
  resume_ok : Bool
  /-- Result of `SDL_GetAudioStreamFormat(new_stream, &src_spec, &dst_spec)`. -/
  format_ok : Bool
  /-- The value of `src_spec.freq` after that call. -/
  src_freq : Int
  /-- The value of `dst_spec.freq` after that call. -/
  dst_freq : Int

/-- The function `OSD::reconfigure_sound(rate, samples)`: the value returned
and the members afterwards. -/
def reconfigure_sound (s : SoundDevice) (env : OpenEnv) (rate samples : Int) :
    Bool × SoundDevice :=
  let rate := normalize_sound_rate_hz rate
  let samples := sanitize_sound_samples_for_rate rate samples
  match env.open_stream with
  | none => (false, s)
  | some new_stream =>
    let s1 : SoundDevice :=
      { s with stream_calls := s.stream_calls ++
          [StreamCall.set_ratio_one new_stream, StreamCall.resume new_stream] }
    if env.resume_ok = false then
      (false, { s1 with stream_calls := s1.stream_calls ++ [StreamCall.destroy new_stream] })
    else
      let src_rate : Int :=
        if env.format_ok = true ∧ env.src_freq > 0 then env.src_freq else rate
      let dst_rate : Int :=
        if env.format_ok = true ∧ env.dst_freq > 0 then env.dst_freq else rate
      let old_stream := s1.audio_stream
      let s2 : SoundDevice :=
        { audio_stream := some new_stream
          sound_rate := rate
          sound_samples := samples
          audio_speed_ratio := 1
          audio_src_rate := src_rate
          audio_dst_rate := dst_rate
          audio_paused_by_ui := s1.audio_paused_by_ui
          stream_calls := s1.stream_calls }
      let s3 : SoundDevice :=
        match old_stream with
        | none => s2
        | some old =>
          { s2 with stream_calls := s2.stream_calls ++ [StreamCall.destroy old] }
      let s4 : SoundDevice :=
        if s3.audio_paused_by_ui = true then
          { s3 with stream_calls := s3.stream_calls ++ [StreamCall.pause new_stream] }
        else s3
      (true, s4)

/-- A sound device in use: stream 1 at 55467 Hz with 554-sample blocks. -/
def SoundDevice.example : SoundDevice :=
  { audio_stream := some 1
    sound_rate := 55467
    sound_samples := 554
    audio_speed_ratio := 4
    audio_src_rate := 55467
    audio_dst_rate := 48000
    audio_paused_by_ui := false
    stream_calls := [] }

/-! ## Definitions: VM screen size (`set_vm_screen_lines`) -/

/-- The members of class `OSD` that `set_vm_screen_size` reads and writes;
the buffer and the texture are kept as "non-null". -/
structure ScreenState where
  /-- Member `vm_screen_width`. -/
  vm_screen_width : Int
  /-- Member `vm_screen_height`. -/
  vm_screen_height : Int
  /-- Whether `vm_screen_buffer` is non-null. -/
  vm_screen_buffer : Bool
  /-- Whether `screen_texture` is non-null. -/
  screen_texture : Bool
  /-- Whether `renderer` is non-null. -/
  renderer : Bool

/-- The function `OSD::set_vm_screen_size(screen_width, screen_height, ...)`;
the four window arguments are not used by the function.  The arguments
`malloc_ok` and `texture_ok` say whether `malloc` and `SDL_CreateTexture`
return non-null; the `memset` that follows the `malloc` does not touch the
members. -/
def set_vm_screen_size (s : ScreenState) (malloc_ok texture_ok : Bool)
    (screen_width screen_height : Int)
    (_window_width _window_height _window_width_aspect _window_height_aspect : Int) :
    ScreenState :=
  if s.vm_screen_width = screen_width ∧ s.vm_screen_height = screen_height ∧
      s.vm_screen_buffer = true ∧ s.screen_texture = true then s
  else
    let s1 : ScreenState :=
      if s.vm_screen_width ≠ screen_width ∨ s.vm_screen_height ≠ screen_height ∨
          s.vm_screen_buffer = false then
        { s with vm_screen_buffer := malloc_ok, vm_screen_width := screen_width,
                 vm_screen_height := screen_height }
      else s
    if s1.renderer = true then { s1 with screen_texture := texture_ok } else s1

/-- The local `height` of `OSD::set_vm_screen_lines(lines)`. -/
def set_vm_screen_lines_height (lines : Int) : Int :=
  if lines ≤ 200 then 400 else lines

/-- The function `OSD::set_vm_screen_lines(lines)`. -/
def set_vm_screen_lines (s : ScreenState) (malloc_ok texture_ok : Bool) (lines : Int) :
    ScreenState :=
  let height := set_vm_screen_lines_height lines
  set_vm_screen_size s malloc_ok texture_ok 640 height 640 height 640 height

/-- A screen state before the first frame: nothing allocated yet. -/
def ScreenState.example : ScreenState :=
  { vm_screen_width := 0, vm_screen_height := 0, vm_screen_buffer := false,
    screen_texture := false, renderer := true }

/-! ## Definitions: a well-formed recent-disk list, as the specification words it -/

/-- The history of drive `drv` is compact: no empty entry precedes a non-empty
one. -/
def CompactHistory (h : Host) (recent : Int → Nat → String) (drv : Int) : Prop :=
  ∀ i j, i < j → j < h.MAX_HISTORY → recent drv i = "" → recent drv j = ""

/-- No two entries of drive `drv` before the first empty slot are equal
ignoring case. -/
def DistinctBeforeEmpty (h : Host) (recent : Int → Nat → String) (drv : Int) : Prop :=
  ∀ i j, i < h.MAX_HISTORY → j < h.MAX_HISTORY → i ≠ j →
    (∀ k, k ≤ i → recent drv k ≠ "") → (∀ k, k ≤ j → recent drv k ≠ "") →
    h.tcsicmp (recent drv i) (recent drv j) ≠ 0

/-- No two non-empty entries of drive `drv` are equal ignoring case. -/
def DistinctNonEmpty (h : Host) (recent : Int → Nat → String) (drv : Int) : Prop :=
  ∀ i j, i < h.MAX_HISTORY → j < h.MAX_HISTORY → i ≠ j →
    recent drv i ≠ "" → recent drv j ≠ "" →
    h.tcsicmp (recent drv i) (recent drv j) ≠ 0

/-- A path of 260 characters: it does not fit a buffer of `_MAX_PATH = 260`
characters with its terminator. -/
def longPath : String := String.mk (List.replicate 260 'x')

/-! ## Theorems: bank table -/

/-- What the loop leaves in the two tables: a page inside the `n` pages
starting at `i0` holds the offset target (or the dummy), every other page is
as before. -/
theorem SET_BANK_loop_spec (wdmy rdmy : Ptr) (sb : Int) (w r : Ptr) (n : Nat) :
    ∀ (i0 : Int) (m : Banks) (j : Int),
      (SET_BANK_loop wdmy rdmy sb w r n i0 m).wbank j =
          (if i0 ≤ j ∧ j < i0 + n then
            (if w = wdmy then wdmy else w + 0x1000 * (j - sb)) else m.wbank j) ∧
      (SET_BANK_loop wdmy rdmy sb w r n i0 m).rbank j =
          (if i0 ≤ j ∧ j < i0 + n then
            (if r = rdmy then rdmy else r + 0x1000 * (j - sb)) else m.rbank j) := by
  induction n with
  | zero =>
    intro i0 m j
    have h : ¬ (i0 ≤ j ∧ j < i0 + ((0 : Nat) : Int)) := by
      intro hh; have := hh.1; have := hh.2; omega
    simp only [SET_BANK_loop, if_neg h, and_self]
  | succ n ih =>
    intro i0 m j
    simp only [SET_BANK_loop]
    have h := ih (i0 + 1) (SET_BANK_body wdmy rdmy sb w r m i0) j
    rw [h.1, h.2]
    by_cases h1 : i0 + 1 ≤ j ∧ j < i0 + 1 + (n : Int)
    · have h2 : i0 ≤ j ∧ j < i0 + ((n + 1 : Nat) : Int) := by
        constructor
        · omega
        · push_cast; omega
      simp only [if_pos h1, if_pos h2, and_self]
    · by_cases h3 : j = i0
      · have h2 : i0 ≤ j ∧ j < i0 + ((n + 1 : Nat) : Int) := by
          constructor
          · omega
          · push_cast; omega
        simp only [if_neg h1, if_pos h2, SET_BANK_body, if_pos h3]
        subst h3
        simp
      · have h2 : ¬ (i0 ≤ j ∧ j < i0 + ((n + 1 : Nat) : Int)) := by
          intro hh
          apply h1
          have := hh.1
          have := hh.2
          constructor
          · omega
          · push_cast at *; omega
        simp only [if_neg h1, if_neg h2, SET_BANK_body, if_neg h3, and_self]

/-- The tables after `SET_BANK(s, e, w, r)`, page by page: pages
`s >> 12 .. e >> 12` (both ends included) hold the new targets, all others
are untouched. -/
theorem SET_BANK_spec (wdmy rdmy : Ptr) (m : Banks) (s e : Int) (w r : Ptr) (j : Int) :
    (SET_BANK wdmy rdmy m s e w r).wbank j =
        (if shr12 s ≤ j ∧ j ≤ shr12 e then
          (if w = wdmy then wdmy else w + 0x1000 * (j - shr12 s)) else m.wbank j) ∧
    (SET_BANK wdmy rdmy m s e w r).rbank j =
        (if shr12 s ≤ j ∧ j ≤ shr12 e then
          (if r = rdmy then rdmy else r + 0x1000 * (j - shr12 s)) else m.rbank j) := by
  have h := SET_BANK_loop_spec wdmy rdmy (shr12 s) w r (shr12 e - shr12 s + 1).toNat
    (shr12 s) m j
  have hiff : (shr12 s ≤ j ∧ j < shr12 s + ((shr12 e - shr12 s + 1).toNat : Int)) ↔
      (shr12 s ≤ j ∧ j ≤ shr12 e) := by
    constructor
    · intro hh; have := hh.1; have := hh.2; constructor <;> omega
    · intro hh; have := hh.1; have := hh.2; constructor <;> omega
  simp only [hiff] at h
  exact h

/-- Shifting right by 12 forgets the offset inside the page: an address
rounded down to its page boundary has the same page index. -/
theorem page_of_page_base (s : Int) : shr12 (0x1000 * shr12 s) = shr12 s := by
  unfold shr12
  rw [Int.shiftRight_eq_div_pow, Int.shiftRight_eq_div_pow]
  norm_num

/-- C1: Bank Table offset rule.  After `SET_BANK(s, e, w, r)` every page `i`
the call remaps (`s >> 12 <= i <= e >> 12`) whose write target is not the
write sentinel has `wbank[i] = w + 0x1000 * (i - (s >> 12))`, and whose read
target is not the read sentinel has `rbank[i] = r + 0x1000 * (i - (s >> 12))`. -/
theorem C1_offset_rule (wdmy rdmy : Ptr) (m : Banks) (s e : Int) (w r : Ptr) (i : Int)
    (hlo : shr12 s ≤ i) (hhi : i ≤ shr12 e) :
    (w ≠ wdmy → (SET_BANK wdmy rdmy m s e w r).wbank i = w + 0x1000 * (i - (shr12 s))) ∧
    (r ≠ rdmy → (SET_BANK wdmy rdmy m s e w r).rbank i = r + 0x1000 * (i - (shr12 s))) := by
  have h := SET_BANK_spec wdmy rdmy m s e w r i
  have hc : shr12 s ≤ i ∧ i ≤ shr12 e := ⟨hlo, hhi⟩
  simp only [if_pos hc] at h
  constructor
  · intro hw
    rw [h.1, if_neg hw]
  · intro hr
    rw [h.2, if_neg hr]

/-- C1 at the example of the specification: mapping pages 2, 3, 4 to a buffer
at address `B = 0x10000` (dummies at 1 and 2) makes page 2 start at `B`, page 3
at `B + 4096` and page 4 at `B + 8192`, in both tables. -/
theorem C1_offset_rule_witness :
    (shr12 0x2000 ≤ 2 ∧ (4 : Int) ≤ shr12 0x4fff ∧ (0x10000 : Int) ≠ 1) ∧
    (SET_BANK 1 2 Banks.zero 0x2000 0x4fff 0x10000 0x10000).wbank 2 = 0x10000 ∧
    (SET_BANK 1 2 Banks.zero 0x2000 0x4fff 0x10000 0x10000).wbank 3 = 0x10000 + 4096 ∧
    (SET_BANK 1 2 Banks.zero 0x2000 0x4fff 0x10000 0x10000).wbank 4 = 0x10000 + 8192 ∧
    (SET_BANK 1 2 Banks.zero 0x2000 0x4fff 0x10000 0x10000).rbank 3 = 0x10000 + 4096 :=
  ⟨by decide,
   (C1_offset_rule 1 2 Banks.zero 0x2000 0x4fff 0x10000 0x10000 2
      (by decide) (by decide)).1 (by decide),
   (C1_offset_rule 1 2 Banks.zero 0x2000 0x4fff 0x10000 0x10000 3
      (by decide) (by decide)).1 (by decide),
   (C1_offset_rule 1 2 Banks.zero 0x2000 0x4fff 0x10000 0x10000 4
      (by decide) (by decide)).1 (by decide),
   (C1_offset_rule 1 2 Banks.zero 0x2000 0x4fff 0x10000 0x10000 3
      (by decide) (by decide)).2 (by decide)⟩

/-- C2: the unmapped sentinel is per direction.  With a read target `r` that is
not the read sentinel, `SET_BANK(s, e, wdmy, r)` sets `wbank[i] = wdmy` (no page
offset added) for every remapped page `i`, while `rbank[i]` is
`r + 0x1000 * (i - (s >> 12))` and the whole read table is the one any other
write target would have given.  Symmetrically `SET_BANK(s, e, w, rdmy)` sets
`rbank[i] = rdmy`, and the write table is the one any other read target would
have given. -/
theorem C2_sentinel_per_direction (wdmy rdmy : Ptr) (m : Banks) (s e : Int) (w r : Ptr)
    (i : Int) (hr : r ≠ rdmy) (hlo : shr12 s ≤ i) (hhi : i ≤ shr12 e) :
    (SET_BANK wdmy rdmy m s e wdmy r).wbank i = wdmy ∧
    (SET_BANK wdmy rdmy m s e wdmy r).rbank i = r + 0x1000 * (i - (shr12 s)) ∧
    (SET_BANK wdmy rdmy m s e wdmy r).rbank = (SET_BANK wdmy rdmy m s e w r).rbank ∧
    (SET_BANK wdmy rdmy m s e w rdmy).rbank i = rdmy ∧
    (SET_BANK wdmy rdmy m s e w rdmy).wbank = (SET_BANK wdmy rdmy m s e w r).wbank := by
  have h1 := SET_BANK_spec wdmy rdmy m s e wdmy r i
  have h2 := SET_BANK_spec wdmy rdmy m s e w rdmy i
  have hc : shr12 s ≤ i ∧ i ≤ shr12 e := ⟨hlo, hhi⟩
  simp only [if_pos hc] at h1 h2
  refine ⟨?_, ?_, ?_, ?_, ?_⟩
  · rw [h1.1]; simp
  · rw [h1.2, if_neg hr]
  · funext j
    rw [(SET_BANK_spec wdmy rdmy m s e wdmy r j).2, (SET_BANK_spec wdmy rdmy m s e w r j).2]
  · rw [h2.2]; simp
  · funext j
    rw [(SET_BANK_spec wdmy rdmy m s e w rdmy j).1, (SET_BANK_spec wdmy rdmy m s e w r j).1]

/-- C2 on a ROM overlay: pages 0..7 mapped read-only (writes dropped at the
dummy at address 1, reads from a ROM at `0x20000`); page 5 reads from
`ROM + 0x5000`. -/
theorem C2_sentinel_per_direction_witness :
    ((0x20000 : Int) ≠ 2 ∧ shr12 0x0000 ≤ 5 ∧ (5 : Int) ≤ shr12 0x7fff) ∧
    (SET_BANK 1 2 Banks.zero 0x0000 0x7fff 1 0x20000).wbank 5 = 1 ∧
    (SET_BANK 1 2 Banks.zero 0x0000 0x7fff 1 0x20000).rbank 5
      = 0x20000 + 0x1000 * (5 - (shr12 0x0000)) :=
  ⟨by decide,
   (C2_sentinel_per_direction 1 2 Banks.zero 0x0000 0x7fff 0x30000 0x20000 5
      (by decide) (by decide) (by decide)).1,
   (C2_sentinel_per_direction 1 2 Banks.zero 0x0000 0x7fff 0x30000 0x20000 5
      (by decide) (by decide) (by decide)).2.1⟩

/-- C4 as stated fails: `SET_BANK(0x2000, 0x5000, B, B)` remaps page 5, although
page 5 is not covered by the half-open interval `[0x2000, 0x5000)`. -/
theorem C4_half_open_counterexample :
    ¬ (∀ (wdmy rdmy : Ptr) (m : Banks) (s e : Int) (w r : Ptr) (i : Int),
        0 ≤ s → s ≤ e → e ≤ 0xFFFF →
        ¬ (s ≤ 0x1000 * i ∧ 0x1000 * (i + 1) ≤ e) →
        (SET_BANK wdmy rdmy m s e w r).wbank i = m.wbank i ∧
        (SET_BANK wdmy rdmy m s e w r).rbank i = m.rbank i) := by
  intro h
  have h5 := h 1 2 Banks.zero 0x2000 0x5000 0x10000 0x10000 5
    (by decide) (by decide) (by decide) (by decide)
  have hs := (SET_BANK_spec 1 2 Banks.zero 0x2000 0x5000 0x10000 0x10000 5).1
  rw [hs] at h5
  exact absurd h5.1 (by decide)

/-- C4, amended: `SET_BANK(start, end, w, r)` changes the read and write
targets only of the pages `i` with `start >> 12 <= i <= end >> 12`; every other
page keeps both targets.  The page holding `end` is part of the range: when
`start >> 12 <= end >> 12`, page `end >> 12` is remapped, also for a
page-aligned `end`. -/
theorem C4_inclusive_range_frame (wdmy rdmy : Ptr) (m : Banks) (s e : Int) (w r : Ptr)
    (i : Int) :
    ((i < shr12 s ∨ shr12 e < i) →
      (SET_BANK wdmy rdmy m s e w r).wbank i = m.wbank i ∧
      (SET_BANK wdmy rdmy m s e w r).rbank i = m.rbank i) ∧
    (shr12 s ≤ shr12 e →
      (SET_BANK wdmy rdmy m s e w r).wbank (shr12 e) =
        (if w = wdmy then wdmy else w + 0x1000 * (shr12 e - shr12 s)) ∧
      (SET_BANK wdmy rdmy m s e w r).rbank (shr12 e) =
        (if r = rdmy then rdmy else r + 0x1000 * (shr12 e - shr12 s))) := by
  constructor
  · intro hout
    have h := SET_BANK_spec wdmy rdmy m s e w r i
    have hn : ¬ (shr12 s ≤ i ∧ i ≤ shr12 e) := by
      intro hh; have := hh.1; have := hh.2; omega
    rw [if_neg hn, if_neg hn] at h
    exact h
  · intro hle
    have h := SET_BANK_spec wdmy rdmy m s e w r (shr12 e)
    have hc : shr12 s ≤ shr12 e ∧ shr12 e ≤ shr12 e := ⟨hle, le_refl _⟩
    simp only [if_pos hc] at h
    exact h

/-- C4 amended, at `SET_BANK(0x2000, 0x5000, B, B)`: page 6 is left alone and
page 5 now points at `B + 0x3000`. -/
theorem C4_inclusive_range_frame_witness :
    (shr12 0x5000 < 6 ∧ shr12 0x2000 ≤ shr12 0x5000) ∧
    (SET_BANK 1 2 Banks.zero 0x2000 0x5000 0x10000 0x10000).wbank 6 = Banks.zero.wbank 6 ∧
    (SET_BANK 1 2 Banks.zero 0x2000 0x5000 0x10000 0x10000).wbank (shr12 0x5000) =
      (if (0x10000 : Int) = 1 then 1
        else 0x10000 + 0x1000 * (shr12 0x5000 - shr12 0x2000)) :=
  ⟨by decide,
   ((C4_inclusive_range_frame 1 2 Banks.zero 0x2000 0x5000 0x10000 0x10000 6).1
      (Or.inr (by decide))).1,
   ((C4_inclusive_range_frame 1 2 Banks.zero 0x2000 0x5000 0x10000 0x10000 6).2
      (by decide)).1⟩

/-- C5 as stated fails: `SET_BANK(0x2800, 0x4800, B, B)` has a misaligned start
and a misaligned end, and it is not rejected: page 2 is remapped. -/
theorem C5_misaligned_counterexample :
    ¬ (∀ (wdmy rdmy : Ptr) (m : Banks) (s e : Int) (w r : Ptr),
        (s % 0x1000 ≠ 0 ∨ e % 0x1000 ≠ 0) →
        (SET_BANK wdmy rdmy m s e w r).wbank = m.wbank ∧
        (SET_BANK wdmy rdmy m s e w r).rbank = m.rbank) := by
  intro h
  have h2 := (h 1 2 Banks.zero 0x2800 0x4800 0x10000 0x10000 (Or.inl (by decide))).1
  have hs := (SET_BANK_spec 1 2 Banks.zero 0x2800 0x4800 0x10000 0x10000 2).1
  rw [h2] at hs
  exact absurd hs (by decide)

/-- C5, amended: `SET_BANK` checks no alignment and rejects nothing.  A call
whose start or end is not a multiple of 4096 does exactly what the call with
both addresses rounded down to their page boundary does; the two tables only
ever change in whole pages. -/
theorem C5_misaligned_rounds_down (wdmy rdmy : Ptr) (m : Banks) (s e : Int) (w r : Ptr) :
    (SET_BANK wdmy rdmy m s e w r).wbank =
      (SET_BANK wdmy rdmy m (0x1000 * (shr12 s)) (0x1000 * (shr12 e)) w r).wbank ∧
    (SET_BANK wdmy rdmy m s e w r).rbank =
      (SET_BANK wdmy rdmy m (0x1000 * (shr12 s)) (0x1000 * (shr12 e)) w r).rbank := by
  unfold SET_BANK
  simp only [page_of_page_base, and_self]

/-! ## Theorems: disk container enumeration -/

/-- A value inside the range of `long` is not changed by the conversion. -/
theorem wrapLong_of_inRange (w : Nat) (x : Int)
    (hlo : -((2 ^ (w - 1) : Nat) : Int) ≤ x) (hhi : x < ((2 ^ (w - 1) : Nat) : Int)) :
    wrapLong w x = x := by
  unfold wrapLong
  simp only
  have h1 : (x + ((2 ^ (w - 1) : Nat) : Int)) % (2 * ((2 ^ (w - 1) : Nat) : Int))
      = x + ((2 ^ (w - 1) : Nat) : Int) := by
    apply Int.emod_eq_of_lt <;> omega
  rw [h1]
  omega

/-- Reading one byte inside the file. -/
theorem FgetUint8_in_file (f : FILEIO) (hp : f.pos < f.bytes.length)
    (hb : ∀ b ∈ f.bytes, b < 256) :
    f.FgetUint8 = (f.bytes.getD f.pos 0, { f with pos := f.pos + 1 }) := by
  have hget : f.bytes.get? f.pos = some (f.bytes.getD f.pos 0) := by
    simp [List.getD, List.getElem?_eq_getElem hp]
  have hlt : f.bytes.getD f.pos 0 < 256 := by
    apply hb
    rw [List.getD_eq_getElem f.bytes 0 hp]
    exact List.getElem_mem hp
  unfold FILEIO.FgetUint8 FILEIO.Fgetc
  rw [hget]
  simp only [Prod.mk.injEq, and_true]
  omega

/-- Reading the size field inside the file: `FgetUint32_LE` after a seek to
`p` returns the little-endian number stored there and keeps the file. -/
theorem FgetUint32_LE_in_file (f : FILEIO) (p : Nat) (hp : p + 4 ≤ f.bytes.length)
    (hb : ∀ b ∈ f.bytes, b < 256) :
    ((f.Fseek (p : Int)).FgetUint32_LE).1 = le32At f.bytes p ∧
    ((f.Fseek (p : Int)).FgetUint32_LE).2.bytes = f.bytes ∧
    ((f.Fseek (p : Int)).FgetUint32_LE).2.is_open = f.is_open := by
  have hs : f.Fseek (p : Int) = { f with pos := p } := by
    unfold FILEIO.Fseek
    rw [if_neg (by omega)]
    simp
  rw [hs]
  unfold FILEIO.FgetUint32_LE
  simp only
  rw [FgetUint8_in_file { f with pos := p } (by simp; omega) hb]
  simp only
  rw [FgetUint8_in_file { f with pos := p + 1 } (by simp; omega) hb]
  simp only
  rw [FgetUint8_in_file { f with pos := p + 1 + 1 } (by simp; omega) hb]
  simp only
  rw [FgetUint8_in_file { f with pos := p + 1 + 1 + 1 } (by simp; omega) hb]
  simp only [le32At, and_self, and_true]

/-- Reading the name field inside the file: `Fread` of 17 bytes after a seek
to `p` fills the buffer with the 17 bytes stored there and keeps the file. -/
theorem Fread_name_in_file (f : FILEIO) (buf : List Nat) (p : Nat)
    (hp : p + 17 ≤ f.bytes.length)
    (hb : ∀ b ∈ f.bytes, b < 256) :
    ((f.Fseek (p : Int)).Fread buf 17).1 = nameAt f.bytes p ∧
    ((f.Fseek (p : Int)).Fread buf 17).2.bytes = f.bytes ∧
    ((f.Fseek (p : Int)).Fread buf 17).2.is_open = f.is_open := by
  have hs : f.Fseek (p : Int) = { f with pos := p } := by
    unfold FILEIO.Fseek
    rw [if_neg (by omega)]
    simp
  rw [hs]
  unfold FILEIO.Fread nameAt
  simp only [and_self, and_true]
  have hlen : ((List.drop p f.bytes).take 17).length = 17 := by
    simp only [List.length_take, List.length_drop]
    omega
  rw [hlen]
  have hmap : List.map (fun x => x % 256) ((List.drop p f.bytes).take 17)
      = (List.drop p f.bytes).take 17 := by
    conv_rhs => rw [← List.map_id ((List.drop p f.bytes).take 17)]
    apply List.map_congr_left
    intro b hmem
    have hb2 : b ∈ f.bytes := List.mem_of_mem_drop (List.mem_of_mem_take hmem)
    have := hb b hb2
    simp only [id]
    omega
  rw [hmap]
  simp

/-- One pass of the loop over a record whose first `0x20` bytes lie inside the
file: the name slot `count` is filled from the 17 bytes at the record start,
and the size field decides between `break` and the next pass. -/
theorem get_disk_names_loop_step (h : Host) (bytes : List Nat) (fuel : Nat) (st : ScanState)
    (off : Nat) (hbytes : st.fio.bytes = bytes) (hoff : st.offset = (off : Int))
    (hb : ∀ b ∈ bytes, b < 256)
    (hlong : (bytes.length : Int) < ((2 ^ (h.LONG_BITS - 1) : Nat) : Int))
    (hin : off + 0x20 ≤ bytes.length) (hc : st.count < h.MAX_D88_BANKS) :
    ∃ F : FILEIO, F.bytes = bytes ∧ F.is_open = st.fio.is_open ∧
      get_disk_names_loop h (bytes.length : Int) (fuel + 1) st =
        (if le32At bytes (off + 0x1c) = 0 then
          { fio := F, offset := st.offset, count := st.count,
            disk_name := Function.update st.disk_name st.count
              (h.sjis_to_utf8 (nameAt bytes off)),
            written := st.written ++ [st.count] }
        else
          get_disk_names_loop h (bytes.length : Int) fuel
            { fio := F,
              offset := wrapLong h.LONG_BITS ((off : Int) + (le32At bytes (off + 0x1c) : Int)),
              count := st.count + 1,
              disk_name := Function.update st.disk_name st.count
                (h.sjis_to_utf8 (nameAt bytes off)),
              written := st.written ++ [st.count] }) := by
  subst hbytes
  have hrd := Fread_name_in_file st.fio (h.name_buf_uninit st.count) off (by omega) hb
  have hw : wrapLong h.LONG_BITS ((off : Int) + 0x1c) = ((off + 0x1c : Nat) : Int) := by
    rw [wrapLong_of_inRange]
    · push_cast; rfl
    · omega
    · omega
  have hb2 : ∀ b ∈ ((st.fio.Fseek (off : Int)).Fread (h.name_buf_uninit st.count) 17).2.bytes, b < 256 := by
    rw [hrd.2.1]; exact hb
  have hsz := FgetUint32_LE_in_file ((st.fio.Fseek (off : Int)).Fread (h.name_buf_uninit st.count) 17).2 (off + 0x1c)
    (by rw [hrd.2.1]; omega) hb2
  rw [hrd.2.1, hrd.2.2] at hsz
  refine ⟨((((st.fio.Fseek (off : Int)).Fread (h.name_buf_uninit st.count) 17).2.Fseek
      ((off + 0x1c : Nat) : Int)).FgetUint32_LE).2, hsz.2.1, hsz.2.2, ?_⟩
  have hguard : st.offset < (st.fio.bytes.length : Int) ∧ st.count < h.MAX_D88_BANKS := by
    constructor
    · rw [hoff]; omega
    · exact hc
  simp only [get_disk_names_loop, if_pos hguard]
  rw [hoff, hw, hsz.1, hrd.1]

/-- Running the loop through a chain of well-formed records: after as many
passes as there are records the loop stands at the end of the chain, has
counted the records and has filled one name slot per record, in order. -/
theorem get_disk_names_loop_records (h : Host) (bytes : List Nat)
    (hb : ∀ b ∈ bytes, b < 256)
    (hlong : (bytes.length : Int) < ((2 ^ (h.LONG_BITS - 1) : Nat) : Int)) :
    ∀ (rest : List Nat) (fuel : Nat) (st : ScanState) (off : Nat),
      st.fio.bytes = bytes → st.offset = (off : Int) →
      RecordChain bytes off rest → off + rest.sum ≤ bytes.length →
      st.count + rest.length ≤ h.MAX_D88_BANKS → rest.length ≤ fuel →
      ∃ st' : ScanState,
        get_disk_names_loop h (bytes.length : Int) fuel st =
          get_disk_names_loop h (bytes.length : Int) (fuel - rest.length) st' ∧
        st'.fio.bytes = bytes ∧ st'.fio.is_open = st.fio.is_open ∧
        st'.offset = ((off + rest.sum : Nat) : Int) ∧
        st'.count = st.count + rest.length ∧
        st'.written = st.written ++ List.range' st.count rest.length ∧
        (∀ i, (i < st.count ∨ st.count + rest.length ≤ i) →
          st'.disk_name i = st.disk_name i) ∧
        (∀ j, j < rest.length →
          st'.disk_name (st.count + j) =
            h.sjis_to_utf8 (nameAt bytes (off + (rest.take j).sum))) := by
  intro rest
  induction rest with
  | nil =>
    intro fuel st off hbytes hoff _ _ _ _
    refine ⟨st, by simp, hbytes, rfl, by simpa using hoff, by simp, by simp, ?_, ?_⟩
    · intro i _; rfl
    · intro j hj; simp at hj
  | cons s rest ih =>
    intro fuel st off hbytes hoff hchain hend hcount hfuel
    obtain ⟨hs0, hin, hsize, hrest⟩ := hchain
    simp only [List.sum_cons, List.length_cons] at hend hcount hfuel
    obtain ⟨fuel', rfl⟩ : ∃ f', fuel = f' + 1 := ⟨fuel - 1, by omega⟩
    obtain ⟨F, hFb, hFo, hstep⟩ :=
      get_disk_names_loop_step h bytes fuel' st off hbytes hoff hb hlong hin (by omega)
    rw [hsize, if_neg hs0] at hstep
    have hw : wrapLong h.LONG_BITS ((off : Int) + (s : Int)) = ((off + s : Nat) : Int) := by
      rw [wrapLong_of_inRange]
      · push_cast; rfl
      · omega
      · omega
    rw [hw] at hstep
    obtain ⟨st', hrun, hb', ho', hoff', hc', hw', hframe, hnames⟩ :=
      ih fuel'
        { fio := F, offset := ((off + s : Nat) : Int), count := st.count + 1,
          disk_name := Function.update st.disk_name st.count
            (h.sjis_to_utf8 (nameAt bytes off)),
          written := st.written ++ [st.count] }
        (off + s) hFb rfl hrest (by omega) (by show st.count + 1 + rest.length ≤ _; omega)
        (by omega)
    simp only at hb' ho' hoff' hc' hw' hframe hnames
    refine ⟨st', ?_, hb', by rw [ho', hFo], ?_, ?_, ?_, ?_, ?_⟩
    · rw [hstep, hrun]
      simp only [List.length_cons, Nat.add_sub_add_right]
    · rw [hoff']
      simp only [List.sum_cons]
      congr 1
      omega
    · rw [hc']
      simp only [List.length_cons]
      omega
    · rw [hw']
      simp only [List.length_cons, List.range'_succ, List.append_assoc, List.singleton_append]
    · intro i hi
      simp only [List.length_cons] at hi
      rw [hframe i (by omega)]
      have hne : i ≠ st.count := by omega
      simp only [Function.update_noteq hne]
    · intro j hj
      simp only [List.length_cons] at hj
      cases j with
      | zero =>
        rw [Nat.add_zero, hframe st.count (Or.inl (by omega))]
        simp only [Function.update_same, List.take_zero, List.sum_nil, Nat.add_zero]
      | succ j =>
        have := hnames j (by omega)
        have hidx : st.count + (j + 1) = st.count + 1 + j := by omega
        rw [hidx, this]
        simp only [List.take_succ_cons, List.sum_cons, Nat.add_assoc]

/-- The loop is over once `offset` has reached the end of the file. -/
theorem get_disk_names_loop_at_end (h : Host) (file_size : Int) (fuel : Nat) (st : ScanState)
    (hend : ¬ (st.offset < file_size)) :
    get_disk_names_loop h file_size fuel st = st := by
  cases fuel with
  | zero => rfl
  | succ n =>
    have hg : ¬ (st.offset < file_size ∧ st.count < h.MAX_D88_BANKS) := fun hh => hend hh.1
    simp only [get_disk_names_loop, if_neg hg]

/-- The bound on the number of passes is never what stops the loop: once
`fuel` covers `MAX_D88_BANKS - count`, more fuel changes nothing. -/
theorem get_disk_names_loop_fuel (h : Host) (file_size : Int) :
    ∀ (fuel : Nat) (st : ScanState) (extra : Nat), h.MAX_D88_BANKS ≤ st.count + fuel →
      get_disk_names_loop h file_size (fuel + extra) st =
        get_disk_names_loop h file_size fuel st := by
  intro fuel
  induction fuel with
  | zero =>
    intro st extra hle
    have hg : ¬ (st.offset < file_size ∧ st.count < h.MAX_D88_BANKS) := by
      intro hh; have := hh.2; omega
    cases extra with
    | zero => rfl
    | succ e =>
      simp only [Nat.zero_add, get_disk_names_loop, if_neg hg]
  | succ n ih =>
    intro st extra hle
    have hre : n + 1 + extra = (n + extra) + 1 := by omega
    rw [hre]
    simp only [get_disk_names_loop]
    split
    · split
      · rfl
      · apply ih
        simp only
        omega
    · rfl

/-- Records given by their index (as in a container made of `sizes.length`
records laid end to end) form a chain from the start of the file. -/
theorem recordChain_of_indexed (bytes sizes : List Nat)
    (hrec : ∀ j, j < sizes.length →
      sizes.getD j 0 ≠ 0 ∧ recordStart sizes j + 0x20 ≤ bytes.length ∧
      le32At bytes (recordStart sizes j + 0x1c) = sizes.getD j 0) :
    ∀ (rest pre : List Nat), sizes = pre ++ rest → RecordChain bytes pre.sum rest := by
  intro rest
  induction rest with
  | nil => intro pre _; trivial
  | cons s rest ih =>
    intro pre hsplit
    have hj : pre.length < sizes.length := by
      rw [hsplit]; simp
    have hget : sizes.getD pre.length 0 = s := by
      rw [hsplit, List.getD_append_right _ _ _ _ (le_refl _)]
      simp
    have hstart : recordStart sizes pre.length = pre.sum := by
      unfold recordStart
      rw [hsplit]; simp
    obtain ⟨h0, hin, hsz⟩ := hrec pre.length hj
    rw [hget] at h0 hsz
    rw [hstart] at hin hsz
    refine ⟨h0, hin, hsz, ?_⟩
    have := ih (pre ++ [s]) (by rw [hsplit]; simp)
    simpa using this

/-- What the loop guarantees for every file: `count` stays within
`MAX_D88_BANKS`, every name slot stored to has an index below
`MAX_D88_BANKS`, and slots that are not stored to keep their content. -/
theorem get_disk_names_loop_bounds (h : Host) (file_size : Int) :
    ∀ (fuel : Nat) (st : ScanState), st.count ≤ h.MAX_D88_BANKS →
      (∀ i ∈ st.written, i < h.MAX_D88_BANKS) →
      (get_disk_names_loop h file_size fuel st).count ≤ h.MAX_D88_BANKS ∧
      (∀ i ∈ (get_disk_names_loop h file_size fuel st).written, i < h.MAX_D88_BANKS) ∧
      (∀ i, i ∉ (get_disk_names_loop h file_size fuel st).written →
        i ∉ st.written ∧
        (get_disk_names_loop h file_size fuel st).disk_name i = st.disk_name i) := by
  intro fuel
  induction fuel with
  | zero =>
    intro st hc hw
    exact ⟨hc, hw, fun i hi => ⟨hi, rfl⟩⟩
  | succ n ih =>
    intro st hc hw
    simp only [get_disk_names_loop]
    split
    next hg =>
      have hw2 : ∀ i ∈ st.written ++ [st.count], i < h.MAX_D88_BANKS := by
        intro i hi
        rcases List.mem_append.mp hi with h1 | h1
        · exact hw i h1
        · rw [List.mem_singleton.mp h1]; exact hg.2
      split
      · refine ⟨hc, hw2, ?_⟩
        intro i hi
        simp only [List.mem_append, List.mem_singleton, not_or] at hi
        exact ⟨hi.1, by simp only [Function.update_noteq hi.2]⟩
      · obtain ⟨h1, h2, h3⟩ := ih
          { fio := ((((st.fio.Fseek st.offset).Fread (h.name_buf_uninit st.count) 17).2.Fseek
              (wrapLong h.LONG_BITS (st.offset + 0x1c))).FgetUint32_LE).2,
            offset := wrapLong h.LONG_BITS (st.offset +
              (((((st.fio.Fseek st.offset).Fread (h.name_buf_uninit st.count) 17).2.Fseek
                (wrapLong h.LONG_BITS (st.offset + 0x1c))).FgetUint32_LE).1 : Int)),
            count := st.count + 1,
            disk_name := Function.update st.disk_name st.count
              (h.sjis_to_utf8 ((st.fio.Fseek st.offset).Fread (h.name_buf_uninit st.count) 17).1),
            written := st.written ++ [st.count] }
          (by have := hg.2; show st.count + 1 ≤ _; omega) hw2
        refine ⟨h1, h2, ?_⟩
        intro i hi
        obtain ⟨hi1, hi2⟩ := h3 i hi
        simp only [List.mem_append, List.mem_singleton, not_or] at hi1
        refine ⟨hi1.1, ?_⟩
        rw [hi2]
        simp only [Function.update_noteq hi1.2]
    next => exact ⟨hc, hw, fun i hi => ⟨hi, rfl⟩⟩

/-- The result of `get_disk_names` on a file that opens, in terms of the state
in which the loop ends. -/
theorem get_disk_names_of_open (h : Host) (files : Files) (path : String) (drv : Int)
    (emu : EMU) (bytes : List Nat) (hopen : files (h.utf8_path_to_tchar path) = some bytes) :
    (get_disk_names h files path drv (some emu)).ret =
      ((get_disk_names_loop h (bytes.length : Int) h.MAX_D88_BANKS
        (scanStart bytes (emu.d88_file drv).disk_name)).count : Int) ∧
    (get_disk_names h files path drv (some emu)).emu =
      some (EMU.mk
        (Function.update emu.d88_file drv
          (D88File.mk
            (my_tcscpy_s h (emu.d88_file drv).path (h.utf8_path_to_tchar path))
            (get_disk_names_loop h (bytes.length : Int) h.MAX_D88_BANKS
              (scanStart bytes (emu.d88_file drv).disk_name)).disk_name
            ((get_disk_names_loop h (bytes.length : Int) h.MAX_D88_BANKS
              (scanStart bytes (emu.d88_file drv).disk_name)).count : Int)
            (emu.d88_file drv).cur_bank))
        emu.floppy_disk_status) ∧
    (get_disk_names h files path drv (some emu)).fio =
      some (get_disk_names_loop h (bytes.length : Int) h.MAX_D88_BANKS
        (scanStart bytes (emu.d88_file drv).disk_name)).fio.Fclose ∧
    (get_disk_names h files path drv (some emu)).written =
      (get_disk_names_loop h (bytes.length : Int) h.MAX_D88_BANKS
        (scanStart bytes (emu.d88_file drv).disk_name)).written := by
  simp only [get_disk_names, FILEIO.Fopen, hopen, FILEIO.FileLength, scanStart, and_self]

/-- C3: container enumeration.  For a container file made of `k = sizes.length`
records (`k <= MAX_D88_BANKS`) where record `j` starts at the sum of the sizes
of the records before it, carries its non-zero size as a 4-byte little-endian
number at offset `0x1C` from its start, and the sizes sum to the file length,
`get_disk_names` returns `k`, stores `bank_num = k`, and fills `disk_name[j]`
from the 17 bytes at the start of record `j`. -/
theorem C3_container_enumeration (h : Host) (files : Files) (path : String) (drv : Int)
    (emu : EMU) (bytes sizes : List Nat)
    (hopen : files (h.utf8_path_to_tchar path) = some bytes)
    (hb : ∀ b ∈ bytes, b < 256)
    (hlong : (bytes.length : Int) < ((2 ^ (h.LONG_BITS - 1) : Nat) : Int))
    (hk : sizes.length ≤ h.MAX_D88_BANKS)
    (hsum : sizes.sum = bytes.length)
    (hrec : ∀ j, j < sizes.length →
      sizes.getD j 0 ≠ 0 ∧ recordStart sizes j + 0x20 ≤ bytes.length ∧
      le32At bytes (recordStart sizes j + 0x1c) = sizes.getD j 0) :
    (get_disk_names h files path drv (some emu)).ret = (sizes.length : Int) ∧
    ∃ emu' : EMU, (get_disk_names h files path drv (some emu)).emu = some emu' ∧
      (emu'.d88_file drv).bank_num = (sizes.length : Int) ∧
      ∀ j, j < sizes.length →
        (emu'.d88_file drv).disk_name j = h.sjis_to_utf8 (nameAt bytes (recordStart sizes j)) := by
  have hchain : RecordChain bytes 0 sizes := by
    have := recordChain_of_indexed bytes sizes hrec sizes [] (by simp)
    simpa using this
  obtain ⟨st', hrun, _, _, hoff, hcount, _, _, hnames⟩ :=
    get_disk_names_loop_records h bytes hb hlong sizes h.MAX_D88_BANKS
      (scanStart bytes (emu.d88_file drv).disk_name)
      0 rfl rfl hchain (by omega) (by simpa [scanStart] using hk) hk
  have hstop : ¬ (st'.offset < (bytes.length : Int)) := by
    rw [hoff]; omega
  rw [get_disk_names_loop_at_end h _ _ st' hstop] at hrun
  simp only [scanStart, Nat.zero_add] at hcount hnames
  obtain ⟨hret, hemu, _, _⟩ := get_disk_names_of_open h files path drv emu bytes hopen
  rw [hrun] at hret hemu
  rw [hret, hemu, hcount]
  refine ⟨rfl, _, rfl, ?_, ?_⟩
  · simp only [Function.update_same]
  · intro j hj
    simp only [Function.update_same]
    rw [hnames j hj]
    rfl

/-- C3 on a two-record container: `two.d88` holds a 32-byte record named `A`
and a 40-byte record named `B`; it enumerates to exactly 2 entries. -/
theorem C3_container_enumeration_witness :
    (get_disk_names Host.example Files.example "two.d88" 0 (some EMU.example)).ret = 2 ∧
    ∃ emu' : EMU,
      (get_disk_names Host.example Files.example "two.d88" 0 (some EMU.example)).emu
        = some emu' ∧
      (emu'.d88_file 0).bank_num = 2 ∧
      ∀ j, j < 2 → (emu'.d88_file 0).disk_name j =
        nameAt (mkRecord [65] 32 0 ++ mkRecord [66] 40 8) (recordStart [32, 40] j) :=
  C3_container_enumeration Host.example Files.example "two.d88" 0 EMU.example
    (mkRecord [65] 32 0 ++ mkRecord [66] 40 8) [32, 40]
    (by decide) (by decide) (by decide) (by decide) (by decide) (by decide)

/-- C6: a zero size field terminates the scan.  If records `0 .. j-1` (with
`j = sizes.length`) are well formed with non-zero sizes and record `j`, reached
before the end of the file and before the bank limit, has a zero size field at
offset `0x1C`, then `get_disk_names` returns exactly `j` and sets
`bank_num = j`; nothing after record `j` is enumerated: the name slots stored to
are `0 .. j`, and every slot above `j` keeps its content. -/
theorem C6_zero_size_terminates (h : Host) (files : Files) (path : String) (drv : Int)
    (emu : EMU) (bytes sizes : List Nat)
    (hopen : files (h.utf8_path_to_tchar path) = some bytes)
    (hb : ∀ b ∈ bytes, b < 256)
    (hlong : (bytes.length : Int) < ((2 ^ (h.LONG_BITS - 1) : Nat) : Int))
    (hlimit : sizes.length < h.MAX_D88_BANKS)
    (hrec : ∀ i, i < sizes.length →
      sizes.getD i 0 ≠ 0 ∧ recordStart sizes i + 0x20 ≤ bytes.length ∧
      le32At bytes (recordStart sizes i + 0x1c) = sizes.getD i 0)
    (hin : sizes.sum + 0x20 ≤ bytes.length)
    (hzero : le32At bytes (sizes.sum + 0x1c) = 0) :
    (get_disk_names h files path drv (some emu)).ret = (sizes.length : Int) ∧
    (get_disk_names h files path drv (some emu)).written = List.range (sizes.length + 1) ∧
    ∃ emu' : EMU, (get_disk_names h files path drv (some emu)).emu = some emu' ∧
      (emu'.d88_file drv).bank_num = (sizes.length : Int) ∧
      ∀ i, sizes.length < i →
        (emu'.d88_file drv).disk_name i = (emu.d88_file drv).disk_name i := by
  have hchain : RecordChain bytes 0 sizes := by
    have := recordChain_of_indexed bytes sizes hrec sizes [] (by simp)
    simpa using this
  obtain ⟨st', hrun, hbytes', _, hoff, hcount, hwritten, hframe, _⟩ :=
    get_disk_names_loop_records h bytes hb hlong sizes h.MAX_D88_BANKS
      (scanStart bytes (emu.d88_file drv).disk_name)
      0 rfl rfl hchain (by omega) (by simp only [scanStart]; omega) (by omega)
  simp only [scanStart, Nat.zero_add, List.nil_append] at hcount hwritten hframe hoff
  obtain ⟨fuel', hfuel⟩ : ∃ f', h.MAX_D88_BANKS - sizes.length = f' + 1 :=
    ⟨h.MAX_D88_BANKS - sizes.length - 1, by omega⟩
  rw [hfuel] at hrun
  obtain ⟨F, _, _, hstep⟩ :=
    get_disk_names_loop_step h bytes fuel' st' sizes.sum hbytes' hoff hb hlong hin
      (by rw [hcount]; exact hlimit)
  rw [hzero, if_pos rfl] at hstep
  rw [hstep] at hrun
  obtain ⟨hret, hemu, _, hw⟩ := get_disk_names_of_open h files path drv emu bytes hopen
  rw [hrun] at hret hemu hw
  rw [hret, hemu, hw]
  simp only [hcount, hwritten, true_and]
  refine ⟨?_, _, rfl, ?_, ?_⟩
  · rw [List.range_eq_range', List.range'_concat, Nat.zero_add]; simp
  · simp only [Function.update_same]
  · intro i hi
    simp only [Function.update_same]
    have hne : i ≠ sizes.length := by omega
    rw [Function.update_noteq hne]
    exact hframe i (by omega)

set_option maxRecDepth 20000 in
/-- C6 on `two.d88` followed by a record with a zero size field: records 0 and
1 are counted, record 2 stops the scan, and the record after it is not
looked at. -/
theorem C6_zero_size_terminates_witness :
    (get_disk_names Host.example
      (fun _ => some (mkRecord [65] 32 0 ++ mkRecord [66] 40 8 ++ mkRecord [67] 0 0
        ++ mkRecord [68] 32 0))
      "three.d88" 1 (some EMU.example)).ret = 2 ∧
    (get_disk_names Host.example
      (fun _ => some (mkRecord [65] 32 0 ++ mkRecord [66] 40 8 ++ mkRecord [67] 0 0
        ++ mkRecord [68] 32 0))
      "three.d88" 1 (some EMU.example)).written = List.range (2 + 1) ∧
    ∃ emu' : EMU,
      (get_disk_names Host.example
        (fun _ => some (mkRecord [65] 32 0 ++ mkRecord [66] 40 8 ++ mkRecord [67] 0 0
          ++ mkRecord [68] 32 0))
        "three.d88" 1 (some EMU.example)).emu = some emu' ∧
      (emu'.d88_file 1).bank_num = 2 ∧
      ∀ i, 2 < i → (emu'.d88_file 1).disk_name i = (EMU.example.d88_file 1).disk_name i :=
  C6_zero_size_terminates Host.example
    (fun _ => some (mkRecord [65] 32 0 ++ mkRecord [66] 40 8 ++ mkRecord [67] 0 0
      ++ mkRecord [68] 32 0))
    "three.d88" 1 EMU.example
    (mkRecord [65] 32 0 ++ mkRecord [66] 40 8 ++ mkRecord [67] 0 0 ++ mkRecord [68] 32 0)
    [32, 40]
    rfl (by decide) (by decide) (by decide) (by decide) (by decide) (by decide)

/-- C7: bank-count cap without corruption.  For every file system, path, drive
and `EMU` state, `get_disk_names` returns a count between 0 and
`MAX_D88_BANKS`, and every index of `d88_file[drv].disk_name` it stores to is
below `MAX_D88_BANKS` (the slot written for a record that then turns out to
have size zero included); a slot it does not store to keeps its content. -/
theorem C7_bank_cap (h : Host) (files : Files) (path : String) (drv : Int)
    (emu : Option EMU) :
    0 ≤ (get_disk_names h files path drv emu).ret ∧
    (get_disk_names h files path drv emu).ret ≤ (h.MAX_D88_BANKS : Int) ∧
    (∀ i ∈ (get_disk_names h files path drv emu).written, i < h.MAX_D88_BANKS) ∧
    (∀ em em', emu = some em → (get_disk_names h files path drv emu).emu = some em' →
      ∀ i, i ∉ (get_disk_names h files path drv emu).written →
        (em'.d88_file drv).disk_name i = (em.d88_file drv).disk_name i) := by
  cases emu with
  | none =>
    simp only [get_disk_names, le_refl, Int.ofNat_zero_le, List.not_mem_nil, false_implies,
      implies_true, true_and]
    intro em em' hh
    cases hh
  | some em =>
    cases hopen : files (h.utf8_path_to_tchar path) with
    | none =>
      simp only [get_disk_names, FILEIO.Fopen, hopen, le_refl, Int.ofNat_zero_le,
        List.not_mem_nil, false_implies, implies_true, true_and, Option.some.injEq]
      intro a b hab hb
      subst hab
      subst hb
      intro i _
      rfl
    | some bytes =>
      obtain ⟨hret, hemu, _, hw⟩ := get_disk_names_of_open h files path drv em bytes hopen
      obtain ⟨h1, h2, h3⟩ := get_disk_names_loop_bounds h (bytes.length : Int)
        h.MAX_D88_BANKS (scanStart bytes (em.d88_file drv).disk_name)
        (by simp only [scanStart]; omega) (by simp [scanStart])
      rw [hret, hemu, hw]
      refine ⟨Int.ofNat_zero_le _, by exact_mod_cast h1, h2, ?_⟩
      intro a b hab hb i hi
      simp only [Option.some.injEq] at hab hb
      subst hab
      subst hb
      simp only [Function.update_same]
      exact (h3 i hi).2

/-- C7 on `two.d88`: the count returned lies between 0 and 64, and the name
slots stored to lie below 64. -/
theorem C7_bank_cap_witness :
    0 ≤ (get_disk_names Host.example Files.example "two.d88" 0 (some EMU.example)).ret ∧
    (get_disk_names Host.example Files.example "two.d88" 0 (some EMU.example)).ret
      ≤ (Host.example.MAX_D88_BANKS : Int) ∧
    (∀ i ∈ (get_disk_names Host.example Files.example "two.d88" 0 (some EMU.example)).written,
      i < Host.example.MAX_D88_BANKS) ∧
    (∀ em em', some EMU.example = some em →
      (get_disk_names Host.example Files.example "two.d88" 0 (some EMU.example)).emu
        = some em' →
      ∀ i, i ∉ (get_disk_names Host.example Files.example "two.d88" 0
          (some EMU.example)).written →
        (em'.d88_file 0).disk_name i = (em.d88_file 0).disk_name i) :=
  C7_bank_cap Host.example Files.example "two.d88" 0 (some EMU.example)

/-- C9: an unreadable image leaves the state untouched.  When `emu` is null or
the file cannot be opened, `get_disk_names` returns 0, stores to no name slot,
and the `EMU` object (with `d88_file[drv]`: names, `bank_num`, `path`) is
exactly as before the call. -/
theorem C9_unreadable_untouched (h : Host) (files : Files) (path : String) (drv : Int)
    (emu : Option EMU)
    (hfail : emu = none ∨ files (h.utf8_path_to_tchar path) = none) :
    (get_disk_names h files path drv emu).ret = 0 ∧
    (get_disk_names h files path drv emu).emu = emu ∧
    (get_disk_names h files path drv emu).written = [] := by
  cases emu with
  | none => simp only [get_disk_names, and_self]
  | some em =>
    rcases hfail with hnull | hopen
    · cases hnull
    · simp only [get_disk_names, FILEIO.Fopen, hopen, and_self]

/-- C9 on a path that cannot be opened, and on a null `emu`. -/
theorem C9_unreadable_untouched_witness :
    Files.example (Host.example.utf8_path_to_tchar "missing.d88") = none ∧
    ((get_disk_names Host.example Files.example "missing.d88" 0 (some EMU.example)).ret = 0 ∧
     (get_disk_names Host.example Files.example "missing.d88" 0 (some EMU.example)).emu
        = some EMU.example ∧
     (get_disk_names Host.example Files.example "missing.d88" 0 (some EMU.example)).written
        = []) ∧
    (get_disk_names Host.example Files.example "two.d88" 0 none).ret = 0 :=
  ⟨by decide,
   C9_unreadable_untouched Host.example Files.example "missing.d88" 0 (some EMU.example)
     (Or.inr (by decide)),
   (C9_unreadable_untouched Host.example Files.example "two.d88" 0 none (Or.inl rfl)).1⟩

/-- C10 as stated fails: `zero.d88` opens and its first record has a zero size
field; `get_disk_names` then stores `bank_num = 0` over the old value 3, so the
drive's entry is not left unchanged. -/
theorem C10_no_partial_mutation_counterexample :
    ¬ (∀ (h : Host) (files : Files) (path : String) (drv : Int) (emu : EMU)
        (bytes : List Nat),
        files (h.utf8_path_to_tchar path) = some bytes → (∀ b ∈ bytes, b < 256) →
        0x20 ≤ bytes.length → le32At bytes 0x1c = 0 →
        (get_disk_names h files path drv (some emu)).ret = 0 ∧
        ∃ emu' : EMU, (get_disk_names h files path drv (some emu)).emu = some emu' ∧
          (emu'.d88_file drv).disk_name = (emu.d88_file drv).disk_name ∧
          (emu'.d88_file drv).bank_num = (emu.d88_file drv).bank_num ∧
          (emu'.d88_file drv).path = (emu.d88_file drv).path) := by
  intro hall
  obtain ⟨_, emu', hemu, _, hbank, _⟩ :=
    hall Host.example Files.example "zero.d88" 0 EMU.example (mkRecord [90] 0 0)
      (by decide) (by decide) (by decide) (by decide)
  have hnew : ((get_disk_names Host.example Files.example "zero.d88" 0
      (some EMU.example)).emu.map (fun e => (e.d88_file 0).bank_num)) = some 0 := by
    decide
  rw [hemu, Option.map_some', hbank] at hnew
  exact absurd hnew (by decide)

/-- C10, amended: when the file opens but its first record has a zero size
field, `get_disk_names` returns 0 and records that outcome for the drive:
`bank_num` becomes 0 and `path` becomes the given path.  The name slots from
index 1 on, `cur_bank`, the entries of the other drives and
`floppy_disk_status` are unchanged. -/
theorem C10_zero_first_record (h : Host) (files : Files) (path : String) (drv : Int)
    (emu : EMU) (bytes : List Nat)
    (hopen : files (h.utf8_path_to_tchar path) = some bytes)
    (hb : ∀ b ∈ bytes, b < 256)
    (hlong : (bytes.length : Int) < ((2 ^ (h.LONG_BITS - 1) : Nat) : Int))
    (hmax : 0 < h.MAX_D88_BANKS)
    (hin : 0x20 ≤ bytes.length) (hzero : le32At bytes 0x1c = 0) :
    (get_disk_names h files path drv (some emu)).ret = 0 ∧
    ∃ emu' : EMU, (get_disk_names h files path drv (some emu)).emu = some emu' ∧
      (emu'.d88_file drv).bank_num = 0 ∧
      (emu'.d88_file drv).path =
        my_tcscpy_s h (emu.d88_file drv).path (h.utf8_path_to_tchar path) ∧
      (∀ i, 1 ≤ i → (emu'.d88_file drv).disk_name i = (emu.d88_file drv).disk_name i) ∧
      (emu'.d88_file drv).cur_bank = (emu.d88_file drv).cur_bank ∧
      (∀ d, d ≠ drv → emu'.d88_file d = emu.d88_file d) ∧
      emu'.floppy_disk_status = emu.floppy_disk_status := by
  obtain ⟨n, hn⟩ : ∃ n, h.MAX_D88_BANKS = n + 1 := ⟨h.MAX_D88_BANKS - 1, by omega⟩
  obtain ⟨F, _, _, hstep⟩ :=
    get_disk_names_loop_step h bytes n (scanStart bytes (emu.d88_file drv).disk_name) 0
      rfl rfl hb hlong (by omega) (by simp only [scanStart]; omega)
  rw [Nat.zero_add, hzero, if_pos rfl] at hstep
  obtain ⟨hret, hemu, _, _⟩ := get_disk_names_of_open h files path drv emu bytes hopen
  rw [hn, hstep] at hret hemu
  rw [hret, hemu]
  refine ⟨rfl, _, rfl, ?_, ?_, ?_, ?_, ?_, rfl⟩
  · simp only [Function.update_same, scanStart]; rfl
  · simp only [Function.update_same]
  · intro i hi
    have hne : i ≠ 0 := by omega
    simp only [Function.update_same, scanStart, Function.update_noteq hne]
  · simp only [Function.update_same]
  · intro d hd
    simp only [Function.update_noteq hd]

/-- C10 amended, on `zero.d88`: the call returns 0, `bank_num` becomes 0 and
`path` becomes `zero.d88`. -/
theorem C10_zero_first_record_witness :
    (get_disk_names Host.example Files.example "zero.d88" 0 (some EMU.example)).ret = 0 ∧
    ∃ emu' : EMU,
      (get_disk_names Host.example Files.example "zero.d88" 0 (some EMU.example)).emu
        = some emu' ∧
      (emu'.d88_file 0).bank_num = 0 ∧
      (emu'.d88_file 0).path =
        my_tcscpy_s Host.example (EMU.example.d88_file 0).path
          (Host.example.utf8_path_to_tchar "zero.d88") ∧
      (∀ i, 1 ≤ i → (emu'.d88_file 0).disk_name i = (EMU.example.d88_file 0).disk_name i) ∧
      (emu'.d88_file 0).cur_bank = (EMU.example.d88_file 0).cur_bank ∧
      (∀ d, d ≠ 0 → emu'.d88_file d = EMU.example.d88_file d) ∧
      emu'.floppy_disk_status = EMU.example.floppy_disk_status :=
  C10_zero_first_record Host.example Files.example "zero.d88" 0 EMU.example
    (mkRecord [90] 0 0) (by decide) (by decide) (by decide) (by decide) (by decide)
    (by decide)

/-- A read cut short by the end of the file: of a file of five bytes `Fread`
stores the five at the front of the 17-byte buffer and leaves the other twelve
bytes of the buffer as they were. -/
theorem Fread_short_read :
    ( FILEIO.Fread { bytes := [72, 69, 76, 76, 79], is_open := true, pos := 0 }
      (List.replicate 17 0x5a) 17).1 = [72, 69, 76, 76, 79] ++ List.replicate 12 0x5a := by
  decide

/-! ## Theorems: disk insertion and bank selection -/

/-- The number of passes of the loop, and with it `count`, depends on the file
only, not on the name table the loop writes to. -/
theorem get_disk_names_loop_count_indep (h : Host) (file_size : Int) :
    ∀ (fuel : Nat) (st1 st2 : ScanState), st1.fio = st2.fio → st1.offset = st2.offset →
      st1.count = st2.count →
      (get_disk_names_loop h file_size fuel st1).count =
        (get_disk_names_loop h file_size fuel st2).count := by
  intro fuel
  induction fuel with
  | zero => intro st1 st2 _ _ hc; exact hc
  | succ n ih =>
    intro st1 st2 hf ho hc
    simp only [get_disk_names_loop]
    rw [hf, ho, hc]
    split
    · split
      · rfl
      · exact ih _ _ rfl rfl rfl
    · exact hc

/-- The value returned by `get_disk_names` for a path is the same for every
drive and every `EMU` state. -/
theorem get_disk_names_ret_indep (h : Host) (files : Files) (path : String) (d1 d2 : Int)
    (e1 e2 : EMU) :
    (get_disk_names h files path d1 (some e1)).ret =
      (get_disk_names h files path d2 (some e2)).ret := by
  cases hopen : files (h.utf8_path_to_tchar path) with
  | none => simp only [get_disk_names, FILEIO.Fopen, hopen]
  | some bytes =>
    rw [(get_disk_names_of_open h files path d1 e1 bytes hopen).1,
      (get_disk_names_of_open h files path d2 e2 bytes hopen).1]
    congr 1
    exact get_disk_names_loop_count_indep h _ _ _ _ rfl rfl rfl

/-- What `get_disk_names` does to the `EMU`: either nothing (and it returns 0),
or it stores the returned count as `bank_num` of the drive; `cur_bank` and the
other drives are never touched. -/
theorem get_disk_names_emu (h : Host) (files : Files) (path : String) (drv : Int)
    (em : EMU) :
    0 ≤ (get_disk_names h files path drv (some em)).ret ∧
    ∃ em' : EMU, (get_disk_names h files path drv (some em)).emu = some em' ∧
      (em'.d88_file drv).cur_bank = (em.d88_file drv).cur_bank ∧
      (∀ d, d ≠ drv → em'.d88_file d = em.d88_file d) ∧
      ((em'.d88_file drv).bank_num = (get_disk_names h files path drv (some em)).ret ∨
        ((get_disk_names h files path drv (some em)).ret = 0 ∧
          (em'.d88_file drv).bank_num = (em.d88_file drv).bank_num)) := by
  cases hopen : files (h.utf8_path_to_tchar path) with
  | none =>
    simp only [get_disk_names, FILEIO.Fopen, hopen, le_refl, true_and]
    refine ⟨em, rfl, rfl, fun _ _ => rfl, ?_⟩
    simp
  | some bytes =>
    obtain ⟨hret, hemu, _, _⟩ := get_disk_names_of_open h files path drv em bytes hopen
    rw [hret, hemu]
    refine ⟨Int.ofNat_zero_le _, _, rfl, ?_, ?_, Or.inl ?_⟩
    · simp only [Function.update_same]
    · intro d hd
      simp only [Function.update_noteq hd]
    · simp only [Function.update_same]

/-- The insertion sequence on `emu`: the drive's `cur_bank` becomes `bank`, its
`bank_num` becomes the count returned by `get_disk_names` (or stays, when the
count is 0 and nothing was read), and the other drives are untouched. -/
theorem insert_into_emu_spec (h : Host) (files : Files) (em : EMU) (drv : Int)
    (status_path names_path : String) (bank : Int) :
    ((insert_into_emu h files em drv status_path names_path bank).1.d88_file drv).cur_bank
      = bank ∧
    (∀ d, d ≠ drv →
      (insert_into_emu h files em drv status_path names_path bank).1.d88_file d
        = em.d88_file d) ∧
    (insert_into_emu h files em drv status_path names_path bank).2 =
      (get_disk_names h files names_path 0 (some em)).ret ∧
    0 ≤ (insert_into_emu h files em drv status_path names_path bank).2 ∧
    (((insert_into_emu h files em drv status_path names_path bank).1.d88_file drv).bank_num
        = (insert_into_emu h files em drv status_path names_path bank).2 ∨
      ((insert_into_emu h files em drv status_path names_path bank).2 = 0 ∧
        ((insert_into_emu h files em drv status_path names_path bank).1.d88_file drv).bank_num
          = (em.d88_file drv).bank_num)) := by
  obtain ⟨hge, em', hemu, _, hother, hbank⟩ := get_disk_names_emu h files names_path drv
    (EMU.mk em.d88_file (Function.update em.floppy_disk_status drv
      (FloppyStatus.mk (my_tcscpy_s h (em.floppy_disk_status drv).path status_path) bank)))
  simp only [insert_into_emu, hemu, Option.getD_some, Function.update_same, true_and]
  refine ⟨?_, ?_, hge, ?_⟩
  · intro d hd
    rw [Function.update_noteq hd]
    exact hother d hd
  · exact get_disk_names_ret_indep h files names_path drv 0 _ em
  · exact hbank

/-- An insertion with bank 0 keeps the drive's selection well formed. -/
theorem insert_into_emu_bank0 (h : Host) (files : Files) (em : EMU) (drv : Int)
    (status_path names_path : String) (hinv : ∀ d, BankSelection (em.d88_file d)) :
    ∀ d, BankSelection
      ((insert_into_emu h files em drv status_path names_path 0).1.d88_file d) := by
  obtain ⟨hcur, hother, _, hge, hbank⟩ :=
    insert_into_emu_spec h files em drv status_path names_path 0
  intro d
  by_cases hd : d = drv
  · subst hd
    have hold := hinv d
    unfold BankSelection at hold ⊢
    rw [hcur]
    rcases hbank with hb | ⟨_, hb⟩
    · rw [hb]; omega
    · rw [hb]; omega
  · rw [hother d hd]
    exact hinv d

/-- The automatic load of bank 1 into drive 1, made only when the image has at
least two banks, leaves drive 1 with a valid selection and the other drives as
they were. -/
theorem insert_into_emu_bank1 (h : Host) (files : Files) (em : EMU)
    (status_path names_path : String)
    (hbanks : 2 ≤ (get_disk_names h files names_path 0 (some em)).ret)
    (hinv : ∀ d, BankSelection (em.d88_file d)) :
    ValidBank ((insert_into_emu h files em 1 status_path names_path 1).1.d88_file 1) ∧
    ∀ d, BankSelection
      ((insert_into_emu h files em 1 status_path names_path 1).1.d88_file d) := by
  obtain ⟨hcur, hother, hret, _, hbank⟩ :=
    insert_into_emu_spec h files em 1 status_path names_path 1
  rw [hret] at hbank
  have hv : ValidBank ((insert_into_emu h files em 1 status_path names_path 1).1.d88_file 1) := by
    unfold ValidBank
    rw [hcur]
    rcases hbank with hb | ⟨hb, _⟩
    · rw [hb]; omega
    · omega
  refine ⟨hv, ?_⟩
  intro d
  by_cases hd : d = 1
  · subst hd
    exact ⟨hv.1, Or.inl hv.2⟩
  · rw [hother d hd]
    exact hinv d

/-- A click in the file browser keeps every drive's selection well formed. -/
theorem file_browser_click_selection (h : Host) (s : OSD) (em : EMU)
    (hemu : s.emu = some em) (hinv : ∀ d, BankSelection (em.d88_file d))
    (full_path display_name : String) :
    ∃ em' : EMU, (file_browser_click h s full_path display_name).emu = some em' ∧
      ∀ d, BankSelection (em'.d88_file d) := by
  by_cases hp : s.pending_drive = 0
  · by_cases hv : s.vm = true
    · by_cases ha : s.fd2_path = "" ∧
          (insert_into_emu h s.files em 0 (h.utf8_path_to_tchar full_path) full_path 0).2 ≥ 2
      · simp only [file_browser_click, hemu, if_pos hp, if_pos hv, if_pos ha]
        refine ⟨_, rfl, ?_⟩
        apply (insert_into_emu_bank1 h s.files _ _ _ ?_ ?_).2
        · have h1 := (insert_into_emu_spec h s.files em 0 (h.utf8_path_to_tchar full_path)
            full_path 0).2.2.1
          rw [get_disk_names_ret_indep h s.files full_path 0 0 _ em, ← h1]
          exact ha.2
        · exact insert_into_emu_bank0 h s.files em 0 _ _ hinv
      · simp only [file_browser_click, hemu, if_pos hp, if_pos hv, if_neg ha]
        exact ⟨_, rfl, insert_into_emu_bank0 h s.files em 0 _ _ hinv⟩
    · simp only [file_browser_click, if_pos hp, if_neg hv, hemu]
      exact ⟨em, rfl, hinv⟩
  · by_cases hv : s.vm = true
    · simp only [file_browser_click, hemu, if_neg hp, if_pos hv]
      exact ⟨_, rfl, insert_into_emu_bank0 h s.files em 1 _ _ hinv⟩
    · simp only [file_browser_click, if_neg hp, if_neg hv, hemu]
      exact ⟨em, rfl, hinv⟩

/-- A click in the "Recent Disks" menu keeps every drive's selection well
formed. -/
theorem recent_disk_click_selection (h : Host) (s : OSD) (em : EMU)
    (hemu : s.emu = some em) (hinv : ∀ d, BankSelection (em.d88_file d))
    (drv : Int) (i : Nat) :
    ∃ em' : EMU, (recent_disk_click h s drv i).emu = some em' ∧
      ∀ d, BankSelection (em'.d88_file d) := by
  by_cases hitem : i < h.MAX_HISTORY ∧ ∀ k, k < i + 1 → s.recent drv k ≠ ""
  · by_cases hv : s.vm = true
    · by_cases ha : drv = 0 ∧
          (if drv = 0 then s.fd2_path
            else my_tcscpy_s h s.fd2_path
              (h.utf8_path_to_tchar (h.filename (h.tchar_to_char (s.recent drv i))))) = "" ∧
          (insert_into_emu h s.files em drv (s.recent drv i)
            (h.tchar_to_char (s.recent drv i)) 0).2 ≥ 2
      · simp only [recent_disk_click, hemu, if_pos hitem, if_pos hv, if_pos ha]
        refine ⟨_, rfl, ?_⟩
        apply (insert_into_emu_bank1 h s.files _ _ _ ?_ ?_).2
        · have h1 := (insert_into_emu_spec h s.files em drv (s.recent drv i)
            (h.tchar_to_char (s.recent drv i)) 0).2.2.1
          rw [get_disk_names_ret_indep h s.files (h.tchar_to_char (s.recent drv i)) 0 0 _ em,
            ← h1]
          exact ha.2.2
        · exact insert_into_emu_bank0 h s.files em drv _ _ hinv
      · simp only [recent_disk_click, hemu, if_pos hitem, if_pos hv, if_neg ha]
        exact ⟨_, rfl, insert_into_emu_bank0 h s.files em drv _ _ hinv⟩
    · simp only [recent_disk_click, if_pos hitem, if_neg hv, hemu]
      exact ⟨em, rfl, hinv⟩
  · simp only [recent_disk_click, if_neg hitem, hemu]
    exact ⟨em, rfl, hinv⟩

/-- The button "Create and Insert" of the save browser keeps every drive's selection well
formed. -/
theorem save_browser_create_selection (h : Host) (s : OSD) (em : EMU)
    (hemu : s.emu = some em) (hinv : ∀ d, BankSelection (em.d88_file d))
    (path_str filename_str : String) :
    ∃ em' : EMU, (save_browser_create h s path_str filename_str).emu = some em' ∧
      ∀ d, BankSelection (em'.d88_file d) := by
  cases hc : h.create_blank_floppy_disk s.files (h.utf8_path_to_tchar path_str)
      (s.pending_blank_type % 256) with
  | none =>
    simp only [save_browser_create, hemu, hc]
    exact ⟨em, rfl, hinv⟩
  | some files' =>
    by_cases hv : s.vm = true
    · simp only [save_browser_create, hemu, hc, if_pos hv]
      exact ⟨_, rfl, insert_into_emu_bank0 h files' em s.pending_drive _ _ hinv⟩
    · simp only [save_browser_create, hemu, hc, if_neg hv]
      exact ⟨em, rfl, hinv⟩

/-- A click in the image list stores an index of the list: the drive's
selection is valid afterwards, and the other drives are as before. -/
theorem bank_menu_click_spec (s : OSD) (em : EMU) (hemu : s.emu = some em)
    (drv : Int) (b : Int) :
    ∃ em' : EMU, (bank_menu_click s drv b).emu = some em' ∧
      (∀ d, d ≠ drv → em'.d88_file d = em.d88_file d) ∧
      (em'.d88_file drv = em.d88_file drv ∨
        ((em'.d88_file drv).cur_bank = b ∧
          (em'.d88_file drv).bank_num = (em.d88_file drv).bank_num ∧
          ValidBank (em'.d88_file drv))) := by
  by_cases hitem : (em.floppy_disk_status drv).path ≠ "" ∧ (em.d88_file drv).bank_num > 1 ∧
      0 ≤ b ∧ b < (em.d88_file drv).bank_num
  · simp only [bank_menu_click, hemu, if_pos hitem]
    refine ⟨_, rfl, ?_, Or.inr ?_⟩
    · intro d hd
      simp only [Function.update_noteq hd]
    · simp only [Function.update_same, ValidBank, true_and]
      exact ⟨hitem.2.2.1, hitem.2.2.2⟩
  · simp only [bank_menu_click, hemu, if_neg hitem]
    exact ⟨em, rfl, fun _ _ => rfl, Or.inl rfl⟩

/-- C8 as stated fails: inserting `zero.d88` (an image whose first record has a
zero size field) into FD1 through the file browser, from a state in which both
drives have a valid selection, leaves drive 0 with `cur_bank = 0` and
`bank_num = 0`, and 0 is not below 0. -/
theorem C8_selected_bank_counterexample :
    ¬ (∀ (h : Host) (s : OSD) (em : EMU) (full_path display_name : String),
        s.vm = true → s.emu = some em → (∀ d, ValidBank (em.d88_file d)) →
        ∃ em' : EMU, (file_browser_click h s full_path display_name).emu = some em' ∧
          ∀ d, ValidBank (em'.d88_file d)) := by
  intro hall
  obtain ⟨em', hemu, hvalid⟩ :=
    hall Host.example OSD.example EMU.example "zero.d88" "zero.d88" rfl rfl
      (fun _ => ⟨(by decide : (0 : Int) ≤ 2), (by decide : (2 : Int) < 3)⟩)
  have hnew : ((file_browser_click Host.example OSD.example "zero.d88" "zero.d88").emu.map
      (fun e => ((e.d88_file 0).cur_bank, (e.d88_file 0).bank_num))) = some (0, 0) := by
    decide
  rw [hemu, Option.map_some', Option.some.injEq, Prod.mk.injEq] at hnew
  have h0 := hvalid 0
  unfold ValidBank at h0
  omega

/-- C8, amended: every bank-menu selection and every disk insertion of the host
UI (file browser, recent-disk menu, blank-disk creation, each with the
automatic FD2 load) keeps, for each drive, `0 <= cur_bank` and
`cur_bank < bank_num`, or `cur_bank = 0 = bank_num` for an image in which no
bank was found.  A bank-menu selection only stores an index `b` of the image
list, `0 <= b < bank_num`; it leaves `bank_num` alone. -/
theorem C8_bank_selection_preserved (h : Host) (s : OSD) (em : EMU)
    (hemu : s.emu = some em) (hinv : ∀ d, BankSelection (em.d88_file d)) :
    (∀ full_path display_name, ∃ em' : EMU,
      (file_browser_click h s full_path display_name).emu = some em' ∧
      ∀ d, BankSelection (em'.d88_file d)) ∧
    (∀ drv i, ∃ em' : EMU, (recent_disk_click h s drv i).emu = some em' ∧
      ∀ d, BankSelection (em'.d88_file d)) ∧
    (∀ path_str filename_str, ∃ em' : EMU,
      (save_browser_create h s path_str filename_str).emu = some em' ∧
      ∀ d, BankSelection (em'.d88_file d)) ∧
    (∀ drv b, ∃ em' : EMU, (bank_menu_click s drv b).emu = some em' ∧
      (∀ d, BankSelection (em'.d88_file d)) ∧
      (em'.d88_file drv = em.d88_file drv ∨
        ((em'.d88_file drv).cur_bank = b ∧ 0 ≤ b ∧ b < (em'.d88_file drv).bank_num ∧
          (em'.d88_file drv).bank_num = (em.d88_file drv).bank_num))) := by
  refine ⟨fun f n => file_browser_click_selection h s em hemu hinv f n,
    fun drv i => recent_disk_click_selection h s em hemu hinv drv i,
    fun p f => save_browser_create_selection h s em hemu hinv p f, ?_⟩
  intro drv b
  obtain ⟨em', he, hother, hsel⟩ := bank_menu_click_spec s em hemu drv b
  refine ⟨em', he, ?_, ?_⟩
  · intro d
    by_cases hd : d = drv
    · subst hd
      rcases hsel with hsame | ⟨_, _, hv⟩
      · rw [hsame]; exact hinv d
      · exact ⟨hv.1, Or.inl hv.2⟩
    · rw [hother d hd]; exact hinv d
  · rcases hsel with hsame | ⟨hc, hb, hv⟩
    · exact Or.inl hsame
    · unfold ValidBank at hv
      rw [hc] at hv
      exact Or.inr ⟨hc, hv.1, hv.2, hb⟩

/-- C8 amended, on the example state (both drives hold a three-bank image with
bank 2 selected): inserting the empty-record image `zero.d88` into FD1 leaves
drive 0 in the state "bank 0 of no banks", and a click on bank 1 of drive 1
selects bank 1 of 3. -/
theorem C8_bank_selection_preserved_witness :
    (∀ d, BankSelection (EMU.example.d88_file d)) ∧
    (∃ em' : EMU,
      (file_browser_click Host.example OSD.example "zero.d88" "zero.d88").emu = some em' ∧
      ∀ d, BankSelection (em'.d88_file d)) ∧
    (∃ em' : EMU, (bank_menu_click OSD.example 1 1).emu = some em' ∧
      (∀ d, BankSelection (em'.d88_file d)) ∧
      (em'.d88_file 1 = EMU.example.d88_file 1 ∨
        ((em'.d88_file 1).cur_bank = 1 ∧ 0 ≤ (1 : Int) ∧ 1 < (em'.d88_file 1).bank_num ∧
          (em'.d88_file 1).bank_num = (EMU.example.d88_file 1).bank_num))) :=
  ⟨fun _ => ⟨(by decide : (0 : Int) ≤ 2), Or.inl (by decide : (2 : Int) < 3)⟩,
   (C8_bank_selection_preserved Host.example OSD.example EMU.example rfl
      (fun _ => ⟨(by decide : (0 : Int) ≤ 2), Or.inl (by decide : (2 : Int) < 3)⟩)).1 "zero.d88" "zero.d88",
   (C8_bank_selection_preserved Host.example OSD.example EMU.example rfl
      (fun _ => ⟨(by decide : (0 : Int) ≤ 2), Or.inl (by decide : (2 : Int) < 3)⟩)).2.2.2 1 1⟩

/-! ## Theorems: page partition, file handle, interrupt lines -/

/-- The shift `(x) >> 12` is the division by 4096 rounding down. -/
theorem shr12_eq_div (x : Int) : shr12 x = x / 4096 := by
  unfold shr12
  rw [Int.shiftRight_eq_div_pow]
  norm_num

/-- The loop of `SET_BANK` runs its body once for each entry of the trace, in
order. -/
theorem SET_BANK_loop_eq_foldl (wdmy rdmy : Ptr) (sb : Int) (w r : Ptr) :
    ∀ (n : Nat) (i : Int) (m : Banks),
      SET_BANK_loop wdmy rdmy sb w r n i m =
        (SET_BANK_loop_trace n i).foldl (SET_BANK_body wdmy rdmy sb w r) m := by
  intro n
  induction n with
  | zero => intro i m; rfl
  | succ n ih =>
    intro i m
    simp only [SET_BANK_loop, SET_BANK_loop_trace, List.foldl_cons]
    exact ih (i + 1) _

/-- The entries of the trace of a loop entered at `i` with `n` passes to run
are the integers from `i` to `i + n - 1`. -/
theorem SET_BANK_loop_trace_mem :
    ∀ (n : Nat) (i j : Int), j ∈ SET_BANK_loop_trace n i ↔ (i ≤ j ∧ j < i + n) := by
  intro n
  induction n with
  | zero =>
    intro i j
    simp only [SET_BANK_loop_trace, List.not_mem_nil, false_iff]
    intro hh; have := hh.1; have := hh.2; omega
  | succ n ih =>
    intro i j
    simp only [SET_BANK_loop_trace, List.mem_cons, ih]
    constructor
    · rintro (h | ⟨h1, h2⟩)
      · subst h; constructor
        · omega
        · push_cast; omega
      · constructor
        · omega
        · push_cast; omega
    · intro hh
      have h1 := hh.1
      have h2 := hh.2
      push_cast at h2
      by_cases hj : j = i
      · exact Or.inl hj
      · right; constructor <;> omega

/-- C11: the address space is partitioned into 16 pages.  For every 16-bit
address `a` the page index `a >> 12` lies in `0..15`; two addresses lie in the
same 4096-byte page exactly when they agree on `a >> 12`; and for
`0 <= s <= e <= 0xFFFF`, `SET_BANK(s, e, w, r)` is the run of its body over
table indices that all lie in `0..15`, so it leaves everything outside the
16-entry tables alone. -/
theorem C11_sixteen_pages :
    (∀ a : Int, 0 ≤ a → a ≤ 0xFFFF → 0 ≤ shr12 a ∧ shr12 a ≤ 15) ∧
    (∀ a b : Int, 0 ≤ a → a ≤ 0xFFFF → 0 ≤ b → b ≤ 0xFFFF →
      ((∃ p : Int, (0x1000 * p ≤ a ∧ a < 0x1000 * (p + 1)) ∧
          (0x1000 * p ≤ b ∧ b < 0x1000 * (p + 1))) ↔ shr12 a = shr12 b)) ∧
    (∀ (wdmy rdmy : Ptr) (m : Banks) (s e : Int) (w r : Ptr),
      0 ≤ s → s ≤ e → e ≤ 0xFFFF →
      SET_BANK wdmy rdmy m s e w r =
        (SET_BANK_indices s e).foldl (SET_BANK_body wdmy rdmy (shr12 s) w r) m ∧
      (∀ i ∈ SET_BANK_indices s e, 0 ≤ i ∧ i ≤ 15) ∧
      (∀ j : Int, (j < 0 ∨ 15 < j) →
        (SET_BANK wdmy rdmy m s e w r).wbank j = m.wbank j ∧
        (SET_BANK wdmy rdmy m s e w r).rbank j = m.rbank j)) := by
  refine ⟨?_, ?_, ?_⟩
  · intro a h0 h1
    rw [shr12_eq_div]
    constructor <;> omega
  · intro a b _ _ _ _
    rw [shr12_eq_div, shr12_eq_div]
    constructor
    · rintro ⟨p, ⟨h1, h2⟩, h3, h4⟩
      omega
    · intro heq
      exact ⟨a / 4096, ⟨by omega, by omega⟩, by omega, by omega⟩
  · intro wdmy rdmy m s e w r hs hse he
    have hsb : 0 ≤ shr12 s ∧ shr12 s ≤ 15 := by rw [shr12_eq_div]; constructor <;> omega
    have heb : 0 ≤ shr12 e ∧ shr12 e ≤ 15 := by rw [shr12_eq_div]; constructor <;> omega
    refine ⟨?_, ?_, ?_⟩
    · exact SET_BANK_loop_eq_foldl wdmy rdmy (shr12 s) w r _ _ m
    · intro i hi
      unfold SET_BANK_indices at hi
      rw [SET_BANK_loop_trace_mem] at hi
      have := hi.1
      have := hi.2
      have := hsb.1
      have := heb.2
      constructor <;> omega
    · intro j hj
      have hspec := SET_BANK_spec wdmy rdmy m s e w r j
      have hn : ¬ (shr12 s ≤ j ∧ j ≤ shr12 e) := by
        intro hh
        have := hh.1
        have := hh.2
        have := hsb.1
        have := heb.2
        omega
      rw [if_neg hn, if_neg hn] at hspec
      exact hspec

/-- C11 at the addresses `0x2345` and `0x2FFF` (both in page 2) and at
`SET_BANK(0x8000, 0xFFFF, ..)`, which runs over the indices 8 to 15. -/
theorem C11_sixteen_pages_witness :
    (0 ≤ shr12 0x2345 ∧ shr12 0x2345 ≤ 15) ∧
    ((∃ p : Int, (0x1000 * p ≤ 0x2345 ∧ 0x2345 < 0x1000 * (p + 1)) ∧
        (0x1000 * p ≤ 0x2FFF ∧ 0x2FFF < 0x1000 * (p + 1))) ↔ shr12 0x2345 = shr12 0x2FFF) ∧
    SET_BANK_indices 0x8000 0xFFFF = [8, 9, 10, 11, 12, 13, 14, 15] ∧
    (∀ i ∈ SET_BANK_indices 0x8000 0xFFFF, 0 ≤ i ∧ i ≤ 15) :=
  ⟨C11_sixteen_pages.1 0x2345 (by decide) (by decide),
   C11_sixteen_pages.2.1 0x2345 0x2FFF (by decide) (by decide) (by decide) (by decide),
   by decide,
   (C11_sixteen_pages.2.2 1 2 Banks.zero 0x8000 0xFFFF 0x10000 0x10000
      (by decide) (by decide) (by decide)).2.1⟩

/-- Reading one byte keeps the content of the file and leaves it open or
closed as it was. -/
theorem FgetUint8_keeps (f : FILEIO) :
    f.FgetUint8.2.bytes = f.bytes ∧ f.FgetUint8.2.is_open = f.is_open := by
  unfold FILEIO.FgetUint8 FILEIO.Fgetc
  split <;> exact ⟨rfl, rfl⟩

/-- The loop of `get_disk_names` only seeks and reads: the file object keeps
its content and stays open or closed as it was. -/
theorem get_disk_names_loop_keeps_file (h : Host) (file_size : Int) :
    ∀ (fuel : Nat) (st : ScanState),
      (get_disk_names_loop h file_size fuel st).fio.bytes = st.fio.bytes ∧
      (get_disk_names_loop h file_size fuel st).fio.is_open = st.fio.is_open := by
  have hseek : ∀ (f : FILEIO) (o : Int),
      (f.Fseek o).bytes = f.bytes ∧ (f.Fseek o).is_open = f.is_open := by
    intro f o
    unfold FILEIO.Fseek
    split <;> exact ⟨rfl, rfl⟩
  have hget : ∀ (f : FILEIO),
      f.FgetUint32_LE.2.bytes = f.bytes ∧ f.FgetUint32_LE.2.is_open = f.is_open := by
    intro f
    unfold FILEIO.FgetUint32_LE
    simp only
    have h0 := FgetUint8_keeps f
    have h1 := FgetUint8_keeps f.FgetUint8.2
    have h2 := FgetUint8_keeps f.FgetUint8.2.FgetUint8.2
    have h3 := FgetUint8_keeps f.FgetUint8.2.FgetUint8.2.FgetUint8.2
    exact ⟨by rw [h3.1, h2.1, h1.1, h0.1], by rw [h3.2, h2.2, h1.2, h0.2]⟩
  have hpass : ∀ (f : FILEIO) (buf : List Nat) (o1 o2 : Int),
      ((((f.Fseek o1).Fread buf 17).2.Fseek o2).FgetUint32_LE).2.bytes = f.bytes ∧
      ((((f.Fseek o1).Fread buf 17).2.Fseek o2).FgetUint32_LE).2.is_open = f.is_open := by
    intro f buf o1 o2
    have a := hget (((f.Fseek o1).Fread buf 17).2.Fseek o2)
    have b := hseek ((f.Fseek o1).Fread buf 17).2 o2
    have c := hseek f o1
    have d : ((f.Fseek o1).Fread buf 17).2.bytes = (f.Fseek o1).bytes ∧
        ((f.Fseek o1).Fread buf 17).2.is_open = (f.Fseek o1).is_open := ⟨rfl, rfl⟩
    exact ⟨by rw [a.1, b.1, d.1, c.1], by rw [a.2, b.2, d.2, c.2]⟩
  intro fuel
  induction fuel with
  | zero => intro st; exact ⟨rfl, rfl⟩
  | succ n ih =>
    intro st
    simp only [get_disk_names_loop]
    split
    · split
      · exact hpass st.fio _ _ _
      · have hrec := ih
          { fio := ((((st.fio.Fseek st.offset).Fread (h.name_buf_uninit st.count) 17).2.Fseek
              (wrapLong h.LONG_BITS (st.offset + 0x1c))).FgetUint32_LE).2,
            offset := wrapLong h.LONG_BITS (st.offset +
              (((((st.fio.Fseek st.offset).Fread (h.name_buf_uninit st.count) 17).2.Fseek
                (wrapLong h.LONG_BITS (st.offset + 0x1c))).FgetUint32_LE).1 : Int)),
            count := st.count + 1,
            disk_name := Function.update st.disk_name st.count
              (h.sjis_to_utf8 ((st.fio.Fseek st.offset).Fread (h.name_buf_uninit st.count) 17).1),
            written := st.written ++ [st.count] }
        have hp := hpass st.fio (h.name_buf_uninit st.count) st.offset
          (wrapLong h.LONG_BITS (st.offset + 0x1c))
        exact ⟨by rw [hrec.1]; exact hp.1, by rw [hrec.2]; exact hp.2⟩
    · exact ⟨rfl, rfl⟩

/-- C12: no held file handle.  Whatever `get_disk_names` returns with, its file
object is not open; and on every path on which `Fopen` succeeded (end of file,
zero size field, bank limit), the object it returns with is the one that was
opened on the file, still open when the loop ended, after `Fclose`. -/
theorem C12_file_closed (h : Host) (files : Files) (path : String) (drv : Int)
    (emu : Option EMU) :
    (∀ f, (get_disk_names h files path drv emu).fio = some f → f.is_open = false) ∧
    (∀ em bytes, emu = some em → files (h.utf8_path_to_tchar path) = some bytes →
      ∃ f : FILEIO, f.bytes = bytes ∧ f.is_open = true ∧
        (get_disk_names h files path drv emu).fio = some f.Fclose) := by
  constructor
  · intro f hf
    cases emu with
    | none => simp only [get_disk_names] at hf; cases hf
    | some em =>
      cases hopen : files (h.utf8_path_to_tchar path) with
      | none =>
        simp only [get_disk_names, FILEIO.Fopen, hopen, Option.some.injEq] at hf
        rw [← hf]
      | some bytes =>
        rw [(get_disk_names_of_open h files path drv em bytes hopen).2.2.1] at hf
        simp only [Option.some.injEq] at hf
        rw [← hf]
        rfl
  · intro em bytes hemu hopen
    subst hemu
    have hk := get_disk_names_loop_keeps_file h (bytes.length : Int) h.MAX_D88_BANKS
      (scanStart bytes (em.d88_file drv).disk_name)
    exact ⟨_, hk.1, hk.2, (get_disk_names_of_open h files path drv em bytes hopen).2.2.1⟩

/-- C12 on the three ways out of the loop: `two.d88` is read to its end,
`zero.d88` stops at a zero size field, and with `MAX_D88_BANKS = 1` the scan of
`two.d88` stops at the bank limit; each time the file object is closed. -/
theorem C12_file_closed_witness :
    (∃ f : FILEIO, f.is_open = true ∧
      (get_disk_names Host.example Files.example "two.d88" 0 (some EMU.example)).fio
        = some f.Fclose) ∧
    (∃ f : FILEIO, f.is_open = true ∧
      (get_disk_names Host.example Files.example "zero.d88" 0 (some EMU.example)).fio
        = some f.Fclose) ∧
    (∃ f : FILEIO, f.is_open = true ∧
      (get_disk_names { Host.example with MAX_D88_BANKS := 1 } Files.example "two.d88" 0
        (some EMU.example)).fio = some f.Fclose) :=
  ⟨(C12_file_closed Host.example Files.example "two.d88" 0 (some EMU.example)).2
      EMU.example _ rfl rfl |>.imp fun _ hf => ⟨hf.2.1, hf.2.2⟩,
   (C12_file_closed Host.example Files.example "zero.d88" 0 (some EMU.example)).2
      EMU.example _ rfl rfl |>.imp fun _ hf => ⟨hf.2.1, hf.2.2⟩,
   (C12_file_closed { Host.example with MAX_D88_BANKS := 1 } Files.example "two.d88" 0
      (some EMU.example)).2 EMU.example _ rfl rfl |>.imp fun _ hf => ⟨hf.2.1, hf.2.2⟩⟩

/-- C14: eight fixed interrupt sources without ties.  The identifiers `USART`,
`VRTC`, `TIMER`, `INT4`, `SOUND`, `INT2`, `FDINT1`, `FDINT2` are the constants
`0, 1, ..., 7` in this order; they are pairwise distinct, so ordering the lines
by number is a total order in which no two sources share a rank. -/
theorem C14_irq_lines :
    irqLines = [0, 1, 2, 3, 4, 5, 6, 7] ∧ irqLines.Nodup ∧
    (∀ a ∈ irqLines, ∀ b ∈ irqLines, a ≤ b ∨ b ≤ a) ∧
    (∀ a ∈ irqLines, ∀ b ∈ irqLines, a ≤ b → b ≤ a → a = b) ∧
    (∀ a ∈ irqLines, a < 8) := by
  refine ⟨by decide, by decide, ?_, ?_, by decide⟩
  · intro a _ b _; omega
  · intro a _ b _ h1 h2; omega

/-! ## Theorems: the advisory VM lock -/

/-- The counter follows the number of unmatched locks along every sequence of
calls in which that number stays within `0 .. 2^31 - 1`. -/
theorem runLockCalls_eq_unmatched (calls : List LockCall) :
    (∀ k, k ≤ calls.length →
      0 ≤ unmatchedLocks (calls.take k) ∧ unmatchedLocks (calls.take k) < 2147483648) →
    runLockCalls calls 0 = unmatchedLocks calls := by
  induction calls using List.reverseRecOn with
  | nil => intro _; rfl
  | append_singleton l c ih =>
    intro hp
    have hl : runLockCalls l 0 = unmatchedLocks l := by
      apply ih
      intro k hk
      have := hp k (by simp only [List.length_append, List.length_singleton]; omega)
      rw [List.take_append_of_le_length hk] at this
      exact this
    have h1 := hp l.length (by simp)
    have h2 := hp (l.length + 1) (by simp)
    rw [List.take_append_of_le_length (le_refl _), List.take_length] at h1
    rw [List.take_of_length_le (by simp)] at h2
    unfold runLockCalls at hl ⊢
    rw [List.foldl_append, hl]
    unfold unmatchedLocks at h1 h2 ⊢
    simp only [List.map_append, List.sum_append, List.map_cons, List.map_nil, List.sum_cons,
      List.sum_nil, add_zero, List.foldl_cons, List.foldl_nil] at h1 h2 ⊢
    cases c with
    | lock =>
      simp only [LockCall.run, lock_vm, wrapInt] at h2 ⊢
      omega
    | unlock =>
      simp only [LockCall.run, unlock_vm, wrapInt] at h2 ⊢
      omega

/-- C13: advisory lock accounting.  Within the range of `int`, `lock_vm`
increments and `unlock_vm` decrements `lock_count` by exactly one;
`is_vm_locked()` is true iff `lock_count != 0`; and from a fresh `OSD`
(`lock_count = 0`), every sequence of calls in which each `unlock_vm` matches
an earlier `lock_vm` (the number of unmatched locks never goes below 0, nor
beyond what an `int` holds) ends with `is_vm_locked()` true iff some
`lock_vm` is still unmatched. -/
theorem C13_lock_accounting :
    (∀ c : Int, -2147483648 ≤ c → c < 2147483647 → lock_vm c = c + 1) ∧
    (∀ c : Int, -2147483648 < c → c ≤ 2147483647 → unlock_vm c = c - 1) ∧
    (∀ c : Int, is_vm_locked c = true ↔ c ≠ 0) ∧
    (∀ calls : List LockCall,
      (∀ k, k ≤ calls.length →
        0 ≤ unmatchedLocks (calls.take k) ∧
        unmatchedLocks (calls.take k) < 2147483648) →
      runLockCalls calls 0 = unmatchedLocks calls ∧
      (is_vm_locked (runLockCalls calls 0) = true ↔ 0 < unmatchedLocks calls)) := by
  refine ⟨?_, ?_, ?_, ?_⟩
  · intro c h1 h2
    unfold lock_vm wrapInt
    omega
  · intro c h1 h2
    unfold unlock_vm wrapInt
    omega
  · intro c
    simp [is_vm_locked]
  · intro calls hp
    have hrun := runLockCalls_eq_unmatched calls hp
    refine ⟨hrun, ?_⟩
    rw [hrun]
    have hlast := hp calls.length (le_refl _)
    rw [List.take_length] at hlast
    simp only [is_vm_locked, bne_iff_ne, ne_eq]
    constructor
    · intro hne; omega
    · intro hpos; omega

/-- C13 on the sequence lock, lock, unlock, and on lock, unlock: after the
first, one lock is unmatched and the VM counts as locked; after the second,
none is and it does not. -/
theorem C13_lock_accounting_witness :
    (lock_vm 0 = 0 + 1 ∧ unlock_vm 1 = 1 - 1) ∧
    (runLockCalls [LockCall.lock, LockCall.lock, LockCall.unlock] 0 = 1 ∧
      is_vm_locked (runLockCalls [LockCall.lock, LockCall.lock, LockCall.unlock] 0) = true) ∧
    (runLockCalls [LockCall.lock, LockCall.unlock] 0 = 0 ∧
      is_vm_locked (runLockCalls [LockCall.lock, LockCall.unlock] 0) = false) :=
  ⟨⟨C13_lock_accounting.1 0 (by decide) (by decide),
    C13_lock_accounting.2.1 1 (by decide) (by decide)⟩,
   ⟨(C13_lock_accounting.2.2.2 [LockCall.lock, LockCall.lock, LockCall.unlock]
      (by decide)).1.trans (by decide),
    by decide⟩,
   ⟨(C13_lock_accounting.2.2.2 [LockCall.lock, LockCall.unlock] (by decide)).1.trans
      (by decide),
    by decide⟩⟩

/-! ## Theorems: the recent-disk list -/

/-- A string that fits the buffer is copied as it is. -/
theorem my_tcscpy_s_fits (h : Host) (dst src : String) (hfit : src.length < h._MAX_PATH) :
    my_tcscpy_s h dst src = src := by
  unfold my_tcscpy_s
  rw [if_pos hfit]

/-- The first loop of `add_recent_disk`: the kept entries of the part of the
array still to be read are stored from `write_idx` on, `write_idx` advances by
their number, and the array is unchanged before `write_idx` and behind the part
read. -/
theorem add_recent_disk_compact_spec (h : Host) (new_path : String) :
    ∀ (n r w : Nat) (arr : Nat → String), w ≤ r →
      (∀ k, r ≤ k → k < r + n → (arr k).length < h._MAX_PATH) →
      (add_recent_disk_compact h new_path n r w arr).2 =
        w + (keptEntries h new_path ((List.range' r n).map arr)).length ∧
      (∀ j, j < (keptEntries h new_path ((List.range' r n).map arr)).length →
        (add_recent_disk_compact h new_path n r w arr).1 (w + j) =
          (keptEntries h new_path ((List.range' r n).map arr)).getD j "") ∧
      (∀ i, i < w → (add_recent_disk_compact h new_path n r w arr).1 i = arr i) ∧
      (∀ i, r + n ≤ i → (add_recent_disk_compact h new_path n r w arr).1 i = arr i) := by
  intro n
  induction n with
  | zero =>
    intro r w arr _ _
    simp [add_recent_disk_compact, keptEntries]
  | succ n ih =>
    intro r w arr hwr hfit
    by_cases he : arr r = ""
    · have hK : keptEntries h new_path ((List.range' r (n + 1)).map arr) = [] := by
        simp [keptEntries, List.range'_succ, he]
      rw [hK]
      simp [add_recent_disk_compact, he]
    · by_cases hc : h.tcsicmp (arr r) new_path ≠ 0
      · have hK : keptEntries h new_path ((List.range' r (n + 1)).map arr) =
            arr r :: keptEntries h new_path ((List.range' (r + 1) n).map arr) := by
          simp [keptEntries, List.range'_succ, he, hc]
        have harr1 : ∀ i, (if w ≠ r then
              Function.update arr w (my_tcscpy_s h (arr w) (arr r)) else arr) i =
            if i = w then arr r else arr i := by
          intro i
          by_cases hwr2 : w = r
          · subst hwr2
            by_cases hi : i = w
            · subst hi; simp
            · simp [hi]
          · by_cases hi : i = w
            · subst hi
              simp [hwr2, my_tcscpy_s_fits h _ _ (hfit r (le_refl _) (by omega))]
            · simp [hwr2, Function.update_noteq hi, hi]
        have hrest : (List.range' (r + 1) n).map (if w ≠ r then
              Function.update arr w (my_tcscpy_s h (arr w) (arr r)) else arr) =
            (List.range' (r + 1) n).map arr := by
          apply List.map_congr_left
          intro k hk
          rw [List.mem_range'_1] at hk
          rw [harr1 k, if_neg (by omega)]
        obtain ⟨h1, h2, h3, h4⟩ := ih (r + 1) (w + 1)
          (if w ≠ r then Function.update arr w (my_tcscpy_s h (arr w) (arr r)) else arr)
          (by omega)
          (by
            intro k hk1 hk2
            rw [harr1 k, if_neg (by omega)]
            exact hfit k (by omega) (by omega))
        rw [hrest] at h1 h2
        rw [hK]
        simp only [add_recent_disk_compact, if_neg he, if_pos hc, List.length_cons]
        refine ⟨by rw [h1]; omega, ?_, ?_, ?_⟩
        · intro j hj
          cases j with
          | zero =>
            have e := h3 w (by omega)
            rw [harr1 w, if_pos rfl] at e
            simpa using e
          | succ j =>
            have := h2 j (by omega)
            have hidx : w + (j + 1) = w + 1 + j := by omega
            rw [hidx, this]
            simp
        · intro i hi
          rw [h3 i (by omega), harr1 i, if_neg (by omega)]
        · intro i hi
          rw [h4 i (by omega), harr1 i, if_neg (by omega)]
      · have hK : keptEntries h new_path ((List.range' r (n + 1)).map arr) =
            keptEntries h new_path ((List.range' (r + 1) n).map arr) := by
          simp only [ne_eq, Decidable.not_not] at hc
          simp [keptEntries, List.range'_succ, he, hc]
        obtain ⟨h1, h2, h3, h4⟩ := ih (r + 1) w arr (by omega)
          (by intro k hk1 hk2; exact hfit k (by omega) (by omega))
        rw [hK]
        simp only [add_recent_disk_compact, if_neg he, if_neg hc]
        exact ⟨h1, h2, h3, fun i hi => h4 i (by omega)⟩

/-- The second loop of `add_recent_disk` empties the `n` entries from index
`i0` on and nothing else. -/
theorem add_recent_disk_clear_spec :
    ∀ (n i0 : Nat) (arr : Nat → String) (j : Nat),
      add_recent_disk_clear n i0 arr j = if i0 ≤ j ∧ j < i0 + n then "" else arr j := by
  intro n
  induction n with
  | zero =>
    intro i0 arr j
    have hn : ¬ (i0 ≤ j ∧ j < i0 + 0) := by omega
    simp only [add_recent_disk_clear, if_neg hn]
  | succ n ih =>
    intro i0 arr j
    simp only [add_recent_disk_clear]
    rw [ih]
    by_cases h1 : i0 + 1 ≤ j ∧ j < i0 + 1 + n
    · rw [if_pos h1, if_pos (by omega)]
    · rw [if_neg h1]
      by_cases h2 : j = i0
      · subst h2
        rw [Function.update_same, if_pos (by omega)]
      · rw [Function.update_noteq h2, if_neg (by omega)]

/-- The third loop of `add_recent_disk` moves the entries `0 .. i - 1` one slot
back, provided they fit their buffers. -/
theorem add_recent_disk_shift_spec (h : Host) :
    ∀ (i : Nat) (arr : Nat → String), (∀ k, k < i → (arr k).length < h._MAX_PATH) →
      ∀ j, add_recent_disk_shift h i arr j = if 1 ≤ j ∧ j ≤ i then arr (j - 1) else arr j := by
  intro i
  induction i with
  | zero =>
    intro arr _ j
    have hn : ¬ (1 ≤ j ∧ j ≤ 0) := by omega
    simp only [add_recent_disk_shift, if_neg hn]
  | succ i ih =>
    intro arr hfit j
    simp only [add_recent_disk_shift]
    rw [ih _ (by
      intro k hk
      rw [Function.update_noteq (by omega)]
      exact hfit k (by omega))]
    rw [my_tcscpy_s_fits h _ _ (hfit i (by omega))]
    by_cases h1 : 1 ≤ j ∧ j ≤ i
    · rw [if_pos h1, if_pos (by omega), Function.update_noteq (by omega)]
    · rw [if_neg h1]
      by_cases h2 : j = i + 1
      · subst h2
        rw [Function.update_same, if_pos (by omega)]
        rfl
      · rw [Function.update_noteq h2, if_neg (by omega)]

/-- An array read off as a list agrees with the padded list `L` cut to the
same length, when it agrees with `L` slot by slot. -/
theorem map_range_eq_take_padded (f : Nat → String) :
    ∀ (M s : Nat) (L : List String) (P : Nat), M ≤ P →
      (∀ j, j < M → f (s + j) = L.getD j "") →
      (List.range' s M).map f = (L ++ List.replicate P "").take M := by
  intro M
  induction M with
  | zero => intro s L P _ _; simp
  | succ M ih =>
    intro s L P hP hf
    obtain ⟨P', rfl⟩ : ∃ P', P = P' + 1 := ⟨P - 1, by omega⟩
    cases L with
    | nil =>
      have h0 := hf 0 (by omega)
      simp only [Nat.add_zero, List.getD_nil] at h0
      have hrec := ih (s + 1) [] P' (by omega) (by
        intro j hj
        have := hf (j + 1) (by omega)
        simp only [List.getD_nil] at this ⊢
        rw [← this]; congr 1; omega)
      simp only [List.nil_append] at hrec ⊢
      rw [List.range'_succ, List.map_cons, h0, hrec, List.replicate_succ, List.take_succ_cons]
    | cons a L' =>
      have h0 := hf 0 (by omega)
      simp only [Nat.add_zero, List.getD_cons_zero] at h0
      have hrec := ih (s + 1) L' (P' + 1) (by omega) (by
        intro j hj
        have := hf (j + 1) (by omega)
        simp only [List.getD_cons_succ] at this
        rw [← this]; congr 1; omega)
      rw [List.range'_succ, List.map_cons, h0, hrec, List.cons_append, List.take_succ_cons]

/-- The kept entries are entries of the old history, none of them empty and
none equal to the new path ignoring case. -/
theorem mem_keptEntries (h : Host) (path : String) (entries : List String) (e : String)
    (he : e ∈ keptEntries h path entries) :
    e ∈ entries ∧ h.tcsicmp e path ≠ 0 := by
  unfold keptEntries at he
  rw [List.mem_filter] at he
  refine ⟨List.takeWhile_subset _ he.1, ?_⟩
  simpa using he.2

/-- The array `add_recent_disk` leaves for the drive, slot by slot. -/
theorem add_recent_disk_slots (h : Host) (recent : Int → Nat → String) (path : String)
    (drv : Int) (hpath : path ≠ "") (hlen : path.length < h._MAX_PATH)
    (hdrv : drv < h.USE_FLOPPY_DISK)
    (hcap : ∀ k, k < h.MAX_HISTORY → (recent drv k).length < h._MAX_PATH) :
    (∀ d, d ≠ drv → add_recent_disk h recent path drv d = recent d) ∧
    add_recent_disk h recent path drv drv 0 = path ∧
    (∀ j, j < h.MAX_HISTORY → add_recent_disk h recent path drv drv j =
      (path :: keptEntries h path (historyOf h recent drv)).getD j "") := by
  have hguard : ¬ (path = "" ∨ drv ≥ h.USE_FLOPPY_DISK) := by
    intro hh
    rcases hh with h1 | h1
    · exact hpath h1
    · omega
  have hnew : my_tcscpy_s h "" path = path := my_tcscpy_s_fits h _ _ hlen
  obtain ⟨hc2, hc1, _, _⟩ := add_recent_disk_compact_spec h path h.MAX_HISTORY 0 0
    (recent drv) (le_refl _) (by intro k _ hk; exact hcap k (by omega))
  have hKdef : (List.range' 0 h.MAX_HISTORY).map (recent drv) = historyOf h recent drv := rfl
  rw [hKdef] at hc2 hc1
  simp only [Nat.zero_add] at hc2 hc1
  have hKlen : (keptEntries h path (historyOf h recent drv)).length ≤ h.MAX_HISTORY := by
    unfold keptEntries
    calc ((List.takeWhile (fun e => e != "") (historyOf h recent drv)).filter
            (fun e => h.tcsicmp e path != 0)).length
        ≤ (List.takeWhile (fun e => e != "") (historyOf h recent drv)).length :=
          List.length_filter_le _ _
      _ ≤ (historyOf h recent drv).length := (List.takeWhile_sublist _).length_le
      _ = h.MAX_HISTORY := by simp [historyOf]
  have hKfit : ∀ j, ((keptEntries h path (historyOf h recent drv)).getD j "").length
      < h._MAX_PATH := by
    intro j
    by_cases hj : j < (keptEntries h path (historyOf h recent drv)).length
    · rw [List.getD_eq_getElem _ _ hj]
      have hhist : ∀ e ∈ historyOf h recent drv, e.length < h._MAX_PATH := by
        intro e he
        unfold historyOf at he
        rw [List.mem_map] at he
        obtain ⟨k, hk, rfl⟩ := he
        rw [List.mem_range'_1] at hk
        exact hcap k (by omega)
      exact hhist _ (mem_keptEntries h path _ _ (List.getElem_mem hj)).1
    · rw [List.getD_eq_default _ _ (by omega)]
      show (0 : Nat) < h._MAX_PATH
      omega
  -- the array after the first two loops
  have hcleared : ∀ j, j < h.MAX_HISTORY →
      add_recent_disk_clear
        (h.MAX_HISTORY - (add_recent_disk_compact h path h.MAX_HISTORY 0 0 (recent drv)).2)
        (add_recent_disk_compact h path h.MAX_HISTORY 0 0 (recent drv)).2
        (add_recent_disk_compact h path h.MAX_HISTORY 0 0 (recent drv)).1 j =
      (keptEntries h path (historyOf h recent drv)).getD j "" := by
    intro j hj
    rw [add_recent_disk_clear_spec, hc2]
    by_cases hjk : j < (keptEntries h path (historyOf h recent drv)).length
    · rw [if_neg (by omega)]
      exact hc1 j hjk
    · rw [if_pos (by omega), List.getD_eq_default _ _ (by omega)]
  have hshift := add_recent_disk_shift_spec h (h.MAX_HISTORY - 1)
    (add_recent_disk_clear
      (h.MAX_HISTORY - (add_recent_disk_compact h path h.MAX_HISTORY 0 0 (recent drv)).2)
      (add_recent_disk_compact h path h.MAX_HISTORY 0 0 (recent drv)).2
      (add_recent_disk_compact h path h.MAX_HISTORY 0 0 (recent drv)).1)
    (by
      intro k hk
      rw [hcleared k (by omega)]
      exact hKfit k)
  refine ⟨?_, ?_, ?_⟩
  · intro d hd
    simp only [add_recent_disk, if_neg hguard, Function.update_noteq hd]
  · simp only [add_recent_disk, if_neg hguard, Function.update_same, hnew]
    exact my_tcscpy_s_fits h _ _ hlen
  · intro j hj
    simp only [add_recent_disk, if_neg hguard, Function.update_same, hnew]
    cases j with
    | zero =>
      rw [Function.update_same, List.getD_cons_zero]
      exact my_tcscpy_s_fits h _ _ hlen
    | succ j =>
      rw [Function.update_noteq (by omega), hshift (j + 1), if_pos (by omega),
        List.getD_cons_succ]
      exact hcleared j (by omega)

/-- C15: the recent-disk list is move-to-front.  For every non-empty `path`
shorter than `_MAX_PATH` and every drive below `USE_FLOPPY_DISK`, with the old
entries fitting their `_MAX_PATH` buffers, the history of the drive after
`add_recent_disk(path, drv)` is the first `MAX_HISTORY` elements of `path`
followed by the old entries up to the first empty slot, in their old order,
without those equal to `path` ignoring case, padded with empty strings; the
other drives keep their history.  In particular entry 0 is `path`, and `path`
occurs exactly once. -/
theorem C15_move_to_front (h : Host) (recent : Int → Nat → String) (path : String)
    (drv : Int) (hpath : path ≠ "") (hlen : path.length < h._MAX_PATH)
    (hdrv : drv < h.USE_FLOPPY_DISK)
    (hcap : ∀ k, k < h.MAX_HISTORY → (recent drv k).length < h._MAX_PATH) :
    historyOf h (add_recent_disk h recent path drv) drv
      = moveToFront h path (historyOf h recent drv) ∧
    (∀ d, d ≠ drv → add_recent_disk h recent path drv d = recent d) ∧
    (0 < h.MAX_HISTORY →
      add_recent_disk h recent path drv drv 0 = path ∧
      (h.tcsicmp path path = 0 →
        (historyOf h (add_recent_disk h recent path drv) drv).count path = 1)) := by
  obtain ⟨hother, h0, hslots⟩ := add_recent_disk_slots h recent path drv hpath hlen hdrv hcap
  have hlist : historyOf h (add_recent_disk h recent path drv) drv
      = moveToFront h path (historyOf h recent drv) := by
    unfold moveToFront
    conv_lhs => unfold historyOf
    apply map_range_eq_take_padded _ _ _ _ _ (le_refl _)
    intro j hj
    rw [Nat.zero_add]
    exact hslots j hj
  refine ⟨hlist, hother, ?_⟩
  intro hM
  refine ⟨h0, ?_⟩
  intro hrefl
  rw [hlist]
  unfold moveToFront
  obtain ⟨M', hM'⟩ : ∃ M', h.MAX_HISTORY = M' + 1 := ⟨h.MAX_HISTORY - 1, by omega⟩
  rw [hM', List.cons_append, List.take_succ_cons, List.count_cons_self]
  have hnot : path ∉ List.take M'
      (keptEntries h path (historyOf h recent drv) ++ List.replicate (M' + 1) "") := by
    intro hmem
    have hmem2 := List.mem_of_mem_take hmem
    rw [List.mem_append] at hmem2
    rcases hmem2 with hk | hr
    · exact (mem_keptEntries h path _ _ hk).2 hrefl
    · exact hpath (List.eq_of_mem_replicate hr)
  rw [List.count_eq_zero_of_not_mem hnot]

/-- C15 on the history `a.d88, B.D88, c.d88` of drive 0 and the path `b.d88`:
the entry `B.D88` goes, `b.d88` comes first, and the remaining entries keep
their order. -/
theorem C15_move_to_front_witness :
    (historyOf Host.example (add_recent_disk Host.example recentExample "b.d88" 0) 0
      = moveToFront Host.example "b.d88" (historyOf Host.example recentExample 0) ∧
     (∀ d, d ≠ 0 → add_recent_disk Host.example recentExample "b.d88" 0 d = recentExample d) ∧
     (0 < Host.example.MAX_HISTORY →
       add_recent_disk Host.example recentExample "b.d88" 0 0 0 = "b.d88" ∧
       (Host.example.tcsicmp "b.d88" "b.d88" = 0 →
         (historyOf Host.example (add_recent_disk Host.example recentExample "b.d88" 0)
           0).count "b.d88" = 1))) ∧
    moveToFront Host.example "b.d88" (historyOf Host.example recentExample 0)
      = ["b.d88", "a.d88", "c.d88", "", "", "", "", ""] :=
  ⟨C15_move_to_front Host.example recentExample "b.d88" 0 (by decide) (by decide)
    (by decide) (by decide),
   by decide⟩

/-! ## Theorems: key state -/

/-- C16: key-down de-duplication.  For every code in `1..255`,
`key_down(code, extended, repeat)` sets `key_status[code]` to `0x80`, leaves
the other entries alone and, with a VM attached, forwards
`vm->key_down(code, repeat)` iff bit `0x80` of `key_status[code]` was clear
before the call or `repeat` is true (otherwise it forwards nothing); for
`code <= 0` or `code >= 256` it changes nothing and forwards nothing. -/
theorem C16_key_down (s : KeyState) (code : Int) (extended is_repeat : Bool) :
    (0 < code → code < 256 →
      (key_down s code extended is_repeat).key_status
        = Function.update s.key_status code 0x80 ∧
      (s.vm = true →
        ((key_down s code extended is_repeat).calls
            = s.calls ++ [KeyCall.key_down code is_repeat] ↔
          (s.key_status code &&& 0x80 = 0 ∨ is_repeat = true)) ∧
        (¬ (s.key_status code &&& 0x80 = 0 ∨ is_repeat = true) →
          (key_down s code extended is_repeat).calls = s.calls))) ∧
    ((code ≤ 0 ∨ 256 ≤ code) → key_down s code extended is_repeat = s) := by
  constructor
  · intro h0 h1
    have hg : 0 < code ∧ code < 256 := ⟨h0, h1⟩
    simp only [key_down, if_pos hg, true_and]
    intro hvm
    by_cases hc : s.key_status code &&& 0x80 = 0 ∨ is_repeat = true
    · have hc' : s.vm = true ∧
          (((s.key_status code &&& 0x80) != 0) = false ∨ is_repeat = true) := by
        refine ⟨hvm, ?_⟩
        rcases hc with h | h
        · left; simp [h]
        · right; exact h
      simp only [if_pos hc', hc, true_iff, not_true_eq_false, false_implies, and_self]
    · have hc' : ¬ (s.vm = true ∧
          (((s.key_status code &&& 0x80) != 0) = false ∨ is_repeat = true)) := by
        intro hh
        apply hc
        rcases hh.2 with h | h
        · left; simpa using h
        · right; exact h
      simp only [if_neg hc', hc, iff_false, not_false_eq_true, true_implies, and_true]
      intro hh
      have := congrArg List.length hh
      simp at this
  · intro hout
    have hg : ¬ (0 < code ∧ code < 256) := by omega
    simp only [key_down, if_neg hg]

/-- C16 on the example state: a first press of key `0x44` is forwarded, a
second press of the held key `0x41` is not, and code 256 is ignored. -/
theorem C16_key_down_witness :
    ((key_down KeyState.example 0x44 false false).calls
        = KeyState.example.calls ++ [KeyCall.key_down 0x44 false] ↔
      (KeyState.example.key_status 0x44 &&& 0x80 = 0 ∨ false = true)) ∧
    (key_down KeyState.example 0x41 false false).calls = KeyState.example.calls ∧
    key_down KeyState.example 256 false false = KeyState.example :=
  ⟨((C16_key_down KeyState.example 0x44 false false).1 (by decide) (by decide)).2 rfl |>.1,
   ((C16_key_down KeyState.example 0x41 false false).1 (by decide) (by decide)).2 rfl |>.2
     (by decide),
   (C16_key_down KeyState.example 256 false false).2 (Or.inr (by decide))⟩

/-- The function `set_audio_pause_for_ui(pause)` leaves `audio_paused_by_ui`
equal to `pause` and touches none of the other UI members. -/
theorem set_audio_pause_for_ui_spec (s : UiState) (pause : Bool) :
    (set_audio_pause_for_ui s pause).audio_paused_by_ui = pause ∧
    (set_audio_pause_for_ui s pause).ui_interacting = s.ui_interacting ∧
    (set_audio_pause_for_ui s pause).ui_interacting_reason = s.ui_interacting_reason ∧
    (set_audio_pause_for_ui s pause).prev_ui_interacting = s.prev_ui_interacting ∧
    (set_audio_pause_for_ui s pause).show_file_browser = s.show_file_browser ∧
    (set_audio_pause_for_ui s pause).show_save_browser = s.show_save_browser := by
  unfold set_audio_pause_for_ui
  split
  · next h => exact ⟨h, rfl, rfl, rfl, rfl, rfl⟩
  · split
    · exact ⟨rfl, rfl, rfl, rfl, rfl, rfl⟩
    · split <;> exact ⟨rfl, rfl, rfl, rfl, rfl, rfl⟩

/-- The reason word `draw_screen` computes is the OR of the three flags. -/
theorem next_reason_eq (m fb sb : Bool) :
    (if sb = true then
        (if fb = true then
          (if m = true then UI_REASON_NONE ||| UI_REASON_MENU_TREE else UI_REASON_NONE)
            ||| UI_REASON_FILE_BROWSER
        else (if m = true then UI_REASON_NONE ||| UI_REASON_MENU_TREE else UI_REASON_NONE))
          ||| UI_REASON_SAVE_BROWSER
      else
        (if fb = true then
          (if m = true then UI_REASON_NONE ||| UI_REASON_MENU_TREE else UI_REASON_NONE)
            ||| UI_REASON_FILE_BROWSER
        else (if m = true then UI_REASON_NONE ||| UI_REASON_MENU_TREE else UI_REASON_NONE)))
      = reasonOf m fb sb := by
  cases m <;> cases fb <;> cases sb <;> decide

/-- What a call of `draw_screen` that reaches the UI-pause logic leaves in the
UI members. -/
theorem draw_screen_reached (s : UiState) (f : Frame) (hready : f.ready = true)
    (hinit : f.imgui_initialized = true) :
    (draw_screen s f).ui_interacting_reason =
      reasonOf (if f.menu_bar = true then f.menu_contents else false)
        f.show_file_browser f.show_save_browser ∧
    (draw_screen s f).ui_interacting = ((draw_screen s f).ui_interacting_reason
      != UI_REASON_NONE) ∧
    (draw_screen s f).prev_ui_interacting = (draw_screen s f).ui_interacting ∧
    (draw_screen s f).show_file_browser = f.show_file_browser ∧
    (draw_screen s f).show_save_browser = f.show_save_browser ∧
    ((draw_screen s f).audio_paused_by_ui = (draw_screen s f).ui_interacting ∨
      ((draw_screen s f).audio_paused_by_ui = s.audio_paused_by_ui ∧
        s.prev_ui_interacting = (draw_screen s f).ui_interacting)) := by
  have h1 : ¬ (f.ready = false) := by rw [hready]; decide
  have h2 : ¬ (f.imgui_initialized = false) := by rw [hinit]; decide
  simp only [draw_screen, if_neg h1, if_neg h2, next_reason_eq]
  generalize reasonOf (if f.menu_bar = true then f.menu_contents else false)
    f.show_file_browser f.show_save_browser = r
  have key : ∀ s2 : UiState, s2.prev_ui_interacting = s.prev_ui_interacting →
      s2.audio_paused_by_ui = s.audio_paused_by_ui →
      s2.show_file_browser = f.show_file_browser →
      s2.show_save_browser = f.show_save_browser →
      (if s2.prev_ui_interacting ≠ (r != UI_REASON_NONE) then
          set_audio_pause_for_ui s2 (r != UI_REASON_NONE) else s2).show_file_browser
        = f.show_file_browser ∧
      (if s2.prev_ui_interacting ≠ (r != UI_REASON_NONE) then
          set_audio_pause_for_ui s2 (r != UI_REASON_NONE) else s2).show_save_browser
        = f.show_save_browser ∧
      ((if s2.prev_ui_interacting ≠ (r != UI_REASON_NONE) then
          set_audio_pause_for_ui s2 (r != UI_REASON_NONE) else s2).audio_paused_by_ui
          = (r != UI_REASON_NONE) ∨
        ((if s2.prev_ui_interacting ≠ (r != UI_REASON_NONE) then
          set_audio_pause_for_ui s2 (r != UI_REASON_NONE) else s2).audio_paused_by_ui
          = s.audio_paused_by_ui ∧ s.prev_ui_interacting = (r != UI_REASON_NONE))) := by
    intro s2 e1 e2 e3 e4
    by_cases hc : s2.prev_ui_interacting ≠ (r != UI_REASON_NONE)
    · rw [if_pos hc]
      exact ⟨(set_audio_pause_for_ui_spec _ _).2.2.2.2.1.trans e3,
        (set_audio_pause_for_ui_spec _ _).2.2.2.2.2.trans e4,
        Or.inl (set_audio_pause_for_ui_spec _ _).1⟩
    · rw [if_neg hc]
      exact ⟨e3, e4, Or.inr ⟨e2, e1.symm.trans (not_not.mp hc)⟩⟩
  refine ⟨trivial, trivial, trivial, ?_⟩
  by_cases hk : s.prev_ui_interacting = false ∧ (r != UI_REASON_NONE) = true
  · rw [if_pos hk]
    exact key _ rfl rfl rfl rfl
  · rw [if_neg hk]
    exact key _ rfl rfl rfl rfl

/-- Claim C19: the UI-pause invariant `ui_interacting == prev_ui_interacting
== (ui_interacting_reason != UI_REASON_NONE) == audio_paused_by_ui` holds
after construction and is preserved by every call of `draw_screen`; a call
that reaches the UI logic leaves in `ui_interacting_reason` exactly the OR of
`MENU_TREE` (the menu bar is shown and `draw_menu_contents` reported an open
menu), `FILE_BROWSER` (`show_file_browser`) and `SAVE_BROWSER`
(`show_save_browser`); and when no menu is open and both browsers are closed,
whether or not the menu bar is shown, the call leaves `ui_interacting` and
`audio_paused_by_ui` false. -/
theorem C19_ui_pause_invariant :
    UiPauseInv OSD_new ∧
    (∀ (s : UiState) (f : Frame), UiPauseInv s → UiPauseInv (draw_screen s f)) ∧
    (∀ (s : UiState) (f : Frame), f.ready = true → f.imgui_initialized = true →
      (draw_screen s f).ui_interacting_reason =
        reasonOf (if f.menu_bar = true then f.menu_contents else false)
          (draw_screen s f).show_file_browser (draw_screen s f).show_save_browser) ∧
    (∀ (s : UiState) (f : Frame), UiPauseInv s → f.ready = true →
      f.imgui_initialized = true → f.menu_contents = false →
      (draw_screen s f).show_file_browser = false →
      (draw_screen s f).show_save_browser = false →
      (draw_screen s f).ui_interacting_reason = UI_REASON_NONE ∧
      (draw_screen s f).ui_interacting = false ∧
      (draw_screen s f).audio_paused_by_ui = false) := by
  have hpres : ∀ (s : UiState) (f : Frame), UiPauseInv s → UiPauseInv (draw_screen s f) := by
    intro s f hinv
    by_cases hready : f.ready = true
    · by_cases hinit : f.imgui_initialized = true
      · obtain ⟨-, h2, h3, -, -, h6⟩ := draw_screen_reached s f hready hinit
        refine ⟨h3.symm, h3.trans h2, ?_⟩
        rcases h6 with h6 | ⟨h6, h7⟩
        · rw [h6, h2]
        · rw [h6, ← hinv.2.2, ← hinv.2.1, h7, h2]
      · have e : draw_screen s f = s := by
          have h0 : f.imgui_initialized = false := by simpa using hinit
          simp [draw_screen, h0]
        rw [e]
        exact hinv
    · have e : draw_screen s f = s := by
        have h0 : f.ready = false := by simpa using hready
        simp [draw_screen, h0]
      rw [e]
      exact hinv
  refine ⟨⟨rfl, rfl, rfl⟩, hpres, ?_, ?_⟩
  · intro s f hready hinit
    obtain ⟨h1, -, -, h4, h5, -⟩ := draw_screen_reached s f hready hinit
    rw [h1, h4, h5]
  · intro s f hinv hready hinit hmenu hfb hsb
    obtain ⟨h1, h2, -, h4, h5, -⟩ := draw_screen_reached s f hready hinit
    have hr : (draw_screen s f).ui_interacting_reason = UI_REASON_NONE := by
      rw [h1, ← h4, ← h5, hfb, hsb, hmenu]
      cases f.menu_bar <;> rfl
    have hi : (draw_screen s f).ui_interacting = false := by
      rw [h2, hr]
      rfl
    refine ⟨hr, hi, ?_⟩
    have hinv2 := hpres s f hinv
    rw [← hinv2.2.2, ← hinv2.2.1, ← hinv2.1]
    exact hi

/-- Claim C19 at the freshly constructed object: drawing a frame with the
file browser open leaves the reason word `FILE_BROWSER` and the invariant in
force; drawing then a frame with the menu bar shown, no menu open and no
browser open leaves no reason, no interaction and no audio pause. -/
theorem C19_ui_pause_invariant_witness :
    UiPauseInv OSD_new ∧
    UiPauseInv (draw_screen OSD_new Frame.example) ∧
    (draw_screen OSD_new Frame.example).ui_interacting_reason = UI_REASON_FILE_BROWSER ∧
    ((draw_screen (draw_screen OSD_new Frame.example)
        { Frame.example with show_file_browser := false }).ui_interacting_reason
        = UI_REASON_NONE ∧
      (draw_screen (draw_screen OSD_new Frame.example)
        { Frame.example with show_file_browser := false }).ui_interacting = false ∧
      (draw_screen (draw_screen OSD_new Frame.example)
        { Frame.example with show_file_browser := false }).audio_paused_by_ui = false) :=
  ⟨C19_ui_pause_invariant.1,
   C19_ui_pause_invariant.2.1 OSD_new Frame.example C19_ui_pause_invariant.1,
   (C19_ui_pause_invariant.2.2.1 OSD_new Frame.example rfl rfl).trans (by decide),
   C19_ui_pause_invariant.2.2.2 (draw_screen OSD_new Frame.example)
     { Frame.example with show_file_browser := false }
     (C19_ui_pause_invariant.2.1 OSD_new Frame.example C19_ui_pause_invariant.1)
     rfl rfl rfl (by decide) (by decide)⟩

/-! ## Theorems: audio refill -/

/-- Three passes are enough for the first refill loop: more fuel changes
nothing once `refill_count` plus the fuel reaches three. -/
theorem refill_to_target_fuel (env : AudioEnv) (tq mq : Int) :
    ∀ (n : Nat) (st : RefillState) (m : Nat), 3 ≤ st.refill_count + n → n ≤ m →
      refill_to_target env tq mq m st = refill_to_target env tq mq n st := by
  intro n
  induction n with
  | zero =>
    intro st m h3 _
    cases m with
    | zero => rfl
    | succ m =>
      have hg : ¬ (st.queued < tq ∧ st.refill_count < 3) := by
        intro hh
        omega
      simp only [refill_to_target, if_neg hg]
  | succ n ih =>
    intro st m h3 hm
    cases m with
    | zero => omega
    | succ m =>
      simp only [refill_to_target]
      split
      · split
        · rfl
        · split
          · rfl
          · exact ih _ m (by simp only; omega) (by omega)
      · rfl

/-- Three passes are enough for the second refill loop. -/
theorem refill_to_min_fuel (env : AudioEnv) (nq : Int) :
    ∀ (n : Nat) (st : RefillState) (m : Nat), 3 ≤ st.refill_count + n → n ≤ m →
      refill_to_min env nq m st = refill_to_min env nq n st := by
  intro n
  induction n with
  | zero =>
    intro st m h3 _
    cases m with
    | zero => rfl
    | succ m =>
      have hg : ¬ (st.queued < nq ∧ st.refill_count < 3) := by
        intro hh
        omega
      simp only [refill_to_min, if_neg hg]
  | succ n ih =>
    intro st m h3 hm
    cases m with
    | zero => omega
    | succ m =>
      simp only [refill_to_min]
      split
      · split
        · rfl
        · exact ih _ m (by simp only; omega) (by omega)
      · rfl

/-- What the first refill loop does: it appends the frame counts of the
blocks it queued, adds them to the total, and queues as many blocks as it
counts refills, or one more when it left because the queue reached the
maximum. -/
theorem refill_to_target_spec (env : AudioEnv) (tq mq : Int) :
    ∀ (n : Nat) (st : RefillState), st.refill_count ≤ 3 →
      ∃ new : List Int,
        (refill_to_target env tq mq n st).queued_frames = st.queued_frames ++ new ∧
        (refill_to_target env tq mq n st).total_extra_frames
          = wrapSum st.total_extra_frames new ∧
        (refill_to_target env tq mq n st).refill_count ≤ 3 ∧
        (new.length + st.refill_count = (refill_to_target env tq mq n st).refill_count ∨
          (new.length + st.refill_count
              = (refill_to_target env tq mq n st).refill_count + 1 ∧
            (refill_to_target env tq mq n st).refill_count < 3 ∧
            mq ≤ (refill_to_target env tq mq n st).queued ∧
            st.queued < tq)) := by
  intro n
  induction n with
  | zero =>
    intro st h3
    exact ⟨[], by simp [refill_to_target], rfl, h3, Or.inl (by simp [refill_to_target])⟩
  | succ n ih =>
    intro st h3
    by_cases hg : st.queued < tq ∧ st.refill_count < 3
    · cases hp : push_audio_block env st.attempts with
      | none =>
        have e : refill_to_target env tq mq (n + 1) st
            = { st with attempts := st.attempts + 1 } := by
          simp only [refill_to_target, if_pos hg, hp]
        rw [e]
        exact ⟨[], by simp, rfl, h3, Or.inl (by simp)⟩
      | some produced =>
        by_cases hm : mq ≤ env.queued_after st.attempts
        · have e : refill_to_target env tq mq (n + 1) st
              = { queued := env.queued_after st.attempts
                  refill_count := st.refill_count
                  total_extra_frames := wrapInt (st.total_extra_frames + produced)
                  attempts := st.attempts + 1
                  queued_frames := st.queued_frames ++ [produced] } := by
            simp only [refill_to_target, if_pos hg, hp, if_pos hm]
          rw [e]
          exact ⟨[produced], rfl, rfl, h3,
            Or.inr ⟨by simp only [List.length_singleton]; omega, hg.2, hm, hg.1⟩⟩
        · have e : refill_to_target env tq mq (n + 1) st
              = refill_to_target env tq mq n
                { queued := env.queued_after st.attempts
                  refill_count := st.refill_count + 1
                  total_extra_frames := wrapInt (st.total_extra_frames + produced)
                  attempts := st.attempts + 1
                  queued_frames := st.queued_frames ++ [produced] } := by
            simp only [refill_to_target, if_pos hg, hp, if_neg hm]
          rw [e]
          obtain ⟨new, h1, h2, h4, h5⟩ := ih
            { queued := env.queued_after st.attempts
              refill_count := st.refill_count + 1
              total_extra_frames := wrapInt (st.total_extra_frames + produced)
              attempts := st.attempts + 1
              queued_frames := st.queued_frames ++ [produced] } (by simp only; omega)
          refine ⟨produced :: new, ?_, ?_, h4, ?_⟩
          · rw [h1]
            simp
          · rw [h2]
            rfl
          · simp only [List.length_cons] at h5 ⊢
            rcases h5 with h5 | ⟨h5, h6, h7, -⟩
            · left
              omega
            · right
              exact ⟨by omega, h6, h7, hg.1⟩
    · have e : refill_to_target env tq mq (n + 1) st = st := by
        simp only [refill_to_target, if_neg hg]
      rw [e]
      exact ⟨[], by simp, rfl, h3, Or.inl (by simp)⟩

/-- What the second refill loop does: it appends the frame counts of the
blocks it queued, adds them to the total, queues no more blocks than
`refill_count` leaves room for below three, and none when the queue is not
below the minimum. -/
theorem refill_to_min_spec (env : AudioEnv) (nq : Int) :
    ∀ (n : Nat) (st : RefillState), st.refill_count ≤ 3 →
      ∃ new : List Int,
        (refill_to_min env nq n st).queued_frames = st.queued_frames ++ new ∧
        (refill_to_min env nq n st).total_extra_frames
          = wrapSum st.total_extra_frames new ∧
        new.length + st.refill_count ≤ 3 ∧
        (¬ st.queued < nq → new = []) := by
  intro n
  induction n with
  | zero =>
    intro st h3
    exact ⟨[], by simp [refill_to_min], rfl, by simpa using h3, fun _ => rfl⟩
  | succ n ih =>
    intro st h3
    by_cases hg : st.queued < nq ∧ st.refill_count < 3
    · cases hp : push_audio_block env st.attempts with
      | none =>
        have e : refill_to_min env nq (n + 1) st
            = { st with attempts := st.attempts + 1 } := by
          simp only [refill_to_min, if_pos hg, hp]
        rw [e]
        exact ⟨[], by simp, rfl, by simpa using h3, fun _ => rfl⟩
      | some produced =>
        have e : refill_to_min env nq (n + 1) st
            = refill_to_min env nq n
              { queued := env.queued_after st.attempts
                refill_count := st.refill_count + 1
                total_extra_frames := wrapInt (st.total_extra_frames + produced)
                attempts := st.attempts + 1
                queued_frames := st.queued_frames ++ [produced] } := by
          simp only [refill_to_min, if_pos hg, hp]
        rw [e]
        obtain ⟨new, h1, h2, h4, -⟩ := ih
          { queued := env.queued_after st.attempts
            refill_count := st.refill_count + 1
            total_extra_frames := wrapInt (st.total_extra_frames + produced)
            attempts := st.attempts + 1
            queued_frames := st.queued_frames ++ [produced] } (by simp only; omega)
        refine ⟨produced :: new, ?_, ?_, ?_, ?_⟩
        · rw [h1]
          simp
        · rw [h2]
          rfl
        · simp only [List.length_cons] at h4 ⊢
          omega
        · intro hq
          exact absurd hg.1 hq
    · have e : refill_to_min env nq (n + 1) st = st := by
        simp only [refill_to_min, if_neg hg]
      rw [e]
      refine ⟨[], by simp, rfl, by simpa using h3, fun _ => rfl⟩

/-- The block size does not exceed the maximum when the queue length, which
is not negative, is below the target and below the maximum. -/
theorem block_le_max (ss q : Int) (h0 : 0 ≤ q) (ht : q < wrapInt (wrapInt (ss * 4) * 2))
    (hm : q < wrapInt (wrapInt (ss * 4) * 3)) :
    wrapInt (ss * 4) ≤ wrapInt (wrapInt (ss * 4) * 3) := by
  have hb : -2147483648 ≤ wrapInt (ss * 4) ∧ wrapInt (ss * 4) < 2147483648 := by
    unfold wrapInt
    omega
  generalize wrapInt (ss * 4) = bb at *
  unfold wrapInt at *
  by_cases h1 : bb < 0
  · omega
  · by_cases h2 : bb < 1073741824
    · by_cases h3 : bb * 3 < 2147483648
      · have e : (bb * 3 + 2147483648) % 4294967296 = bb * 3 + 2147483648 :=
          Int.emod_eq_of_lt (by omega) (by omega)
        rw [e]
        omega
      · have e : (bb * 3 + 2147483648) % 4294967296 = bb * 3 + 2147483648 - 4294967296 := by
          have e1 : bb * 3 + 2147483648 = (bb * 3 + 2147483648 - 4294967296) + 1 * 4294967296 := by
            ring
          have e2 : (0 : Int) ≤ bb * 3 + 2147483648 - 4294967296 := by omega
          have e3 : bb * 3 + 2147483648 - 4294967296 < 4294967296 := by omega
          have e4 := Int.emod_eq_of_lt e2 e3
          rw [← Int.add_mul_emod_self (b := 1), ← e1] at e4
          exact e4
        rw [e] at hm
        omega
    · have e : (bb * 2 + 2147483648) % 4294967296 = bb * 2 + 2147483648 - 4294967296 := by
        have e1 : bb * 2 + 2147483648 = (bb * 2 + 2147483648 - 4294967296) + 1 * 4294967296 := by
          ring
        have e2 : (0 : Int) ≤ bb * 2 + 2147483648 - 4294967296 := by omega
        have e3 : bb * 2 + 2147483648 - 4294967296 < 4294967296 := by omega
        have e4 := Int.emod_eq_of_lt e2 e3
        rw [← Int.add_mul_emod_self (b := 1), ← e1] at e4
        exact e4
      rw [e] at ht
      omega

/-- The wrapped sum of at most three values between -2^29 and 2^29 is their
sum. -/
theorem wrapSum_eq_sum (l : List Int) (hlen : l.length ≤ 3)
    (hb : ∀ f ∈ l, -536870912 ≤ f ∧ f ≤ 536870912) : wrapSum 0 l = l.sum := by
  match l, hlen, hb with
  | [], _, _ => rfl
  | [a], _, hb =>
    have ha := hb a (by simp)
    simp only [wrapSum, List.foldl, List.sum_cons, List.sum_nil, wrapInt]
    omega
  | [a, b], _, hb =>
    have ha := hb a (by simp)
    have hb2 := hb b (by simp)
    simp only [wrapSum, List.foldl, List.sum_cons, List.sum_nil, wrapInt]
    omega
  | [a, b, c], _, hb =>
    have ha := hb a (by simp)
    have hb2 := hb b (by simp)
    have hc := hb c (by simp)
    simp only [wrapSum, List.foldl, List.sum_cons, List.sum_nil, wrapInt]
    omega
  | _ :: _ :: _ :: _ :: _, hlen, _ =>
    simp only [List.length_cons] at hlen
    omega

/-- The two ways a call of `update_sound` ends: an early return, which
queues nothing and stores 0, or the two refill loops run from the first queue
length, which is then not negative and below the maximum, with the stream and
the VM present and no pause by the UI. -/
theorem update_sound_cases (s : SoundState) (cfg : SoundConfig) (env : AudioEnv)
    (extra_frames : Bool) :
    ((update_sound s cfg env extra_frames).queued_frames = [] ∧
      (update_sound s cfg env extra_frames).extra_frames
        = store_extra_frames extra_frames 0 ∧
      (update_sound s cfg env extra_frames).attempts = 0) ∨
    (s.audio_stream = true ∧ s.vm = true ∧ s.audio_paused_by_ui = false ∧
      0 ≤ env.queued0 ∧
      env.queued0 < wrapInt (wrapInt (s.sound_samples * 4) * 3) ∧
      (update_sound s cfg env extra_frames).queued_frames
        = (refill_to_min env (wrapInt (s.sound_samples * 4)) 3
            (refill_to_target env (wrapInt (wrapInt (s.sound_samples * 4) * 2))
              (wrapInt (wrapInt (s.sound_samples * 4) * 3)) 3
              ⟨env.queued0, 0, 0, 0, []⟩)).queued_frames ∧
      (update_sound s cfg env extra_frames).extra_frames
        = store_extra_frames extra_frames
          (refill_to_min env (wrapInt (s.sound_samples * 4)) 3
            (refill_to_target env (wrapInt (wrapInt (s.sound_samples * 4) * 2))
              (wrapInt (wrapInt (s.sound_samples * 4) * 3)) 3
              ⟨env.queued0, 0, 0, 0, []⟩)).total_extra_frames ∧
      (update_sound s cfg env extra_frames).attempts
        = (refill_to_min env (wrapInt (s.sound_samples * 4)) 3
            (refill_to_target env (wrapInt (wrapInt (s.sound_samples * 4) * 2))
              (wrapInt (wrapInt (s.sound_samples * 4) * 3)) 3
              ⟨env.queued0, 0, 0, 0, []⟩)).attempts) := by
  by_cases h1 : s.audio_stream = false ∨ s.vm = false
  · left
    simp only [update_sound, if_pos h1, and_self]
  · by_cases h2 : s.audio_paused_by_ui = true
    · left
      simp only [update_sound, if_neg h1, if_pos h2, and_self]
    · by_cases h3 : env.device_paused = true ∧ env.resume_ok = false
      · left
        simp only [update_sound, if_neg h1, if_neg h2, if_pos h3, and_self]
      · by_cases h4 : env.queued0 < 0
        · left
          simp only [update_sound, if_neg h1, if_neg h2, if_neg h3, if_pos h4, and_self]
        · by_cases h5 : wrapInt (wrapInt (s.sound_samples * 4) * 3) ≤ env.queued0
          · left
            simp only [update_sound, if_neg h1, if_neg h2, if_neg h3, if_neg h4, if_pos h5,
              and_self]
          · right
            have ha : s.audio_stream = true := by
              cases hs : s.audio_stream
              · exact absurd (Or.inl hs) h1
              · rfl
            have hv : s.vm = true := by
              cases hs : s.vm
              · exact absurd (Or.inr hs) h1
              · rfl
            have hu : s.audio_paused_by_ui = false := by
              cases hs : s.audio_paused_by_ui
              · rfl
              · exact absurd hs h2
            refine ⟨ha, hv, hu, not_lt.mp h4, not_le.mp h5, ?_, ?_, ?_⟩
            · simp only [update_sound, if_neg h1, if_neg h2, if_neg h3, if_neg h4, if_neg h5]
            · simp only [update_sound, if_neg h1, if_neg h2, if_neg h3, if_neg h4, if_neg h5]
            · simp only [update_sound, if_neg h1, if_neg h2, if_neg h3, if_neg h4, if_neg h5]

/-- The two refill loops of `update_sound`, run from a queue length that is
not negative and below the maximum, queue at most three blocks and leave in
`total_extra_frames` the wrapped sum of their frame counts. -/
theorem refill_loops_spec (env : AudioEnv) (ss q : Int) (h0 : 0 ≤ q)
    (hm : q < wrapInt (wrapInt (ss * 4) * 3)) :
    (refill_to_min env (wrapInt (ss * 4)) 3
      (refill_to_target env (wrapInt (wrapInt (ss * 4) * 2))
        (wrapInt (wrapInt (ss * 4) * 3)) 3 ⟨q, 0, 0, 0, []⟩)).queued_frames.length ≤ 3 ∧
    (refill_to_min env (wrapInt (ss * 4)) 3
      (refill_to_target env (wrapInt (wrapInt (ss * 4) * 2))
        (wrapInt (wrapInt (ss * 4) * 3)) 3 ⟨q, 0, 0, 0, []⟩)).total_extra_frames
      = wrapSum 0 (refill_to_min env (wrapInt (ss * 4)) 3
          (refill_to_target env (wrapInt (wrapInt (ss * 4) * 2))
            (wrapInt (wrapInt (ss * 4) * 3)) 3 ⟨q, 0, 0, 0, []⟩)).queued_frames := by
  obtain ⟨new1, a1, a2, a3, a4⟩ := refill_to_target_spec env
    (wrapInt (wrapInt (ss * 4) * 2)) (wrapInt (wrapInt (ss * 4) * 3)) 3
    ⟨q, 0, 0, 0, []⟩ (Nat.zero_le 3)
  obtain ⟨new2, b1, b2, b3, b4⟩ := refill_to_min_spec env (wrapInt (ss * 4)) 3
    (refill_to_target env (wrapInt (wrapInt (ss * 4) * 2))
      (wrapInt (wrapInt (ss * 4) * 3)) 3 ⟨q, 0, 0, 0, []⟩) a3
  simp only [List.nil_append, Nat.add_zero] at a1 a2 a4
  constructor
  · rw [b1, a1, List.length_append]
    rcases a4 with a4 | ⟨a4, a5, a6, a7⟩
    · omega
    · have hle := block_le_max ss q h0 a7 hm
      have hnil := b4 (by omega)
      rw [hnil]
      simp only [List.length_nil]
      omega
  · rw [b2, b1, a2, a1]
    simp only [wrapSum, List.foldl_append]

/-- The lambda `push_audio_block` in terms of what the VM and SDL answer: call
`k` queues a block, with the frame count `create_sound` returned, exactly when
`create_sound` returns a buffer and `SDL_PutAudioStreamData` succeeds. -/
theorem push_audio_block_eq (env : AudioEnv) :
    push_audio_block env =
      fun k => (env.create_sound k).bind
        (fun f => if env.put_ok k = true then some f else none) := by
  funext k
  unfold push_audio_block
  cases env.create_sound k <;> rfl

/-- The calls of `push_audio_block` made by the first refill loop: they are
numbered consecutively, the blocks queued are those of the calls that
returned true, and there is at most one call more than counted refills. -/
theorem refill_to_target_attempts (env : AudioEnv) (tq mq : Int) :
    ∀ (n : Nat) (st r : RefillState), r = refill_to_target env tq mq n st →
      st.attempts ≤ r.attempts ∧
      r.attempts + st.refill_count ≤ r.refill_count + st.attempts + 1 ∧
      r.queued_frames = st.queued_frames ++
        (List.range' st.attempts (r.attempts - st.attempts)).filterMap
          (push_audio_block env) := by
  intro n
  induction n with
  | zero =>
    intro st r hr
    subst hr
    refine ⟨le_refl _, by omega, by simp⟩
  | succ n ih =>
    intro st r hr
    by_cases hg : st.queued < tq ∧ st.refill_count < 3
    · cases hp : push_audio_block env st.attempts with
      | none =>
        have e : refill_to_target env tq mq (n + 1) st
            = { st with attempts := st.attempts + 1 } := by
          simp only [refill_to_target, if_pos hg, hp]
        rw [e] at hr
        subst hr
        refine ⟨by simp, by simp only; omega, ?_⟩
        have h1 : st.attempts + 1 - st.attempts = 1 := by omega
        simp only [h1, List.range'_one, List.filterMap_cons_none hp, List.filterMap_nil,
          List.append_nil]
      | some produced =>
        by_cases hm : mq ≤ env.queued_after st.attempts
        · have e : refill_to_target env tq mq (n + 1) st
              = { queued := env.queued_after st.attempts
                  refill_count := st.refill_count
                  total_extra_frames := wrapInt (st.total_extra_frames + produced)
                  attempts := st.attempts + 1
                  queued_frames := st.queued_frames ++ [produced] } := by
            simp only [refill_to_target, if_pos hg, hp, if_pos hm]
          rw [e] at hr
          subst hr
          refine ⟨by simp, by simp only; omega, ?_⟩
          have h1 : st.attempts + 1 - st.attempts = 1 := by omega
          simp only [h1, List.range'_one, List.filterMap_cons_some hp, List.filterMap_nil]
        · have e : refill_to_target env tq mq (n + 1) st
              = refill_to_target env tq mq n
                { queued := env.queued_after st.attempts
                  refill_count := st.refill_count + 1
                  total_extra_frames := wrapInt (st.total_extra_frames + produced)
                  attempts := st.attempts + 1
                  queued_frames := st.queued_frames ++ [produced] } := by
            simp only [refill_to_target, if_pos hg, hp, if_neg hm]
          rw [e] at hr
          obtain ⟨h1, h2, h3⟩ := ih _ r hr
          simp only at h1 h2 h3
          refine ⟨by omega, by omega, ?_⟩
          have hlen : r.attempts - st.attempts = (r.attempts - (st.attempts + 1)) + 1 := by
            omega
          rw [h3, hlen, List.range'_succ, List.filterMap_cons_some hp, List.append_assoc,
            List.singleton_append]
    · have e : refill_to_target env tq mq (n + 1) st = st := by
        simp only [refill_to_target, if_neg hg]
      rw [e] at hr
      subst hr
      refine ⟨le_refl _, by omega, by simp⟩

/-- The calls of `push_audio_block` made by the second refill loop: they are
numbered consecutively, the blocks queued are those of the calls that
returned true, and there are no more calls than `refill_count` leaves room for
below three. -/
theorem refill_to_min_attempts (env : AudioEnv) (nq : Int) :
    ∀ (n : Nat) (st r : RefillState), r = refill_to_min env nq n st →
      st.refill_count ≤ 3 →
      st.attempts ≤ r.attempts ∧
      r.attempts + st.refill_count ≤ st.attempts + 3 ∧
      r.queued_frames = st.queued_frames ++
        (List.range' st.attempts (r.attempts - st.attempts)).filterMap
          (push_audio_block env) := by
  intro n
  induction n with
  | zero =>
    intro st r hr h3
    subst hr
    simp [refill_to_min, h3]
  | succ n ih =>
    intro st r hr h3
    by_cases hg : st.queued < nq ∧ st.refill_count < 3
    · cases hp : push_audio_block env st.attempts with
      | none =>
        have e : refill_to_min env nq (n + 1) st
            = { st with attempts := st.attempts + 1 } := by
          simp only [refill_to_min, if_pos hg, hp]
        rw [e] at hr
        subst hr
        refine ⟨by simp, by simp only; omega, ?_⟩
        have h1 : st.attempts + 1 - st.attempts = 1 := by omega
        simp only [h1, List.range'_one, List.filterMap_cons_none hp, List.filterMap_nil,
          List.append_nil]
      | some produced =>
        have e : refill_to_min env nq (n + 1) st
            = refill_to_min env nq n
              { queued := env.queued_after st.attempts
                refill_count := st.refill_count + 1
                total_extra_frames := wrapInt (st.total_extra_frames + produced)
                attempts := st.attempts + 1
                queued_frames := st.queued_frames ++ [produced] } := by
          simp only [refill_to_min, if_pos hg, hp]
        rw [e] at hr
        obtain ⟨h1, h2, h4⟩ := ih _ r hr (by simp only; omega)
        simp only at h1 h2 h4
        refine ⟨by omega, by omega, ?_⟩
        have hlen : r.attempts - st.attempts = (r.attempts - (st.attempts + 1)) + 1 := by
          omega
        rw [h4, hlen, List.range'_succ, List.filterMap_cons_some hp, List.append_assoc,
          List.singleton_append]
    · have e : refill_to_min env nq (n + 1) st = st := by
        simp only [refill_to_min, if_neg hg]
      rw [e] at hr
      subst hr
      simp [h3]

/-- The two refill loops of `update_sound` together make at most four calls
of `push_audio_block`, numbered from 0, and the blocks they queue are those of
the calls for which `create_sound` returned a buffer and
`SDL_PutAudioStreamData` succeeded, in the order of the calls. -/
theorem refill_loops_blocks (env : AudioEnv) (nq tq mq q : Int) :
    (refill_to_min env nq 3
      (refill_to_target env tq mq 3 ⟨q, 0, 0, 0, []⟩)).attempts ≤ 4 ∧
    (refill_to_min env nq 3
      (refill_to_target env tq mq 3 ⟨q, 0, 0, 0, []⟩)).queued_frames
      = (List.range (refill_to_min env nq 3
          (refill_to_target env tq mq 3 ⟨q, 0, 0, 0, []⟩)).attempts).filterMap
        (fun k => (env.create_sound k).bind
          (fun f => if env.put_ok k = true then some f else none)) := by
  obtain ⟨a1, a2, a3⟩ := refill_to_target_attempts env tq mq 3 ⟨q, 0, 0, 0, []⟩ _ rfl
  obtain ⟨-, -, -, c3, -⟩ := refill_to_target_spec env tq mq 3 ⟨q, 0, 0, 0, []⟩
    (Nat.zero_le 3)
  obtain ⟨b1, b2, b3⟩ := refill_to_min_attempts env nq 3
    (refill_to_target env tq mq 3 ⟨q, 0, 0, 0, []⟩) _ rfl c3
  simp only [Nat.add_zero, Nat.zero_add, List.nil_append, Nat.sub_zero] at a1 a2 a3
  constructor
  · omega
  · rw [b3, a3, ← List.filterMap_append, List.range_eq_range', ← push_audio_block_eq]
    congr 1
    have hsplit : (refill_to_min env nq 3
        (refill_to_target env tq mq 3 ⟨q, 0, 0, 0, []⟩)).attempts
        = ((refill_to_min env nq 3
            (refill_to_target env tq mq 3 ⟨q, 0, 0, 0, []⟩)).attempts
              - (refill_to_target env tq mq 3 ⟨q, 0, 0, 0, []⟩).attempts)
          + (refill_to_target env tq mq 3 ⟨q, 0, 0, 0, []⟩).attempts := by omega
    conv_rhs => rw [hsplit]
    have happ := List.range'_append_1 0
      (refill_to_target env tq mq 3 ⟨q, 0, 0, 0, []⟩).attempts
      ((refill_to_min env nq 3
        (refill_to_target env tq mq 3 ⟨q, 0, 0, 0, []⟩)).attempts
          - (refill_to_target env tq mq 3 ⟨q, 0, 0, 0, []⟩).attempts)
    rw [Nat.zero_add] at happ
    exact happ

/-- Claim C20: for every answer of the audio queue and of `create_sound`, one
call of `update_sound` queues at most three blocks; it queues none, and does
not call `create_sound`, when the stream or the VM is missing, when audio is
paused by the UI, or when the queue already holds the maximum of three blocks
(`block_bytes * 3`, that is twelve bytes per sample of `sound_samples` when
the products fit an `int`); the blocks it queues are exactly those of its
calls of `create_sound`, at most four, that returned a buffer and for which
`SDL_PutAudioStreamData` succeeded, with the frame counts `create_sound`
returned, in the order of the calls; and the value it stores through a
non-null `extra_frames` is the sum of these frame counts, as accumulated in
an `int`, which is their exact sum when every frame count is between -2^29
and 2^29. -/
theorem C20_refill_bound (s : SoundState) (cfg : SoundConfig) (env : AudioEnv)
    (extra_frames : Bool) :
    (update_sound s cfg env extra_frames).queued_frames.length ≤ 3 ∧
    (s.audio_stream = false ∨ s.vm = false ∨ s.audio_paused_by_ui = true ∨
        wrapInt (wrapInt (s.sound_samples * 4) * 3) ≤ env.queued0 →
      (update_sound s cfg env extra_frames).queued_frames = [] ∧
      (update_sound s cfg env extra_frames).extra_frames
        = store_extra_frames extra_frames 0) ∧
    (0 ≤ s.sound_samples → s.sound_samples * 12 < 2147483648 →
        s.sound_samples * 12 ≤ env.queued0 →
      (update_sound s cfg env extra_frames).queued_frames = [] ∧
      (update_sound s cfg env extra_frames).extra_frames
        = store_extra_frames extra_frames 0) ∧
    (update_sound s cfg env extra_frames).extra_frames
      = store_extra_frames extra_frames
          (wrapSum 0 (update_sound s cfg env extra_frames).queued_frames) ∧
    ((∀ f ∈ (update_sound s cfg env extra_frames).queued_frames,
          -536870912 ≤ f ∧ f ≤ 536870912) →
      (update_sound s cfg env extra_frames).extra_frames
        = store_extra_frames extra_frames
            (update_sound s cfg env extra_frames).queued_frames.sum) ∧
    (update_sound s cfg env extra_frames).attempts ≤ 4 ∧
    (update_sound s cfg env extra_frames).queued_frames
      = (List.range (update_sound s cfg env extra_frames).attempts).filterMap
          (fun k => (env.create_sound k).bind
            (fun f => if env.put_ok k = true then some f else none)) ∧
    (s.audio_stream = false ∨ s.vm = false ∨ s.audio_paused_by_ui = true ∨
        wrapInt (wrapInt (s.sound_samples * 4) * 3) ≤ env.queued0 →
      (update_sound s cfg env extra_frames).attempts = 0) := by
  have hlen : (update_sound s cfg env extra_frames).queued_frames.length ≤ 3 := by
    rcases update_sound_cases s cfg env extra_frames with ⟨h, -, -⟩ | ⟨-, -, -, h0, hm, hq, -, -⟩
    · rw [h]
      decide
    · rw [hq]
      exact (refill_loops_spec env s.sound_samples env.queued0 h0 hm).1
  have hsum : (update_sound s cfg env extra_frames).extra_frames
      = store_extra_frames extra_frames
          (wrapSum 0 (update_sound s cfg env extra_frames).queued_frames) := by
    rcases update_sound_cases s cfg env extra_frames with ⟨h, he, -⟩ | ⟨-, -, -, h0, hm, hq, he, -⟩
    · rw [he, h]
      rfl
    · rw [he, hq, (refill_loops_spec env s.sound_samples env.queued0 h0 hm).2]
  have hnone : s.audio_stream = false ∨ s.vm = false ∨ s.audio_paused_by_ui = true ∨
        wrapInt (wrapInt (s.sound_samples * 4) * 3) ≤ env.queued0 →
      (update_sound s cfg env extra_frames).queued_frames = [] ∧
      (update_sound s cfg env extra_frames).extra_frames
        = store_extra_frames extra_frames 0 ∧
      (update_sound s cfg env extra_frames).attempts = 0 := by
    intro hc
    rcases update_sound_cases s cfg env extra_frames with h | ⟨ha, hv, hu, -, hm, -, -, -⟩
    · exact h
    · exfalso
      rcases hc with hc | hc | hc | hc
      · rw [ha] at hc
        exact Bool.noConfusion hc
      · rw [hv] at hc
        exact Bool.noConfusion hc
      · rw [hu] at hc
        exact Bool.noConfusion hc
      · omega
  have hblocks : (update_sound s cfg env extra_frames).attempts ≤ 4 ∧
      (update_sound s cfg env extra_frames).queued_frames
        = (List.range (update_sound s cfg env extra_frames).attempts).filterMap
            (fun k => (env.create_sound k).bind
              (fun f => if env.put_ok k = true then some f else none)) := by
    rcases update_sound_cases s cfg env extra_frames with
      ⟨h, -, ha⟩ | ⟨-, -, -, -, -, hq, -, ha⟩
    · rw [h, ha]
      exact ⟨by decide, rfl⟩
    · rw [hq, ha]
      exact refill_loops_blocks env _ _ _ _
  refine ⟨hlen, fun hc => ⟨(hnone hc).1, (hnone hc).2.1⟩, ?_, hsum, ?_, hblocks.1, hblocks.2,
    fun hc => (hnone hc).2.2⟩
  · intro h0 h1 h2
    have e : wrapInt (wrapInt (s.sound_samples * 4) * 3) = s.sound_samples * 12 := by
      have e1 : wrapInt (s.sound_samples * 4) = s.sound_samples * 4 := by
        unfold wrapInt
        omega
      rw [e1]
      unfold wrapInt
      omega
    have hn := hnone (Or.inr (Or.inr (Or.inr (by rw [e]; exact h2))))
    exact ⟨hn.1, hn.2.1⟩
  · intro hb
    rw [hsum, wrapSum_eq_sum _ hlen hb]

/-- Claim C20 on a stream whose queue starts empty with 735-sample blocks:
two blocks are queued, which fills the queue to the target, and 1470 frames
are reported; with the VM missing, or with three blocks already in the queue,
nothing is queued and 0 is reported; and when `SDL_PutAudioStreamData` fails
on the first block (`create_sound` returning 700, 701, ... frames), only the
second block is queued and 701 frames are reported. -/
theorem C20_refill_bound_witness :
    (update_sound SoundState.example ⟨false, 1⟩ AudioEnv.example true).queued_frames
      = [735, 735] ∧
    (update_sound SoundState.example ⟨false, 1⟩ AudioEnv.example true).extra_frames
      = some 1470 ∧
    ((update_sound { SoundState.example with vm := false } ⟨false, 1⟩ AudioEnv.example
        true).queued_frames = [] ∧
      (update_sound { SoundState.example with vm := false } ⟨false, 1⟩ AudioEnv.example
        true).extra_frames = some 0) ∧
    ((update_sound SoundState.example ⟨false, 1⟩ { AudioEnv.example with queued0 := 8820 }
        true).queued_frames = [] ∧
      (update_sound SoundState.example ⟨false, 1⟩ { AudioEnv.example with queued0 := 8820 }
        true).extra_frames = some 0) ∧
    (update_sound SoundState.example ⟨false, 1⟩ AudioEnv.failing true).queued_frames
      = [701] ∧
    (update_sound SoundState.example ⟨false, 1⟩ AudioEnv.failing true).extra_frames
      = some 701 :=
  ⟨((C20_refill_bound SoundState.example ⟨false, 1⟩ AudioEnv.example true).2.2.2.2.2.2.1).trans
      (by decide),
   ((C20_refill_bound SoundState.example ⟨false, 1⟩ AudioEnv.example true).2.2.2.2.1
      (by decide)).trans (by decide),
   (C20_refill_bound { SoundState.example with vm := false } ⟨false, 1⟩ AudioEnv.example
      true).2.1 (Or.inr (Or.inl rfl)),
   (C20_refill_bound SoundState.example ⟨false, 1⟩ { AudioEnv.example with queued0 := 8820 }
      true).2.2.1 (by decide) (by decide) (by decide),
   ((C20_refill_bound SoundState.example ⟨false, 1⟩ AudioEnv.failing true).2.2.2.2.2.2.1).trans
      (by decide),
   ((C20_refill_bound SoundState.example ⟨false, 1⟩ AudioEnv.failing true).2.2.2.2.1
      (by decide)).trans (by decide)⟩

/-! ## Theorems: sound configuration -/

/-- The values of `normalize_sound_rate_hz`, by the range of its argument. -/
theorem normalize_sound_rate_hz_cases (rate : Int) :
    (rate < 0 → normalize_sound_rate_hz rate = 55467) ∧
    (rate = 0 → normalize_sound_rate_hz rate = 44100) ∧
    (rate = 1 → normalize_sound_rate_hz rate = 48000) ∧
    (rate = 2 → normalize_sound_rate_hz rate = 55467) ∧
    (rate = 3 → normalize_sound_rate_hz rate = 88200) ∧
    (rate = 4 → normalize_sound_rate_hz rate = 96000) ∧
    (rate = 5 → normalize_sound_rate_hz rate = 44100) ∧
    (rate = 6 → normalize_sound_rate_hz rate = 55467) ∧
    (rate = 7 → normalize_sound_rate_hz rate = 96000) ∧
    (8 ≤ rate → normalize_sound_rate_hz rate = rate) := by
  refine ⟨?_, ?_, ?_, ?_, ?_, ?_, ?_, ?_, ?_, ?_⟩
  · intro hneg
    have h1 : ¬ (rate ≥ 0 ∧ rate < 5) := by omega
    have h5 : ¬ rate = 5 := by omega
    have h6 : ¬ rate = 6 := by omega
    have h7 : ¬ rate = 7 := by omega
    have hle : rate ≤ 0 := by omega
    simp only [normalize_sound_rate_hz, if_neg h1, if_neg h5, if_neg h6, if_neg h7, if_pos hle]
  · intro hr
    subst hr
    decide
  · intro hr
    subst hr
    decide
  · intro hr
    subst hr
    decide
  · intro hr
    subst hr
    decide
  · intro hr
    subst hr
    decide
  · intro hr
    subst hr
    decide
  · intro hr
    subst hr
    decide
  · intro hr
    subst hr
    decide
  · intro hbig
    have h1 : ¬ (rate ≥ 0 ∧ rate < 5) := by omega
    have h5 : ¬ rate = 5 := by omega
    have h6 : ¬ rate = 6 := by omega
    have h7 : ¬ rate = 7 := by omega
    have hle : ¬ rate ≤ 0 := by omega
    simp only [normalize_sound_rate_hz, if_neg h1, if_neg h5, if_neg h6, if_neg h7, if_neg hle]

/-- Every value of `normalize_sound_rate_hz` is at least 8. -/
theorem normalize_sound_rate_hz_ge (rate : Int) : 8 ≤ normalize_sound_rate_hz rate := by
  obtain ⟨hn, h0, h1, h2, h3, h4, h5, h6, h7, h8⟩ := normalize_sound_rate_hz_cases rate
  by_cases c8 : 8 ≤ rate
  · rw [h8 c8]
    exact c8
  · by_cases cn : rate < 0
    · rw [hn cn]
      decide
    · have hcases : rate = 0 ∨ rate = 1 ∨ rate = 2 ∨ rate = 3 ∨ rate = 4 ∨ rate = 5 ∨
          rate = 6 ∨ rate = 7 := by omega
      rcases hcases with c | c | c | c | c | c | c | c
      · rw [h0 c]; decide
      · rw [h1 c]; decide
      · rw [h2 c]; decide
      · rw [h3 c]; decide
      · rw [h4 c]; decide
      · rw [h5 c]; decide
      · rw [h6 c]; decide
      · rw [h7 c]; decide

/-- Claim C25: for every `rate`, `normalize_sound_rate_hz(rate)` is positive
and normalising it again changes nothing; the indices 0..4 give 44100, 48000,
55467, 88200, 96000, the legacy indices 5, 6, 7 give 44100, 55467, 96000,
negative values give 55467, and every rate from 8 on is returned
unchanged. -/
theorem C25_normalize_rate (rate : Int) :
    0 < normalize_sound_rate_hz rate ∧
    normalize_sound_rate_hz (normalize_sound_rate_hz rate) = normalize_sound_rate_hz rate ∧
    (List.range 8).map (fun i => normalize_sound_rate_hz (i : Int))
      = [44100, 48000, 55467, 88200, 96000, 44100, 55467, 96000] ∧
    (rate < 0 → normalize_sound_rate_hz rate = 55467) ∧
    (8 ≤ rate → normalize_sound_rate_hz rate = rate) := by
  have hge := normalize_sound_rate_hz_ge rate
  refine ⟨by omega, (normalize_sound_rate_hz_cases _).2.2.2.2.2.2.2.2.2 hge, by decide,
    (normalize_sound_rate_hz_cases rate).1,
    (normalize_sound_rate_hz_cases rate).2.2.2.2.2.2.2.2.2⟩

/-- Claim C25 at the rates -3 and 22050: the first is replaced by 55467, the
second is kept. -/
theorem C25_normalize_rate_witness :
    normalize_sound_rate_hz (-3) = 55467 ∧ normalize_sound_rate_hz 22050 = 22050 :=
  ⟨(C25_normalize_rate (-3)).2.2.2.1 (by decide),
   (C25_normalize_rate 22050).2.2.2.2 (by decide)⟩

/-- Claim C21: `reconfigure_sound` returns false exactly when opening the new
stream fails or resuming it fails, and then `audio_stream`, `sound_rate`,
`sound_samples`, `audio_speed_ratio`, `audio_src_rate`, `audio_dst_rate` (and
`audio_paused_by_ui`) keep their values; when it returns true, `audio_stream`
is the new stream, `sound_rate` the normalised rate, `sound_samples` the
sanitised block size, `audio_speed_ratio` is 1, and the two device rates are
the frequencies SDL reports for the new stream where it reports a positive
one, the normalised rate otherwise. -/
theorem C21_reconfigure_atomic (s : SoundDevice) (env : OpenEnv) (rate samples : Int) :
    ((reconfigure_sound s env rate samples).1 = false ↔
      (env.open_stream = none ∨ env.resume_ok = false)) ∧
    ((reconfigure_sound s env rate samples).1 = false →
      (reconfigure_sound s env rate samples).2.audio_stream = s.audio_stream ∧
      (reconfigure_sound s env rate samples).2.sound_rate = s.sound_rate ∧
      (reconfigure_sound s env rate samples).2.sound_samples = s.sound_samples ∧
      (reconfigure_sound s env rate samples).2.audio_speed_ratio = s.audio_speed_ratio ∧
      (reconfigure_sound s env rate samples).2.audio_src_rate = s.audio_src_rate ∧
      (reconfigure_sound s env rate samples).2.audio_dst_rate = s.audio_dst_rate ∧
      (reconfigure_sound s env rate samples).2.audio_paused_by_ui = s.audio_paused_by_ui) ∧
    ((reconfigure_sound s env rate samples).1 = true →
      (reconfigure_sound s env rate samples).2.audio_stream = env.open_stream ∧
      env.open_stream ≠ none ∧
      (reconfigure_sound s env rate samples).2.sound_rate = normalize_sound_rate_hz rate ∧
      (reconfigure_sound s env rate samples).2.sound_samples
        = sanitize_sound_samples_for_rate (normalize_sound_rate_hz rate) samples ∧
      (reconfigure_sound s env rate samples).2.audio_speed_ratio = 1 ∧
      (reconfigure_sound s env rate samples).2.audio_src_rate
        = (if env.format_ok = true ∧ env.src_freq > 0 then env.src_freq
            else normalize_sound_rate_hz rate) ∧
      (reconfigure_sound s env rate samples).2.audio_dst_rate
        = (if env.format_ok = true ∧ env.dst_freq > 0 then env.dst_freq
            else normalize_sound_rate_hz rate) ∧
      (reconfigure_sound s env rate samples).2.audio_paused_by_ui = s.audio_paused_by_ui) := by
  cases hopen : env.open_stream with
  | none =>
    simp [reconfigure_sound, hopen]
  | some ns =>
    cases hres : env.resume_ok with
    | false =>
      simp [reconfigure_sound, hopen, hres]
    | true =>
      cases hold : s.audio_stream with
      | none =>
        cases hp : s.audio_paused_by_ui <;> simp [reconfigure_sound, hopen, hres, hold, hp]
      | some old =>
        cases hp : s.audio_paused_by_ui <;> simp [reconfigure_sound, hopen, hres, hold, hp]

/-- Claim C21 on a device in use (stream 1, ratio 4): when the resume of the
new stream 2 fails the members are as before; when it succeeds the stream is
2, the rate 48000 (index 1), the block the 480 samples of 10 ms, the ratio 1,
and the device rates are 48000 and the reported 44100. -/
theorem C21_reconfigure_atomic_witness :
    ((reconfigure_sound SoundDevice.example ⟨some 2, false, true, 48000, 44100⟩ 1 0).2.audio_stream
        = some 1 ∧
      (reconfigure_sound SoundDevice.example ⟨some 2, false, true, 48000, 44100⟩ 1 0).2.sound_rate
        = 55467) ∧
    ((reconfigure_sound SoundDevice.example ⟨some 2, true, true, 0, 44100⟩ 1 0).2.audio_stream
        = some 2 ∧
      (reconfigure_sound SoundDevice.example ⟨some 2, true, true, 0, 44100⟩ 1 0).2.sound_rate
        = 48000 ∧
      (reconfigure_sound SoundDevice.example ⟨some 2, true, true, 0, 44100⟩ 1 0).2.sound_samples
        = 480 ∧
      (reconfigure_sound SoundDevice.example ⟨some 2, true, true, 0, 44100⟩ 1 0).2.audio_speed_ratio
        = 1 ∧
      (reconfigure_sound SoundDevice.example ⟨some 2, true, true, 0, 44100⟩ 1 0).2.audio_src_rate
        = 48000 ∧
      (reconfigure_sound SoundDevice.example ⟨some 2, true, true, 0, 44100⟩ 1 0).2.audio_dst_rate
        = 44100) :=
  ⟨⟨((C21_reconfigure_atomic SoundDevice.example ⟨some 2, false, true, 48000, 44100⟩ 1 0).2.1
        (by decide)).1,
    ((C21_reconfigure_atomic SoundDevice.example ⟨some 2, false, true, 48000, 44100⟩ 1 0).2.1
        (by decide)).2.1⟩,
   ((C21_reconfigure_atomic SoundDevice.example ⟨some 2, true, true, 0, 44100⟩ 1 0).2.2
        (by decide)).1,
   (((C21_reconfigure_atomic SoundDevice.example ⟨some 2, true, true, 0, 44100⟩ 1 0).2.2
        (by decide)).2.2.1).trans (by decide),
   (((C21_reconfigure_atomic SoundDevice.example ⟨some 2, true, true, 0, 44100⟩ 1 0).2.2
        (by decide)).2.2.2.1).trans (by decide),
   ((C21_reconfigure_atomic SoundDevice.example ⟨some 2, true, true, 0, 44100⟩ 1 0).2.2
        (by decide)).2.2.2.2.1,
   (((C21_reconfigure_atomic SoundDevice.example ⟨some 2, true, true, 0, 44100⟩ 1 0).2.2
        (by decide)).2.2.2.2.2.1).trans (by decide),
   (((C21_reconfigure_atomic SoundDevice.example ⟨some 2, true, true, 0, 44100⟩ 1 0).2.2
        (by decide)).2.2.2.2.2.2.1).trans (by decide)⟩

/-! ## Theorems: VM screen size -/

/-- After `set_vm_screen_size` the members `vm_screen_width` and
`vm_screen_height` hold the requested size. -/
theorem set_vm_screen_size_spec (s : ScreenState) (malloc_ok texture_ok : Bool)
    (sw sh ww wh wa ha : Int) :
    (set_vm_screen_size s malloc_ok texture_ok sw sh ww wh wa ha).vm_screen_width = sw ∧
    (set_vm_screen_size s malloc_ok texture_ok sw sh ww wh wa ha).vm_screen_height = sh := by
  unfold set_vm_screen_size
  by_cases h1 : s.vm_screen_width = sw ∧ s.vm_screen_height = sh ∧
      s.vm_screen_buffer = true ∧ s.screen_texture = true
  · rw [if_pos h1]
    exact ⟨h1.1, h1.2.1⟩
  · rw [if_neg h1]
    by_cases h2 : s.vm_screen_width ≠ sw ∨ s.vm_screen_height ≠ sh ∨
        s.vm_screen_buffer = false
    · simp only [if_pos h2]
      split <;> exact ⟨rfl, rfl⟩
    · simp only [if_neg h2]
      have hw : s.vm_screen_width = sw := by
        by_contra hc
        exact h2 (Or.inl hc)
      have hh : s.vm_screen_height = sh := by
        by_contra hc
        exact h2 (Or.inr (Or.inl hc))
      split <;> exact ⟨hw, hh⟩

/-- The height `set_vm_screen_lines(lines)` leaves in `vm_screen_height`, and
the width it leaves in `vm_screen_width`. -/
theorem set_vm_screen_lines_spec (s : ScreenState) (malloc_ok texture_ok : Bool)
    (lines : Int) :
    (set_vm_screen_lines s malloc_ok texture_ok lines).vm_screen_width = 640 ∧
    (set_vm_screen_lines s malloc_ok texture_ok lines).vm_screen_height
      = (if lines ≤ 200 then 400 else lines) := by
  unfold set_vm_screen_lines
  exact set_vm_screen_size_spec s malloc_ok texture_ok 640 _ 640 _ 640 _

/-- Claim C23 as stated fails: the height is not 400 for every value of
`lines`.  On a screen with nothing allocated yet, `set_vm_screen_lines(300)`
leaves a screen 640 wide and 300 high. -/
theorem C23_always_400_counterexample :
    ¬ (∀ (s : ScreenState) (malloc_ok texture_ok : Bool) (lines : Int),
        (set_vm_screen_lines s malloc_ok texture_ok lines).vm_screen_height = 400) ∧
    (set_vm_screen_lines ScreenState.example true true 300).vm_screen_width = 640 ∧
    (set_vm_screen_lines ScreenState.example true true 300).vm_screen_height = 300 := by
  have h300 : (set_vm_screen_lines ScreenState.example true true 300).vm_screen_height
      = 300 := by
    rw [(set_vm_screen_lines_spec ScreenState.example true true 300).2]
    decide
  refine ⟨?_, (set_vm_screen_lines_spec ScreenState.example true true 300).1, h300⟩
  intro hall
  have h400 := hall ScreenState.example true true 300
  rw [h300] at h400
  exact absurd h400 (by decide)

/-- Claim C23, amended: for every value of `lines`, `set_vm_screen_lines(lines)`
leaves a VM screen 640 wide whose height is 400 when `lines <= 200` (200-line
modes are doubled) and `lines` itself otherwise (400-line modes are native);
so the height is 400 exactly when `lines <= 200` or `lines = 400`, and it is
400 for the two modes 200 and 400. -/
theorem C23_screen_height (s : ScreenState) (malloc_ok texture_ok : Bool) (lines : Int) :
    (set_vm_screen_lines s malloc_ok texture_ok lines).vm_screen_width = 640 ∧
    (set_vm_screen_lines s malloc_ok texture_ok lines).vm_screen_height
      = (if lines ≤ 200 then 400 else lines) ∧
    ((set_vm_screen_lines s malloc_ok texture_ok lines).vm_screen_height = 400 ↔
      (lines ≤ 200 ∨ lines = 400)) ∧
    (set_vm_screen_lines s malloc_ok texture_ok 200).vm_screen_height = 400 ∧
    (set_vm_screen_lines s malloc_ok texture_ok 400).vm_screen_height = 400 := by
  refine ⟨(set_vm_screen_lines_spec s malloc_ok texture_ok lines).1,
    (set_vm_screen_lines_spec s malloc_ok texture_ok lines).2, ?_, ?_, ?_⟩
  · rw [(set_vm_screen_lines_spec s malloc_ok texture_ok lines).2]
    by_cases hl : lines ≤ 200
    · rw [if_pos hl]
      exact ⟨fun _ => Or.inl hl, fun _ => rfl⟩
    · rw [if_neg hl]
      constructor
      · intro h4
        exact Or.inr h4
      · intro h4
        rcases h4 with h4 | h4
        · exact absurd h4 hl
        · exact h4
  · rw [(set_vm_screen_lines_spec s malloc_ok texture_ok 200).2]
    decide
  · rw [(set_vm_screen_lines_spec s malloc_ok texture_ok 400).2]
    decide

/-! ## Theorems: a well-formed recent-disk list -/

/-- The entries of an array before its first empty slot, read off as a list:
entry `i` of the list is slot `s + i`, and the slots up to it are not
empty. -/
theorem takeWhile_nonEmpty_spec (f : Nat → String) :
    ∀ (n s i : Nat),
      i < (((List.range' s n).map f).takeWhile (fun e => e != "")).length →
      (((List.range' s n).map f).takeWhile (fun e => e != "")).getD i "" = f (s + i) ∧
      ∀ k, k ≤ i → f (s + k) ≠ "" := by
  intro n
  induction n with
  | zero =>
    intro s i hi
    simp at hi
  | succ n ih =>
    intro s i hi
    rw [List.range'_succ, List.map_cons] at hi ⊢
    by_cases he : f s = ""
    · simp [List.takeWhile_cons, he] at hi
    · have hq : (f s != "") = true := by simpa using he
      rw [List.takeWhile_cons, if_pos hq] at hi ⊢
      cases i with
      | zero =>
        refine ⟨by simp, ?_⟩
        intro k hk
        have hk0 : k = 0 := by omega
        subst hk0
        simpa using he
      | succ i =>
        simp only [List.length_cons] at hi
        obtain ⟨h1, h2⟩ := ih (s + 1) i (by omega)
        refine ⟨?_, ?_⟩
        · rw [List.getD_cons_succ, h1]
          congr 1
          omega
        · intro k hk
          cases k with
          | zero => simpa using he
          | succ k =>
            have := h2 k (by omega)
            have hidx : s + (k + 1) = s + 1 + k := by omega
            rw [hidx]
            exact this

/-- The kept entries are not empty. -/
theorem keptEntries_ne_empty (h : Host) (path : String) (entries : List String) (e : String)
    (he : e ∈ keptEntries h path entries) : e ≠ "" := by
  unfold keptEntries at he
  rw [List.mem_filter] at he
  have := List.mem_takeWhile_imp he.1
  simpa using this

/-- The kept entries are pairwise different ignoring case when the old entries
before the first empty slot are. -/
theorem keptEntries_pairwise (h : Host) (recent : Int → Nat → String) (path : String)
    (drv : Int) (hdist : DistinctBeforeEmpty h recent drv) :
    (keptEntries h path (historyOf h recent drv)).Pairwise
      (fun a b => h.tcsicmp a b ≠ 0 ∧ h.tcsicmp b a ≠ 0) := by
  unfold keptEntries
  apply List.Pairwise.filter
  rw [List.pairwise_iff_getElem]
  intro i j hi hj hij
  unfold historyOf at hi hj ⊢
  obtain ⟨ei, hki⟩ := takeWhile_nonEmpty_spec (recent drv) h.MAX_HISTORY 0 i hi
  obtain ⟨ej, hkj⟩ := takeWhile_nonEmpty_spec (recent drv) h.MAX_HISTORY 0 j hj
  rw [List.getD_eq_getElem _ _ hi] at ei
  rw [List.getD_eq_getElem _ _ hj] at ej
  simp only [Nat.zero_add] at ei ej hki hkj
  have hlen : (((List.range' 0 h.MAX_HISTORY).map (recent drv)).takeWhile
      (fun e => e != "")).length ≤ h.MAX_HISTORY := by
    calc _ ≤ ((List.range' 0 h.MAX_HISTORY).map (recent drv)).length :=
          (List.takeWhile_sublist _).length_le
      _ = h.MAX_HISTORY := by simp
  rw [ei, ej]
  exact ⟨hdist i j (by omega) (by omega) (by omega) hki hkj,
    hdist j i (by omega) (by omega) (by omega) hkj hki⟩

set_option maxRecDepth 20000 in
/-- Claim C24 as stated fails for a path that does not fit `_MAX_PATH`: on
the example host, whose `my_tcscpy_s` leaves the destination as it was when
the source does not fit, `add_recent_disk` with the 260-character path on the
history `a.d88, B.D88, c.d88` of drive 0 leaves slot 0 empty and `a.d88` in
slot 1, so an empty entry precedes a non-empty one. -/
theorem C24_long_path_counterexample :
    longPath ≠ "" ∧ (0 : Int) < Host.example.USE_FLOPPY_DISK ∧
    add_recent_disk Host.example recentExample longPath 0 0 0 = "" ∧
    add_recent_disk Host.example recentExample longPath 0 0 1 = "a.d88" ∧
    ¬ CompactHistory Host.example (add_recent_disk Host.example recentExample longPath 0) 0 := by
  have h0 : add_recent_disk Host.example recentExample longPath 0 0 0 = "" := by decide
  have h1 : add_recent_disk Host.example recentExample longPath 0 0 1 = "a.d88" := by decide
  refine ⟨by decide, by decide, h0, h1, ?_⟩
  intro hc
  have h2 := hc 0 1 (by decide) (by decide) h0
  rw [h1] at h2
  exact absurd h2 (by decide)

/-- Claim C24, amended: after `add_recent_disk(path, drv)` with a non-empty path that
fits its buffer and a valid drive, the old entries fitting their buffers, the
history of the drive is compact: no empty entry precedes a non-empty one.
And if before the call no two entries before the first empty slot were equal
ignoring case, then after it no two non-empty entries are, `_tcsicmp` finding
two strings equal in one order when it does in the other. -/
theorem C24_history_well_formed (h : Host) (recent : Int → Nat → String) (path : String)
    (drv : Int) (hpath : path ≠ "") (hlen : path.length < h._MAX_PATH)
    (hdrv : drv < h.USE_FLOPPY_DISK)
    (hcap : ∀ k, k < h.MAX_HISTORY → (recent drv k).length < h._MAX_PATH) :
    CompactHistory h (add_recent_disk h recent path drv) drv ∧
    ((∀ a b, h.tcsicmp a b = 0 → h.tcsicmp b a = 0) →
      DistinctBeforeEmpty h recent drv →
      DistinctNonEmpty h (add_recent_disk h recent path drv) drv) := by
  obtain ⟨-, -, hslots⟩ := add_recent_disk_slots h recent path drv hpath hlen hdrv hcap
  have hne : ∀ e ∈ path :: keptEntries h path (historyOf h recent drv), e ≠ "" := by
    intro e he
    rcases List.mem_cons.mp he with h1 | h1
    · rw [h1]
      exact hpath
    · exact keptEntries_ne_empty h path _ e h1
  have hin : ∀ j, j < h.MAX_HISTORY → add_recent_disk h recent path drv drv j ≠ "" →
      j < (path :: keptEntries h path (historyOf h recent drv)).length := by
    intro j hj hnz
    by_contra hc
    apply hnz
    rw [hslots j hj, List.getD_eq_default _ _ (by omega)]
  constructor
  · intro i j hij hj hi
    by_contra hnz
    have hjl := hin j hj hnz
    have hil : i < (path :: keptEntries h path (historyOf h recent drv)).length := by omega
    rw [hslots i (by omega), List.getD_eq_getElem _ _ hil] at hi
    exact hne _ (List.getElem_mem hil) hi
  · intro hsymm hdist
    have hpw : (path :: keptEntries h path (historyOf h recent drv)).Pairwise
        (fun a b => h.tcsicmp a b ≠ 0 ∧ h.tcsicmp b a ≠ 0) := by
      rw [List.pairwise_cons]
      refine ⟨?_, keptEntries_pairwise h recent path drv hdist⟩
      intro e he
      have h1 := (mem_keptEntries h path _ e he).2
      exact ⟨fun h0 => h1 (hsymm _ _ h0), h1⟩
    rw [List.pairwise_iff_getElem] at hpw
    intro i j hi hj hij hni hnj
    have hil := hin i hi hni
    have hjl := hin j hj hnj
    rw [hslots i hi, hslots j hj, List.getD_eq_getElem _ _ hil, List.getD_eq_getElem _ _ hjl]
    rcases Nat.lt_or_gt_of_ne hij with hlt | hgt
    · exact (hpw i j hil hjl hlt).1
    · exact (hpw j i hjl hil hgt).2

/-- The comparison of the example host is symmetric. -/
theorem Host.example_tcsicmp_symm (a b : String) (hab : Host.example.tcsicmp a b = 0) :
    Host.example.tcsicmp b a = 0 := by
  simp only [Host.example] at hab ⊢
  by_cases heq : a.toList.map Char.toLower = b.toList.map Char.toLower
  · rw [if_pos heq.symm]
  · rw [if_neg heq] at hab
    exact absurd hab (by decide)

/-- The example history has no two entries before its first empty slot equal
ignoring case. -/
theorem recentExample_distinct : DistinctBeforeEmpty Host.example recentExample 0 := by
  intro i j _ _ hij hki hkj
  have hi3 : i < 3 := by
    by_contra hc
    exact hki 3 (by omega) (by decide)
  have hj3 : j < 3 := by
    by_contra hc
    exact hkj 3 (by omega) (by decide)
  interval_cases i <;> interval_cases j <;> first | omega | decide

/-- Claim C24 on the history `a.d88, B.D88, c.d88` of drive 0 and the path
`b.d88`: the new history is compact and has no two non-empty entries equal
ignoring case. -/
theorem C24_history_well_formed_witness :
    CompactHistory Host.example (add_recent_disk Host.example recentExample "b.d88" 0) 0 ∧
    DistinctNonEmpty Host.example (add_recent_disk Host.example recentExample "b.d88" 0) 0 :=
  ⟨(C24_history_well_formed Host.example recentExample "b.d88" 0 (by decide) (by decide)
      (by decide) (by decide)).1,
   (C24_history_well_formed Host.example recentExample "b.d88" 0 (by decide) (by decide)
      (by decide) (by decide)).2 Host.example_tcsicmp_symm recentExample_distinct⟩

/-! ## Theorems: automatic load of the second drive -/

/-- The function `get_disk_names` never touches `floppy_disk_status`. -/
theorem get_disk_names_status (h : Host) (files : Files) (path : String) (drv : Int)
    (em : EMU) :
    ((get_disk_names h files path drv (some em)).emu.getD em).floppy_disk_status
      = em.floppy_disk_status := by
  cases hopen : files (h.utf8_path_to_tchar path) with
  | none => simp only [get_disk_names, FILEIO.Fopen, hopen, Option.getD_some]
  | some bytes =>
    rw [(get_disk_names_of_open h files path drv em bytes hopen).2.1]
    rfl

/-- The insertion sequence on `emu` stores the path and the bank in the
status of the drive and leaves the status of the other drives alone. -/
theorem insert_into_emu_status (h : Host) (files : Files) (em : EMU) (drv : Int)
    (status_path names_path : String) (bank : Int) :
    (insert_into_emu h files em drv status_path names_path bank).1.floppy_disk_status
      = Function.update em.floppy_disk_status drv
          (FloppyStatus.mk (my_tcscpy_s h (em.floppy_disk_status drv).path status_path)
            bank) := by
  simp only [insert_into_emu]
  exact get_disk_names_status h files names_path drv _

/-- The function `add_recent_disk(path, drv)` leaves the history of every
other drive alone. -/
theorem add_recent_disk_other (h : Host) (recent : Int → Nat → String) (path : String)
    (drv d : Int) (hd : d ≠ drv) : add_recent_disk h recent path drv d = recent d := by
  unfold add_recent_disk
  split
  · rfl
  · exact Function.update_noteq hd _ _

/-- Claim C22: a click in the file browser with a VM and an `EMU` present.
With `pending_drive == 0`, drive 0 receives bank 0 of the file (status bank
0, `cur_bank` 0, one `open_floppy_disk(0, path, 0)`).  If `fd2_path` is empty
and `get_disk_names` counts at least two banks in the file, drive 1 receives
bank 1 of the same file (status path, status bank 1, `cur_bank` 1, one
`open_floppy_disk(1, path, 1)`); otherwise no call is made for drive 1 and
its status, its `d88_file` entry, `fd2_path` and its history are unchanged.
With `pending_drive != 0`, whether or not a VM or an `EMU` is present, the
only call made is `open_floppy_disk(1, path, 0)` and the status, the
`d88_file` entry, `fd1_path` and the history of drive 0 are unchanged. -/
theorem C22_second_drive_autoload (h : Host) (s : OSD) (full_path display_name : String) :
    (∀ em : EMU, s.vm = true → s.emu = some em → s.pending_drive = 0 →
      ∃ em' : EMU, (file_browser_click h s full_path display_name).emu = some em' ∧
        (em'.floppy_disk_status 0).bank = 0 ∧ (em'.d88_file 0).cur_bank = 0 ∧
        (em'.floppy_disk_status 0).path
          = my_tcscpy_s h (em.floppy_disk_status 0).path (h.utf8_path_to_tchar full_path) ∧
        ((s.fd2_path = "" ∧ 2 ≤ (get_disk_names h s.files full_path 0 (some em)).ret) →
          (em'.floppy_disk_status 1).bank = 1 ∧ (em'.d88_file 1).cur_bank = 1 ∧
          (em'.floppy_disk_status 1).path
            = my_tcscpy_s h (em.floppy_disk_status 1).path (h.utf8_path_to_tchar full_path) ∧
          (file_browser_click h s full_path display_name).vm_calls
            = s.vm_calls ++ [VMCall.open_floppy_disk 0 (h.utf8_path_to_tchar full_path) 0,
                VMCall.open_floppy_disk 1 (h.utf8_path_to_tchar full_path) 1]) ∧
        (¬ (s.fd2_path = "" ∧ 2 ≤ (get_disk_names h s.files full_path 0 (some em)).ret) →
          em'.floppy_disk_status 1 = em.floppy_disk_status 1 ∧
          em'.d88_file 1 = em.d88_file 1 ∧
          (file_browser_click h s full_path display_name).fd2_path = s.fd2_path ∧
          (file_browser_click h s full_path display_name).recent 1 = s.recent 1 ∧
          (file_browser_click h s full_path display_name).vm_calls
            = s.vm_calls ++ [VMCall.open_floppy_disk 0 (h.utf8_path_to_tchar full_path) 0])) ∧
    (s.pending_drive ≠ 0 →
      (file_browser_click h s full_path display_name).fd1_path = s.fd1_path ∧
      (file_browser_click h s full_path display_name).recent 0 = s.recent 0 ∧
      (file_browser_click h s full_path display_name).vm_calls
        = s.vm_calls ++ (if s.vm = true then
            [VMCall.open_floppy_disk 1 (h.utf8_path_to_tchar full_path) 0] else []) ∧
      (s.emu = none → (file_browser_click h s full_path display_name).emu = none) ∧
      (∀ em : EMU, s.emu = some em →
        ∃ em' : EMU, (file_browser_click h s full_path display_name).emu = some em' ∧
          em'.floppy_disk_status 0 = em.floppy_disk_status 0 ∧
          em'.d88_file 0 = em.d88_file 0)) := by
  have h01 : (0 : Int) ≠ 1 := by decide
  have h10 : (1 : Int) ≠ 0 := by decide
  constructor
  · intro em hvm hemu hp
    have hbanks : (insert_into_emu h s.files em 0 (h.utf8_path_to_tchar full_path)
        full_path 0).2 = (get_disk_names h s.files full_path 0 (some em)).ret :=
      (insert_into_emu_spec h s.files em 0 (h.utf8_path_to_tchar full_path) full_path 0).2.2.1
    by_cases ha : s.fd2_path = "" ∧
        (insert_into_emu h s.files em 0 (h.utf8_path_to_tchar full_path) full_path 0).2 ≥ 2
    · have hc : s.fd2_path = "" ∧ 2 ≤ (get_disk_names h s.files full_path 0 (some em)).ret :=
        ⟨ha.1, by rw [← hbanks]; exact ha.2⟩
      simp only [file_browser_click, hemu, if_pos hp, if_pos hvm, if_pos ha]
      refine ⟨_, rfl, ?_, ?_, ?_, ?_, ?_⟩
      · rw [insert_into_emu_status, Function.update_noteq h01, insert_into_emu_status,
          Function.update_same]
      · rw [(insert_into_emu_spec h s.files _ 1 _ _ 1).2.1 0 h01]
        exact (insert_into_emu_spec h s.files em 0 _ _ 0).1
      · rw [insert_into_emu_status, Function.update_noteq h01, insert_into_emu_status,
          Function.update_same]
      · intro _
        refine ⟨?_, ?_, ?_, ?_⟩
        · rw [insert_into_emu_status, Function.update_same]
        · exact (insert_into_emu_spec h s.files _ 1 _ _ 1).1
        · rw [insert_into_emu_status, Function.update_same, insert_into_emu_status,
            Function.update_noteq h10]
        · simp only [List.append_assoc, List.singleton_append]
      · intro hn
        exact absurd hc hn
    · have hc : ¬ (s.fd2_path = "" ∧
          2 ≤ (get_disk_names h s.files full_path 0 (some em)).ret) := by
        intro hh
        exact ha ⟨hh.1, by rw [hbanks]; exact hh.2⟩
      simp only [file_browser_click, hemu, if_pos hp, if_pos hvm, if_neg ha]
      refine ⟨_, rfl, ?_, ?_, ?_, ?_, ?_⟩
      · rw [insert_into_emu_status, Function.update_same]
      · exact (insert_into_emu_spec h s.files em 0 _ _ 0).1
      · rw [insert_into_emu_status, Function.update_same]
      · intro hh
        exact absurd hh hc
      · intro _
        refine ⟨?_, ?_, trivial, ?_, trivial⟩
        · rw [insert_into_emu_status, Function.update_noteq h10]
        · exact (insert_into_emu_spec h s.files em 0 _ _ 0).2.1 1 h10
        · exact add_recent_disk_other h _ _ 0 1 h10
  · intro hp
    by_cases hvm : s.vm = true
    · cases hemu : s.emu with
      | none =>
        simp only [file_browser_click, hemu, if_neg hp, if_pos hvm]
        refine ⟨trivial, add_recent_disk_other h _ _ 1 0 h01, trivial, ?_, ?_⟩
        · intro _
          trivial
        · intro em he
          exact absurd he (by simp)
      | some em0 =>
        simp only [file_browser_click, hemu, if_neg hp, if_pos hvm]
        refine ⟨trivial, add_recent_disk_other h _ _ 1 0 h01, trivial, ?_, ?_⟩
        · intro he
          exact absurd he (by simp)
        · intro em he
          have hem : em0 = em := Option.some.inj he
          subst hem
          refine ⟨_, rfl, ?_, ?_⟩
          · rw [insert_into_emu_status, Function.update_noteq h01]
          · exact (insert_into_emu_spec h s.files em0 1 _ _ 0).2.1 0 h01
    · simp only [file_browser_click, if_neg hp, if_neg hvm]
      refine ⟨trivial, trivial, by simp, fun he => he, fun em he => ⟨em, he, rfl, rfl⟩⟩

/-- Claim C22 on the example state with FD2 empty: inserting the two-bank
image `two.d88` into FD1 puts bank 0 into drive 0 and bank 1 into drive 1;
and inserting it into FD2 leaves the `d88_file` entry of drive 0 as it
was. -/
theorem C22_second_drive_autoload_witness :
    (∃ em' : EMU,
      (file_browser_click Host.example { OSD.example with fd2_path := "" }
        "two.d88" "two.d88").emu = some em' ∧
      (em'.floppy_disk_status 0).bank = 0 ∧ (em'.d88_file 0).cur_bank = 0 ∧
      (em'.floppy_disk_status 1).bank = 1 ∧ (em'.d88_file 1).cur_bank = 1 ∧
      (file_browser_click Host.example { OSD.example with fd2_path := "" }
        "two.d88" "two.d88").vm_calls
        = [VMCall.open_floppy_disk 0 "two.d88" 0, VMCall.open_floppy_disk 1 "two.d88" 1]) ∧
    (∃ em' : EMU,
      (file_browser_click Host.example { OSD.example with pending_drive := 1 }
        "two.d88" "two.d88").emu = some em' ∧
      em'.d88_file 0 = EMU.example.d88_file 0 ∧
      (file_browser_click Host.example { OSD.example with pending_drive := 1 }
        "two.d88" "two.d88").vm_calls = [VMCall.open_floppy_disk 1 "two.d88" 0]) := by
  constructor
  · obtain ⟨em', he, h0, h1, -, hyes, -⟩ :=
      (C22_second_drive_autoload Host.example { OSD.example with fd2_path := "" }
        "two.d88" "two.d88").1 EMU.example rfl rfl rfl
    have hcond := hyes ⟨rfl, by decide⟩
    exact ⟨em', he, h0, h1, hcond.1, hcond.2.1, hcond.2.2.2⟩
  · obtain ⟨-, -, hcalls, -, hemu⟩ :=
      (C22_second_drive_autoload Host.example { OSD.example with pending_drive := 1 }
        "two.d88" "two.d88").2 (by decide)
    obtain ⟨em', he, -, hd⟩ := hemu EMU.example rfl
    exact ⟨em', he, hd, hcalls⟩

end PC88
